import Mathlib

/-! NativeTriTree (G3D-app.lib/source/NativeTriTree.cpp)

A shallow embedding of the bounding-volume hierarchy of `NativeTriTree.cpp`.

Conventions of the embedding:

* a C++ `float` is a rational number; the one special value the code computes
  with, `+inf`, is carried by `EFloat`.  The rounding of an arithmetic result
  to binary32 is `Float32.round`; it is applied after every float operation of
  `badSplit`, `chooseMedianAreaSplitLocation` and `Triangle::intersect`, and
  the float literals of these functions are the binary32 values.  The other
  functions are evaluated in exact arithmetic.  NaN, signed zero and overflow
  to infinity are outside the model;
* a `const Tri*` into `m_triArray` is the index of that triangle in the array;
* an array is a list; during the build a read outside an array is a fault
  (`none`); a triangle or vertex index that points outside its array reads a
  zero record;
* by-reference output parameters are returned as part of the result;
* the arena memory manager is not modelled: a node owns its children.
-/

namespace G3D

/-! ## Geometry primitives -/

/-- Modelled from the spec: the axis tag `Vector3::Axis`, with `X_AXIS = 0`,
`Y_AXIS = 1`, `Z_AXIS = 2`. -/
inductive Axis where
  | X
  | Y
  | Z
deriving DecidableEq, Repr

/-- The expression `Vector3::Axis((a + 1) % 3)` of `Node::split`. -/
def Axis.succ3 : Axis → Axis
  | .X => .Y
  | .Y => .Z
  | .Z => .X

/-- A float that is finite or `+inf` (the value of `inf()` and of an unbounded
ray's `maxDistance()`). -/
inductive EFloat where
  | fin (q : ℚ)
  | inf
deriving DecidableEq

/-- The comparison `a <= b` of a finite float with a possibly infinite one. -/
def EFloat.leOf (a : ℚ) : EFloat → Bool
  | .fin b => decide (a ≤ b)
  | .inf => true

/-- The comparison `a >= b` of a finite float with a possibly infinite one. -/
def EFloat.geOf (a : ℚ) : EFloat → Bool
  | .fin b => decide (a ≥ b)
  | .inf => false

/-- The comparison `a < b` of a finite float with a possibly infinite one. -/
def EFloat.ltOf (a : ℚ) : EFloat → Bool
  | .fin b => decide (a < b)
  | .inf => true

/-- The comparison `a > b` of a finite float with a possibly infinite one. -/
def EFloat.gtOf (a : ℚ) : EFloat → Bool
  | .fin b => decide (a > b)
  | .inf => false

/-! ## Binary32 arithmetic -/

namespace Float32

/-- The power `2^e` of an integer exponent. -/
def pow2 (e : Int) : ℚ := (2 : ℚ) ^ e

/-- The number of halvings that bring `n` below 2, at most `fuel` of them. -/
def log2Aux : Nat → Nat → Nat
  | 0, _ => 0
  | fuel + 1, n => if 2 ≤ n then log2Aux fuel (n / 2) + 1 else 0

/-- The binary logarithm of a positive natural number, rounded down: the
position of its leading bit. -/
def log2 (n : Nat) : Nat := log2Aux n n

/-- The binary logarithm of `|x|`, rounded down, for `x` other than zero: the
`e` with `2^e <= |x| < 2^(e+1)`. It is the difference of the logarithms of
numerator and denominator, or one less. -/
def floorLog2 (x : ℚ) : Int :=
  if pow2 ((log2 x.num.natAbs : Int) - (log2 x.den : Int)) ≤ |x| then
    (log2 x.num.natAbs : Int) - (log2 x.den : Int)
  else (log2 x.num.natAbs : Int) - (log2 x.den : Int) - 1

/-- The exponent of the binade of `x` in binary32: the `e` with
`2^e <= |x| < 2^(e+1)`, not below the least normal exponent `-126` (which the
subnormal numbers and zero share) and not above the greatest exponent `127`. -/
def exponent (x : ℚ) : Int := max (-126) (min 127 (floorLog2 x))

/-- The integer nearest to `q`, the even one of the two when `q` lies half way
between them. -/
def roundHalfEven (q : ℚ) : Int :=
  if q - ⌊q⌋ < 1 / 2 then ⌊q⌋
  else if 1 / 2 < q - ⌊q⌋ then ⌊q⌋ + 1
  else if ⌊q⌋ % 2 = 0 then ⌊q⌋ else ⌊q⌋ + 1

/-- The distance between neighbouring binary32 numbers in the binade of `x`:
24 significant bits. -/
def ulp (x : ℚ) : ℚ := pow2 (exponent x - 23)

/-- The binary32 number nearest to `x` (IEEE 754 round to nearest, ties to
even), for `|x|` below `2^128`: the value a `float` operation stores when its
exact result is `x`, and the value of a decimal `float` literal. -/
def round (x : ℚ) : ℚ := (roundHalfEven (x / ulp x) : ℚ) * ulp x

/-- The sum of a list of floats as a loop `acc += a` accumulates it in a
`float` started at `0.0f`. -/
def sum (l : List ℚ) : ℚ := l.foldl (fun acc a => round (acc + a)) 0

/-- What is left of `start` after a loop `acc -= a` over a list of floats. -/
def remainder (start : ℚ) (l : List ℚ) : ℚ := l.foldl (fun acc a => round (acc - a)) start

/-- No addition of the loop `acc += a`, started at `acc`, is rounded. -/
def ExactSums : ℚ → List ℚ → Prop
  | _, [] => True
  | acc, a :: l => round (acc + a) = acc + a ∧ ExactSums (acc + a) l

/-- No subtraction of the loop `acc -= a`, started at `acc`, is rounded. -/
def ExactDifferences : ℚ → List ℚ → Prop
  | _, [] => True
  | acc, a :: l => round (acc - a) = acc - a ∧ ExactDifferences (acc - a) l

end Float32

/-- Modelled from the spec: `Vector3`, one of the "general math/vector
primitives" the core consumes as an already-available value type. -/
structure Vector3 where
  x : ℚ
  y : ℚ
  z : ℚ
deriving DecidableEq

namespace Vector3

/-- Modelled from the spec: the zero vector of `Vector3`. -/
def zero : Vector3 := ⟨0, 0, 0⟩

/-- Modelled from the spec: the component read `v[axis]` of `Vector3`. -/
def get (v : Vector3) : Axis → ℚ
  | .X => v.x
  | .Y => v.y
  | .Z => v.z

/-- Modelled from the spec: the component write `v[axis] = q` of `Vector3`. -/
def set (v : Vector3) (a : Axis) (q : ℚ) : Vector3 :=
  match a with
  | .X => { v with x := q }
  | .Y => { v with y := q }
  | .Z => { v with z := q }

/-- Modelled from the spec: the componentwise minimum `a.min(b)` of `Vector3`. -/
def min (a b : Vector3) : Vector3 := ⟨Min.min a.x b.x, Min.min a.y b.y, Min.min a.z b.z⟩

/-- Modelled from the spec: the componentwise maximum `a.max(b)` of `Vector3`. -/
def max (a b : Vector3) : Vector3 := ⟨Max.max a.x b.x, Max.max a.y b.y, Max.max a.z b.z⟩

/-- Modelled from the spec: the difference of two `Vector3`. -/
def sub (a b : Vector3) : Vector3 := ⟨a.x - b.x, a.y - b.y, a.z - b.z⟩

/-- Modelled from the spec: the sum of two `Vector3`. -/
def add (a b : Vector3) : Vector3 := ⟨a.x + b.x, a.y + b.y, a.z + b.z⟩

/-- Modelled from the spec: the product `v * f` of a `Vector3` with a scalar. -/
def scale (v : Vector3) (f : ℚ) : Vector3 := ⟨v.x * f, v.y * f, v.z * f⟩

/-- Modelled from the spec: the dot product of `Vector3`. -/
def dot (a b : Vector3) : ℚ := a.x * b.x + a.y * b.y + a.z * b.z

/-- Modelled from the spec: the cross product of `Vector3`. -/
def cross (a b : Vector3) : Vector3 :=
  ⟨a.y * b.z - a.z * b.y, a.z * b.x - a.x * b.z, a.x * b.y - a.y * b.x⟩

/-- Modelled from the spec: `Vector3::primaryAxis`, the axis of the longest
extent ("extent ranking, longest first"); among equal components a later axis
wins. -/
def primaryAxis (v : Vector3) : Axis :=
  if |v.x| > |v.y| then
    (if |v.x| > |v.z| then .X else .Z)
  else
    (if |v.y| > |v.z| then .Y else .Z)

/-- Modelled from the spec: the componentwise order on `Vector3` behind
`AABox::contains`: every component of `a` is at most that of `b`. -/
def le (a b : Vector3) : Prop := a.x ≤ b.x ∧ a.y ≤ b.y ∧ a.z ≤ b.z

instance (a b : Vector3) : Decidable (le a b) := by
  unfold le; exact inferInstance

end Vector3

/-- Modelled from the spec: `AABox`, an axis-aligned bounding box given by its
low and high corners. -/
structure AABox where
  low : Vector3
  high : Vector3
deriving DecidableEq

namespace AABox

/-- Modelled from the spec: `AABox::extent`, the edge lengths `high - low`. -/
def extent (b : AABox) : Vector3 := b.high.sub b.low

/-- Modelled from the spec: `AABox::center`, the point `(low + high) * 0.5`. -/
def center (b : AABox) : Vector3 := (b.low.add b.high).scale (1 / 2)

/-- Modelled from the spec: `AABox::area`, the surface area of the box. -/
def area (b : AABox) : ℚ :=
  let d := b.extent
  2 * (d.x * d.y + d.y * d.z + d.x * d.z)

/-- Modelled from the spec: `AABox::contains`: box `c` lies inside box `b`. -/
def contains (b c : AABox) : Prop := b.low.le c.low ∧ c.high.le b.high

instance (b c : AABox) : Decidable (contains b c) := by
  unfold contains; exact inferInstance

end AABox

/-- Modelled from the spec: the vertex buffer `CPUVertexArray`, of which only
the positions are read here. -/
abbrev CPUVertexArray := List Vector3

/-- Modelled from the spec: a triangle record `Tri`: "three vertex indices into
a shared vertex array, a two-sided flag, a precomputed signed area". -/
structure Tri where
  index0 : Nat
  index1 : Nat
  index2 : Nat
  twoSided : Bool
  area : ℚ
deriving DecidableEq

/-- Modelled from the spec: `tri.position(vertexArray, k)`, the position of corner
`k` (0, 1 or 2) looked up in the vertex buffer. -/
def Tri.position (t : Tri) (va : CPUVertexArray) (k : Nat) : Vector3 :=
  match k with
  | 0 => va.getD t.index0 Vector3.zero
  | 1 => va.getD t.index1 Vector3.zero
  | _ => va.getD t.index2 Vector3.zero

instance : Inhabited Tri := ⟨⟨0, 0, 0, false, 0⟩⟩

/-! ## Poly -/

/-- Modelled from the spec: `Poly`, "a reference to its originating Tri plus a
current bounding box (low/high corners) that may shrink as splitting clips
it"; `area` is the area of the underlying triangle. -/
structure Poly where
  source : Nat
  low : Vector3
  high : Vector3
  area : ℚ
deriving DecidableEq

instance : Inhabited Poly := ⟨⟨0, Vector3.zero, Vector3.zero, 0⟩⟩

/-- Modelled from the spec: the constructor `Poly(vertexArray, &m_triArray[i])`,
a wrapper around source triangle `i` carrying the extent of its three
corners. -/
def Poly.ofTri (va : CPUVertexArray) (t : Tri) (i : Nat) : Poly :=
  let p0 := t.position va 0
  let p1 := t.position va 1
  let p2 := t.position va 2
  { source := i
    low := (p0.min p1).min p2
    high := (p0.max p1).max p2
    area := t.area }

/-- The three output arrays of `Poly::split`. -/
structure SplitArrays where
  lowArray : List Poly
  highArray : List Poly
  spanArray : List Poly
deriving DecidableEq

/-- The cleared arrays (`fastClear` on all three). -/
def SplitArrays.empty : SplitArrays := ⟨[], [], []⟩

/-- Modelled from the spec: `Poly::split(axis, location, maxArea, lowOut,
highOut, spanOut)`: "If entirely below, appends to lowOut; entirely above,
highOut; straddling, clips into a low fragment and a high fragment and appends
both to spanOut, unless the underlying triangle's total area already exceeds
maxArea, in which case the whole original Poly is appended unmodified to
spanOut". -/
def Poly.split (p : Poly) (axis : Axis) (offset : EFloat) (maxArea : ℚ)
    (out : SplitArrays) : SplitArrays :=
  if EFloat.leOf (p.high.get axis) offset then
    { out with lowArray := out.lowArray ++ [p] }
  else if EFloat.geOf (p.low.get axis) offset then
    { out with highArray := out.highArray ++ [p] }
  else if p.area > maxArea then
    { out with spanArray := out.spanArray ++ [p] }
  else
    match offset with
    | .fin c =>
      { out with spanArray := out.spanArray ++
          [{ p with high := p.high.set axis c }, { p with low := p.low.set axis c }] }
    | .inf => { out with spanArray := out.spanArray ++ [p] }

/-- The loop `for j: original[j].split(axis, offset, maxArea, low, high, span)`
run on cleared arrays. -/
def splitAll (original : List Poly) (axis : Axis) (offset : EFloat) (maxArea : ℚ) :
    SplitArrays :=
  original.foldl (fun out p => p.split axis offset maxArea out) SplitArrays.empty

/-- Modelled from the spec: `Poly::computeBounds(array)`, the "union of all
fragment extents"; the box of an empty array is the zero box. -/
def Poly.computeBounds : List Poly → AABox
  | [] => ⟨Vector3.zero, Vector3.zero⟩
  | p :: ps => ps.foldl (fun b q => ⟨b.low.min q.low, b.high.max q.high⟩) ⟨p.low, p.high⟩

/-- Modelled from the spec: `source.sort(HighComparator(axis))`, the candidates
in ascending order of their upper extent along the axis ("ties broken by
stable sort"). -/
def sortByHigh (axis : Axis) (source : List Poly) : List Poly :=
  source.insertionSort (fun a b => a.high.get axis ≤ b.high.get axis)

/-! ## Build settings and the split policy -/

/-- Modelled from the spec: the selector `SplitAlgorithm` of the build settings
(mean-extent, median-area, median-count, SAH). -/
inductive SplitAlgorithm where
  | MEAN_EXTENT
  | MEDIAN_AREA
  | MEDIAN_COUNT
  | SAH
deriving DecidableEq, Repr

/-- Modelled from the spec: the build settings "leaf-size threshold, split
algorithm selector, max-area fraction, accurate-SAH triangle-count threshold";
the values of a default-constructed `Settings` are a parameter of the build. -/
structure Settings where
  algorithm : SplitAlgorithm
  valuesPerLeaf : Int
  maxAreaFraction : ℚ
  accurateSAHCountThreshold : Int

/-- Function `Node::badSplit(numOriginalSources, numLow, numHigh)`. The last test,
`numLow + numHigh > numOriginalSources * 1.8f`, is a comparison of floats:
`numOriginalSources` is converted to `float` and multiplied by the binary32
constant `1.8f`, the product is rounded to binary32, and the `int` sum
`numLow + numHigh` is converted to `float` for the comparison. The counts are
sizes of arrays, below `2^30`, so the `int` sum does not overflow. -/
def badSplit (numOriginalSources numLow numHigh : Nat) : Bool :=
  (numLow == 0) || (numHigh == 0) ||
  (numLow == numOriginalSources) || (numHigh == numOriginalSources) ||
  decide (Float32.round ((numLow + numHigh : Nat) : ℚ) >
    Float32.round (Float32.round (numOriginalSources : ℚ) * Float32.round (9 / 5)))

/-- The loop of `chooseMedianAreaSplitLocation` that walks the sorted
candidates, subtracting areas from the half total (`area -= original[i].area()`,
a float subtraction) until it is at most `epsilon = 0.0001f`; falling off the
end returns `0.0f`. -/
def medianAreaWalk (axis : Axis) : ℚ → List Poly → ℚ
  | _, [] => 0
  | area, p :: ps =>
    if Float32.round (area - p.area) ≤ Float32.round (1 / 10000) then p.high.get axis
    else medianAreaWalk axis (Float32.round (area - p.area)) ps

/-- Function `Node::chooseMedianAreaSplitLocation`: returns the location and the
re-sorted candidate array. The total is accumulated in a `float`
(`area += original[i].area()`), then halved (`area /= 2.0f`). -/
def chooseMedianAreaSplitLocation (original : List Poly) (axis : Axis) : ℚ × List Poly :=
  let sorted := sortByHigh axis original
  let area := sorted.foldl (fun acc p => Float32.round (acc + p.area)) 0
  (medianAreaWalk axis (Float32.round (area / 2)) sorted, sorted)

/-- Function `Node::SAHCost(int size, float area, float containingArea)`. -/
def SAHCost (size : Nat) (area containingArea : ℚ) : ℚ :=
  if size = 0 then 0 else 1 * (size : ℚ) * area / containingArea + 5

/-- Function `Node::SAHCost(axis, offset, original, containingArea, settings)`: the cost
of the candidate plane `offset`. -/
def SAHCostAt (axis : Axis) (offset : ℚ) (original : List Poly) (containingArea : ℚ)
    (settings : Settings) : ℚ :=
  let arrays := splitAll original axis (.fin offset) (settings.maxAreaFraction * containingArea)
  let costL := SAHCost arrays.lowArray.length (Poly.computeBounds arrays.lowArray).area
    containingArea
  let costS := SAHCost arrays.spanArray.length (Poly.computeBounds arrays.spanArray).area
    containingArea
  let costH := SAHCost arrays.highArray.length (Poly.computeBounds arrays.highArray).area
    containingArea
  costL + costS + costH

/-- Insertion into the `Set<float>` of candidate positions. -/
def insertMember (s : List ℚ) (q : ℚ) : List ℚ := if q ∈ s then s else s ++ [q]

/-- Modelled from the spec: the members of `positionSet`, "every distinct
low/high coordinate", listed in the order of their first insertion. -/
def candidatePositions (axis : Axis) (source : List Poly) : List ℚ :=
  source.foldl (fun s p => insertMember (insertMember s (p.low.get axis)) (p.high.get axis)) []

/-- The search loop of `chooseSAHSplitLocationAccurate` from index `i` on:
the state is `(lowestCost, lowestCostIndex)`. -/
def accurateLoop (axis : Axis) (source : List Poly) (containingArea : ℚ)
    (settings : Settings) : List ℚ → Nat → EFloat × Nat → EFloat × Nat
  | [], _, st => st
  | pos :: rest, i, st =>
    let cost := SAHCostAt axis pos source containingArea settings
    if EFloat.ltOf cost st.1 then
      accurateLoop axis source containingArea settings rest (i + 1) (.fin cost, i)
    else
      accurateLoop axis source containingArea settings rest (i + 1) st

/-- Function `Node::chooseSAHSplitLocationAccurate`; `none` is a read of
`position[lowestCostIndex]` outside the array. -/
def chooseSAHSplitLocationAccurate (bounds : AABox) (source : List Poly) (axis : Axis)
    (settings : Settings) : Option ℚ :=
  let position := candidatePositions axis source
  let st := accurateLoop axis source bounds.area settings position 0 (.inf, 0)
  position[st.2]?

/-- The scan of `chooseSAHSplitLocationFast` over `source[1..]` that appends
every upper extent greater than the last one appended (`c`). -/
def uniqueHighs (axis : Axis) : ℚ → List Poly → List ℚ
  | _, [] => []
  | c, p :: ps =>
    if p.high.get axis > c then p.high.get axis :: uniqueHighs axis (p.high.get axis) ps
    else uniqueHighs axis c ps

/-- The array `splitPosition` of `chooseSAHSplitLocationFast` after
`popDiscard`; `none` is the read of `source[0]` in an empty array. -/
def splitPositions (axis : Axis) : List Poly → Option (List ℚ)
  | [] => none
  | p :: ps => some ((p.high.get axis :: uniqueHighs axis (p.high.get axis) ps).dropLast)

/-- The inner `while (source[i].high()[axis] > h)` loop of the sweep from above.
The counter is `k = i + 1`; `none` is a read outside the array. -/
def highWhile (axis : Axis) (source : List Poly) (h : ℚ) :
    Nat → Vector3 → Vector3 → Option (Nat × Vector3 × Vector3)
  | 0, _, _ => none
  | k + 1, low, high =>
    match source[k]? with
    | none => none
    | some p =>
      if p.high.get axis > h then highWhile axis source h k (low.min p.low) (high.max p.high)
      else some (k + 1, low, high)

/-- The outer loop of the sweep from above, over the split positions from the
last to the first; the costs come out in that order. The counter is
`k = i + 1`, so `source.size() - i` is `size + 1 - k`. -/
def highSweepLoop (axis : Axis) (source : List Poly) (containingArea : ℚ) :
    List ℚ → Nat → Vector3 → Vector3 → Option (List ℚ)
  | [], _, _, _ => some []
  | h :: hs, k, low, high =>
    match highWhile axis source h k low high with
    | none => none
    | some (k1, low1, high1) =>
      match highSweepLoop axis source containingArea hs k1 low1 high1 with
      | none => none
      | some cs =>
        some ((((source.length : Int) + 1 - (k1 : Int) : Int) : ℚ) *
          (AABox.mk low1 high1).area / containingArea :: cs)

/-- The sweep from above of `chooseSAHSplitLocationFast`: the array `highCost`,
indexed like `splitPosition`. -/
def highSweep (axis : Axis) (source : List Poly) (containingArea : ℚ)
    (splitPosition : List ℚ) : Option (List ℚ) :=
  match source[source.length - 1]? with
  | none => none
  | some p =>
    (highSweepLoop axis source containingArea splitPosition.reverse (source.length - 1)
      p.low p.high).map List.reverse

/-- The inner `while (source[i].high()[axis] <= h)` loop of the sweep from
below, on the not yet visited part `source[i..]`; `none` is a read outside the
array. -/
def lowWhile (axis : Axis) (h : ℚ) :
    List Poly → Nat → Vector3 → Vector3 → Option (List Poly × Nat × Vector3 × Vector3)
  | [], _, _, _ => none
  | p :: ps, i, low, high =>
    if p.high.get axis ≤ h then lowWhile axis h ps (i + 1) (low.min p.low) (high.max p.high)
    else some (p :: ps, i, low, high)

/-- The outer loop of the sweep from below, over the split positions paired
with their high-side costs; the state carries `(lowestCost, lowestCostPosition)`. -/
def lowSweepLoop (axis : Axis) (size : Nat) (containingArea : ℚ) :
    List (ℚ × ℚ) → List Poly → Nat → Vector3 → Vector3 → EFloat × EFloat →
    Option (EFloat × EFloat)
  | [], _, _, _, _, st => some st
  | (h, highCost) :: rest, unvisited, i, low, high, st =>
    match lowWhile axis h unvisited i low high with
    | none => none
    | some (unvisited1, i1, low1, high1) =>
      let lowCost := (i1 : ℚ) * (AABox.mk low1 high1).area / containingArea
      let bias := (1 / 10) * ((i1 : ℚ) - (size : ℚ) * (1 / 2)) ^ 2
      let minTrisPerSide := size / 5
      let avoidSmall : ℚ :=
        if i1 < minTrisPerSide ∨ (size : Int) - (i1 : Int) < (minTrisPerSide : Int) then 100
        else 0
      let cost := lowCost + highCost + bias + avoidSmall
      lowSweepLoop axis size containingArea rest unvisited1 i1 low1 high1
        (if EFloat.ltOf cost st.1 then (.fin cost, .fin h) else st)

/-- Function `Node::chooseSAHSplitLocationFast`: the location and the re-sorted
candidate array; `none` is a read outside an array. -/
def chooseSAHSplitLocationFast (bounds : AABox) (source : List Poly) (axis : Axis) :
    Option (EFloat × List Poly) :=
  let sorted := sortByHigh axis source
  match splitPositions axis sorted with
  | none => none
  | some splitPosition =>
    match highSweep axis sorted bounds.area splitPosition with
    | none => none
    | some highCost =>
      match sorted with
      | [] => none
      | p :: ps =>
        match lowSweepLoop axis sorted.length bounds.area (splitPosition.zip highCost) ps 1
            p.low p.high (.inf, .inf) with
        | none => none
        | some st => some (st.2, sorted)

/-- Function `Node::chooseSAHSplitLocation`. -/
def chooseSAHSplitLocation (bounds : AABox) (source : List Poly) (axis : Axis)
    (settings : Settings) : Option (EFloat × List Poly) :=
  if (source.length : Int) ≤ settings.accurateSAHCountThreshold then
    (chooseSAHSplitLocationAccurate bounds source axis settings).map
      (fun q => (EFloat.fin q, source))
  else
    chooseSAHSplitLocationFast bounds source axis

/-- Function `Node::chooseSplitLocation`: the location and the (possibly re-sorted)
candidate array; `none` is a read outside an array. -/
def chooseSplitLocation (bounds : AABox) (source : List Poly) (settings : Settings)
    (axis : Axis) : Option (EFloat × List Poly) :=
  match settings.algorithm with
  | .MEAN_EXTENT => some (.fin (bounds.center.get axis), source)
  | .MEDIAN_AREA =>
    let r := chooseMedianAreaSplitLocation source axis
    some (.fin r.1, r.2)
  | .MEDIAN_COUNT =>
    let sorted := sortByHigh axis source
    (sorted[(sorted.length - 1) / 2]?).map (fun p => (EFloat.fin (p.high.get axis), sorted))
  | .SAH => chooseSAHSplitLocation bounds source axis settings

/-! ## Nodes and the build -/

/-- The record `ValueArray` of a node: the triangle pointers (as indices into
`m_triArray`) and the bounds over the stored extents; `size` is the length of
`data`. -/
structure ValueArray where
  data : List Nat
  bounds : AABox
deriving DecidableEq

/-- Function `Node::setValueArray(src, mm)`: the value array the node ends up with;
`none` is the pointer left null for an empty `src`. -/
def setValueArray (src : List Poly) : Option ValueArray :=
  match src with
  | [] => none
  | p :: _ =>
    let lohi := src.foldl (fun acc t => (acc.1.min t.low, acc.2.max t.high)) (p.low, p.high)
    some ⟨src.map Poly.source, ⟨lohi.1, lohi.2⟩⟩

/-- A tree node `NativeTriTree::Node`. A `leaf` has `packedChildAxis == 0`; an
`inner` node packs the split axis with the pointer to its two adjacent
children. -/
inductive Node where
  | leaf (bounds : AABox) (splitLocation : EFloat) (valueArray : Option ValueArray)
  | inner (bounds : AABox) (splitLocation : EFloat) (valueArray : Option ValueArray)
      (axis : Axis) (child0 child1 : Node)
deriving DecidableEq

namespace Node

/-- The member `bounds`. -/
def bounds : Node → AABox
  | leaf b _ _ => b
  | inner b _ _ _ _ _ => b

/-- The member `splitLocation`. -/
def splitLocation : Node → EFloat
  | leaf _ l _ => l
  | inner _ l _ _ _ _ => l

/-- The member `valueArray`. -/
def valueArray : Node → Option ValueArray
  | leaf _ _ v => v
  | inner _ _ v _ _ _ => v

/-- Function `Node::isLeaf()`. -/
def isLeaf : Node → Bool
  | leaf _ _ _ => true
  | inner _ _ _ _ _ _ => false

/-- Function `Node::splitAxis()`, the low two bits of `packedChildAxis`. -/
def splitAxis : Node → Axis
  | leaf _ _ _ => .X
  | inner _ _ _ a _ _ => a

/-- The preference order `preferredAxis[0..2]` computed at the top of
`Node::split`. -/
def preferredAxis (bounds : AABox) : Axis × Axis × Axis :=
  let extent := bounds.extent
  let a0 := extent.primaryAxis
  let a1 := a0.succ3
  let a2 := a1.succ3
  if extent.get a2 > extent.get a1 then (a0, a2, a1) else (a0, a1, a2)

end Node

/-- What one pass of the axis loop of `Node::split` computes: the split
location, the candidate array as `chooseSplitLocation` left it, the three
arrays, and the verdict of `badSplit`. -/
structure SplitTrial where
  splitLocation : EFloat
  original : List Poly
  arrays : SplitArrays
  bad : Bool

/-- One pass of the axis loop of `Node::split`. -/
def Node.splitTrial (bounds : AABox) (settings : Settings) (original : List Poly)
    (axis : Axis) : Option SplitTrial :=
  match chooseSplitLocation bounds original settings axis with
  | none => none
  | some (loc, original1) =>
    let maxArea := bounds.area * settings.maxAreaFraction
    let arrays := splitAll original1 axis loc maxArea
    some ⟨loc, original1, arrays,
      badSplit original1.length arrays.lowArray.length arrays.highArray.length⟩

/-- How `Node::split` ends: the node becomes a leaf holding `values`, or it
keeps the span array and gets two children built from the low and the high
array. -/
inductive SplitOutcome where
  | leaf (splitLocation : EFloat) (values : List Poly)
  | children (splitLocation : EFloat) (axis : Axis) (arrays : SplitArrays)

/-- Function `Node::split` up to the construction of the children: the loop over the
three preferred axes, unrolled. -/
def Node.split (bounds : AABox) (original : List Poly) (settings : Settings) :
    Option SplitOutcome :=
  let axes := Node.preferredAxis bounds
  match Node.splitTrial bounds settings original axes.1 with
  | none => none
  | some t0 =>
    if t0.bad then
      match Node.splitTrial bounds settings t0.original axes.2.1 with
      | none => none
      | some t1 =>
        if t1.bad then
          match Node.splitTrial bounds settings t1.original axes.2.2 with
          | none => none
          | some t2 =>
            if t2.bad then some (.leaf t2.splitLocation t2.original)
            else some (.children t2.splitLocation axes.2.2 t2.arrays)
        else some (.children t1.splitLocation axes.2.1 t1.arrays)
    else some (.children t0.splitLocation axes.1 t0.arrays)

/-- The constructor `Node::Node(originals, settings, mm)`, with the recursion
of `Node::split` into the two children. The first argument bounds the depth of
the recursion; `none` is a build that faulted or ran out of depth. -/
def Node.build (settings : Settings) : Nat → List Poly → Option Node
  | 0, _ => none
  | fuel + 1, originals =>
    let bounds := Poly.computeBounds originals
    if (originals.length : Int) ≤ settings.valuesPerLeaf then
      some (.leaf bounds (.fin 0) (setValueArray originals))
    else
      match Node.split bounds originals settings with
      | none => none
      | some (.leaf loc values) => some (.leaf bounds loc (setValueArray values))
      | some (.children loc axis arrays) =>
        match Node.build settings fuel arrays.lowArray,
            Node.build settings fuel arrays.highArray with
        | some c0, some c1 =>
          some (.inner bounds loc (setValueArray arrays.spanArray) axis c0 c1)
        | _, _ => none

/-! ## The tree -/

/-- The state of a `NativeTriTree`: the triangle array, the vertex buffer and
the root pointer (`none` is `nullptr`). -/
structure NativeTriTree where
  m_triArray : List Tri
  m_vertexArray : CPUVertexArray
  m_root : Option Node
deriving DecidableEq

namespace NativeTriTree

/-- The constant `epsilon = 0.000001f` of `rebuild`. -/
def epsilon : ℚ := 1 / 1000000

/-- The loop of `rebuild` that collects a `Poly` for every triangle
`m_triArray[i]`, `i` counting from `first`, whose area exceeds `epsilon`. -/
def sourceFrom (va : CPUVertexArray) : Nat → List Tri → List Poly
  | _, [] => []
  | i, t :: ts =>
    if t.area > epsilon then Poly.ofTri va t i :: sourceFrom va (i + 1) ts
    else sourceFrom va (i + 1) ts

/-- The triangle `m_triArray[i]` behind a pointer held by a node. -/
def tri (t : NativeTriTree) (i : Nat) : Tri := t.m_triArray.getD i default

/-- The constructor `NativeTriTree()`: no triangles, no root. -/
def new : NativeTriTree := ⟨[], [], none⟩

/-- Function `NativeTriTree::clear()`: the triangle data and the tree are discarded. -/
def clear (_t : NativeTriTree) : NativeTriTree := ⟨[], [], none⟩

/-- Function `NativeTriTree::rebuild()` with the build settings as a parameter: the old
root is discarded and a new one is built when some triangle passes the area
filter. `none` is a build that faulted. -/
def rebuild (settings : Settings) (t : NativeTriTree) : Option NativeTriTree :=
  let source := sourceFrom t.m_vertexArray 0 t.m_triArray
  if source.length > 0 then
    match Node.build settings source.length source with
    | some root => some { t with m_root := some root }
    | none => none
  else
    some { t with m_root := none }

end NativeTriTree

/-! ## Queries -/

/-- Modelled from the spec: a ray "with precomputed inverse direction"; its
`maxDistance()` may be `+inf`. -/
structure PrecomputedRay where
  origin : Vector3
  direction : Vector3
  minDistance : ℚ
  maxDistance : EFloat
deriving DecidableEq

/-- Modelled from the spec: `PrecomputedRay::invDirection`, the precomputed
componentwise inverse of the direction. -/
def PrecomputedRay.invDirection (r : PrecomputedRay) : Vector3 :=
  ⟨1 / r.direction.x, 1 / r.direction.y, 1 / r.direction.z⟩

/-- Modelled from the spec: a sphere query volume. -/
structure Sphere where
  center : Vector3
  radius : ℚ
deriving DecidableEq

/-- Modelled from the spec: the flag word `IntersectRayOptions` ("cull/no-cull
backfaces, alpha/no-alpha test, occlusion-only, two alpha-test threshold
presets"), as one Boolean per flag that the queries test: `o | FLAG` sets the
field, `(o & FLAG) != 0` reads it. -/
structure IntersectRayOptions where
  OCCLUSION_TEST_ONLY : Bool
  DO_NOT_CULL_BACKFACES : Bool
  PARTIAL_COVERAGE_THRESHOLD_ZERO : Bool
  NO_PARTIAL_COVERAGE_TEST : Bool
deriving DecidableEq

/-- Modelled from the spec: the record `TriTree::Hit` filled by the ray queries
("distance, barycentric u/v, backface flag, triangle index"). -/
structure Hit where
  triIndex : Int
  u : ℚ
  v : ℚ
  distance : EFloat
  backface : Bool
deriving DecidableEq

/-- The index `NONE`/`0`/`1` that `computeTraversalOrder` stores in
`firstChild` and `secondChild`. -/
abbrev ChildIndex := Option (Fin 2)

/-- The collaborators of the queries whose code is outside the translated
file; the queries are parameterised by them and every result about a query
holds whatever they compute.

* `rayAABox` is `Intersect::rayAABox(ray, box)`;
* `computeTraversalOrder` is `Node::computeTraversalOrder`, which reads the
  ray and the node's bounds, split axis and split location and yields
  `(firstChild, secondChild)`;
* `intersectionAlphaTest` is `Tri::intersectionAlphaTest(vertexArray, u, v, threshold)`;
* `boxIntersectsSphere` and `boxIntersectsBox` are `AABox::intersects`;
* the last two are the exact triangle tests of `CollisionDetection`, applied to
  `Triangle(position 0, position 1, position 2)`. -/
structure Externals where
  rayAABox : PrecomputedRay → AABox → Bool
  computeTraversalOrder : PrecomputedRay → AABox → Axis → EFloat → ChildIndex × ChildIndex
  intersectionAlphaTest : Tri → CPUVertexArray → ℚ → ℚ → ℚ → Bool
  boxIntersectsSphere : AABox → Sphere → Bool
  boxIntersectsBox : AABox → AABox → Bool
  fixedSolidSphereIntersectsFixedTriangle : Sphere → Vector3 → Vector3 → Vector3 → Bool
  fixedSolidBoxIntersectsFixedTriangle : AABox → Vector3 → Vector3 → Vector3 → Bool

/-- The static helper `intersect(ray, box, maxTime)`: `maxTime` is not used. -/
def intersect (ext : Externals) (ray : PrecomputedRay) (box : AABox) (_maxTime : EFloat) :
    Bool :=
  ext.rayAABox ray box

/-- The static function `rayTriangleIntersection`; the result is the returned
flag and `hitData` as the call leaves it. Where the code divides by `a = 0`
the quotient is taken as `0`; the call returns `false` there either way
(`abs(a) < EPS`). -/
def rayTriangleIntersection (ext : Externals) (ray : PrecomputedRay) (minDistance : ℚ)
    (maxDistance : EFloat) (tri : Tri) (vertexArray : CPUVertexArray) (hitData : Hit)
    (options : IntersectRayOptions) : Bool × Hit :=
  let EPS : ℚ := 1 / 1000000000000
  let conservative : ℚ := 1 / 100000000
  let v0 := tri.position vertexArray 0
  let e1 := (tri.position vertexArray 1).sub v0
  let e2 := (tri.position vertexArray 2).sub v0
  let noBackfaceTest := options.DO_NOT_CULL_BACKFACES
  if (!(noBackfaceTest || tri.twoSided)) && decide (tri.area ≥ 0) &&
      decide ((e1.cross e2).dot ray.direction ≥ -EPS * 2 * tri.area) then
    (false, hitData)
  else
    let p := ray.direction.cross e2
    let a := e1.dot p
    let f := 1 / a
    let c := conservative * f
    let s := (ray.origin.sub v0).scale f
    let u := s.dot p
    if u < -c ∨ u > 1 + c then (false, hitData)
    else
      let q := s.cross e1
      let v := ray.direction.dot q
      if v < -c ∨ u + v > 1 + c ∨ |a| < EPS then (false, hitData)
      else
        let t := e2.dot q
        if t > minDistance ∧ EFloat.ltOf t maxDistance = true then
          let alphaTest := !options.NO_PARTIAL_COVERAGE_TEST
          let alphaThreshold : ℚ := if options.PARTIAL_COVERAGE_THRESHOLD_ZERO then 1 else 1 / 2
          if alphaTest && !ext.intersectionAlphaTest tri vertexArray u v alphaThreshold then
            (false, hitData)
          else
            (true, { hitData with distance := .fin t, u := u, v := v, backface := decide (a < 0) })
        else (false, hitData)

/-- The local state of `Node::intersectRay` while it runs: the flag `hit`, the
by-value parameter `maxDistance` and the by-reference `hitData`. -/
structure RayState where
  hit : Bool
  maxDistance : EFloat
  hitData : Hit
deriving DecidableEq

/-- The loop of `Node::intersectRay` over the value array. The first component
is true when the loop left the function with `return true` (occlusion
mode). -/
def rayValueLoop (ext : Externals) (t : NativeTriTree) (ray : PrecomputedRay)
    (options : IntersectRayOptions) : List Nat → RayState → Bool × RayState
  | [], st => (false, st)
  | i :: rest, st =>
    let r := rayTriangleIntersection ext ray ray.minDistance st.maxDistance (t.tri i)
      t.m_vertexArray st.hitData options
    if r.1 then
      let hitData : Hit := { r.2 with triIndex := (i : Int) }
      if options.OCCLUSION_TEST_ONLY then (true, ⟨true, st.maxDistance, hitData⟩)
      else rayValueLoop ext t ray options rest ⟨true, hitData.distance, hitData⟩
    else rayValueLoop ext t ray options rest { st with hitData := r.2 }

/-- The block of `Node::intersectRay` that tests the contents of the node. -/
def rayValues (ext : Externals) (t : NativeTriTree) (ray : PrecomputedRay)
    (options : IntersectRayOptions) (valueArray : Option ValueArray) (st : RayState) :
    Bool × RayState :=
  match valueArray with
  | none => (false, st)
  | some va =>
    if va.data.length > 0 ∧ intersect ext ray va.bounds st.maxDistance = true then
      rayValueLoop ext t ray options va.data st
    else (false, st)

/-- The test `distanceToSplittingPlane > maxDistance` of `Node::intersectRay`,
with `distanceToSplittingPlane = (splitLocation - origin) * invDirection`. -/
def beyondSplittingPlane (splitLocation : EFloat) (origin invDirection : ℚ)
    (maxDistance : EFloat) : Bool :=
  match splitLocation with
  | .fin s => EFloat.gtOf ((s - origin) * invDirection) maxDistance
  | .inf => decide (invDirection > 0) && (maxDistance != .inf)

/-- The part of `Node::intersectRay` at an internal node that follows the
visit of the near child: `near` is the flag and the hit record after that
visit (`(false, hitData)` when `firstChild` is `NONE`), `far0` and `far1` are
the recursive calls on `child(0)` and `child(1)`. -/
def rayAfterNear (ext : Externals) (t : NativeTriTree) (ray : PrecomputedRay)
    (options : IntersectRayOptions) (splitLocation : EFloat)
    (valueArray : Option ValueArray) (axis : Axis) (secondChild : ChildIndex)
    (far0 far1 : EFloat → Hit → Bool × Hit) (maxDistance : EFloat) (near : Bool × Hit) :
    Bool × Hit :=
  if options.OCCLUSION_TEST_ONLY && near.1 then (true, near.2)
  else
    let st0 : RayState :=
      ⟨near.1, if near.1 then near.2.distance else maxDistance, near.2⟩
    let r := rayValues ext t ray options valueArray st0
    if r.1 then (true, r.2.hitData)
    else
      let st1 := r.2
      match secondChild with
      | none => (st1.hit, st1.hitData)
      | some j =>
        if ray.direction.get axis ≠ 0 ∧
            beyondSplittingPlane splitLocation (ray.origin.get axis)
              (ray.invDirection.get axis) st1.maxDistance = true then
          (st1.hit, st1.hitData)
        else
          let far : Bool × Hit :=
            match j with
            | 0 => far0 st1.maxDistance st1.hitData
            | 1 => far1 st1.maxDistance st1.hitData
          (far.1 || st1.hit, far.2)

/-- Function `Node::intersectRay(triTree, ray, maxDistance, hitData, options)`: the
returned flag and `hitData` as the call leaves it. -/
def Node.intersectRay (ext : Externals) (t : NativeTriTree) (ray : PrecomputedRay)
    (options : IntersectRayOptions) : Node → EFloat → Hit → Bool × Hit
  | .leaf _ _ valueArray, maxDistance, hitData =>
    let r := rayValues ext t ray options valueArray ⟨false, maxDistance, hitData⟩
    if r.1 then (true, r.2.hitData) else (r.2.hit, r.2.hitData)
  | .inner bounds splitLocation valueArray axis child0 child1, maxDistance, hitData =>
    if !intersect ext ray bounds maxDistance then (false, hitData)
    else
      let order := ext.computeTraversalOrder ray bounds axis splitLocation
      let near : Bool × Hit :=
        match order.1 with
        | none => (false, hitData)
        | some 0 => Node.intersectRay ext t ray options child0 maxDistance hitData
        | some 1 => Node.intersectRay ext t ray options child1 maxDistance hitData
      rayAfterNear ext t ray options splitLocation valueArray axis order.2
        (Node.intersectRay ext t ray options child0)
        (Node.intersectRay ext t ray options child1) maxDistance near

/-- Function `NativeTriTree::intersectRay(ray, hit, options)`. -/
def NativeTriTree.intersectRay (ext : Externals) (t : NativeTriTree) (ray : PrecomputedRay)
    (hit : Hit) (options : IntersectRayOptions) : Bool × Hit :=
  match t.m_root with
  | none => (false, hit)
  | some root => root.intersectRay ext t ray options ray.maxDistance hit

/-- The two by-reference arguments of the range queries: the output array
`triArray` and the pointer set `alreadyAdded` (indices, in insertion order). -/
structure RangeState where
  triArray : List Tri
  alreadyAdded : List Nat
deriving DecidableEq

/-- The loop over the value array shared by `Node::intersectSphere` and
`Node::intersectBox`; `exact` is the exact triangle-volume test applied to the
three corner positions. -/
def rangeValueLoop (t : NativeTriTree) (exact : Vector3 → Vector3 → Vector3 → Bool) :
    List Nat → RangeState → RangeState
  | [], st => st
  | i :: rest, st =>
    if !st.alreadyAdded.contains i then
      if decide ((t.tri i).area > 0) &&
          exact ((t.tri i).position t.m_vertexArray 0) ((t.tri i).position t.m_vertexArray 1)
            ((t.tri i).position t.m_vertexArray 2) then
        rangeValueLoop t exact rest ⟨st.triArray ++ [t.tri i], st.alreadyAdded ++ [i]⟩
      else rangeValueLoop t exact rest st
    else rangeValueLoop t exact rest st

/-- The common body of `Node::intersectSphere` and `Node::intersectBox`:
`overlaps` is `AABox::intersects` against the query volume. -/
def Node.intersectVolume (t : NativeTriTree) (overlaps : AABox → Bool)
    (exact : Vector3 → Vector3 → Vector3 → Bool) : Node → RangeState → RangeState
  | .leaf bounds _ valueArray, st =>
    if !overlaps bounds then st
    else
      match valueArray with
      | some va => if overlaps va.bounds then rangeValueLoop t exact va.data st else st
      | none => st
  | .inner bounds _ valueArray _ child0 child1, st =>
    if !overlaps bounds then st
    else
      let st1 :=
        match valueArray with
        | some va => if overlaps va.bounds then rangeValueLoop t exact va.data st else st
        | none => st
      Node.intersectVolume t overlaps exact child1
        (Node.intersectVolume t overlaps exact child0 st1)

/-- Function `Node::intersectSphere(sphere, vertexArray, triArray, alreadyAdded)`. -/
def Node.intersectSphere (ext : Externals) (t : NativeTriTree) (sphere : Sphere)
    (node : Node) (st : RangeState) : RangeState :=
  node.intersectVolume t (fun b => ext.boxIntersectsSphere b sphere)
    (ext.fixedSolidSphereIntersectsFixedTriangle sphere) st

/-- Function `Node::intersectBox(box, vertexArray, triArray, alreadyAdded)`. -/
def Node.intersectBox (ext : Externals) (t : NativeTriTree) (box : AABox)
    (node : Node) (st : RangeState) : RangeState :=
  node.intersectVolume t (fun b => ext.boxIntersectsBox b box)
    (ext.fixedSolidBoxIntersectsFixedTriangle box) st

/-- Function `NativeTriTree::intersectSphere(sphere, triArray)`: the output array after
the call. -/
def NativeTriTree.intersectSphere (ext : Externals) (t : NativeTriTree) (sphere : Sphere)
    (triArray : List Tri) : List Tri :=
  match t.m_root with
  | some root => (root.intersectSphere ext t sphere ⟨triArray, []⟩).triArray
  | none => triArray

/-- Function `NativeTriTree::intersectBox(box, triArray)`: the output array after the
call. -/
def NativeTriTree.intersectBox (ext : Externals) (t : NativeTriTree) (box : AABox)
    (triArray : List Tri) : List Tri :=
  match t.m_root with
  | some root => (root.intersectBox ext t box ⟨triArray, []⟩).triArray
  | none => triArray

/-! ## Statistics -/

/-- Modelled from the spec: the record `Stats` returned by `stats`. -/
structure Stats where
  numTris : Int
  numNodes : Int
  numLeaves : Int
  depth : Int
  largestNode : Int
  averageValuesPerLeaf : ℚ
  shallowestLeaf : Int
  shallowestNodeOverMin : Int
deriving DecidableEq

/-- Modelled from the spec: a default-constructed `Stats`. The counters start
at zero; the value the two `shallowest` fields start from is a parameter. -/
def Stats.init (sentinel : Int) : Stats :=
  ⟨0, 0, 0, 0, 0, 0, sentinel, sentinel⟩

/-- Function `Node::getStats(s, level, valuesPerNode)`. -/
def Node.getStats (valuesPerNode : Int) : Node → Int → Stats → Stats
  | .leaf _ _ valueArray, level, s =>
    let n : Int := match valueArray with
      | some va => va.data.length
      | none => 0
    let s1 : Stats := { s with
      numTris := s.numTris + n
      numNodes := s.numNodes + 1
      depth := max s.depth level
      largestNode := max s.largestNode n }
    let s2 : Stats :=
      if valueArray.isSome ∧ n > valuesPerNode then
        { s1 with shallowestNodeOverMin := min s1.shallowestNodeOverMin level }
      else s1
    { s2 with
      numLeaves := s2.numLeaves + 1
      averageValuesPerLeaf := s2.averageValuesPerLeaf + n
      shallowestLeaf := min s2.shallowestLeaf level }
  | .inner _ _ valueArray _ child0 child1, level, s =>
    let n : Int := match valueArray with
      | some va => va.data.length
      | none => 0
    let s1 : Stats := { s with
      numTris := s.numTris + n
      numNodes := s.numNodes + 1
      depth := max s.depth level
      largestNode := max s.largestNode n }
    let s2 : Stats :=
      if valueArray.isSome ∧ n > valuesPerNode then
        { s1 with shallowestNodeOverMin := min s1.shallowestNodeOverMin level }
      else s1
    Node.getStats valuesPerNode child1 (level + 1)
      (Node.getStats valuesPerNode child0 (level + 1) s2)

/-- Function `NativeTriTree::stats(valuesPerNode)`. -/
def NativeTriTree.stats (sentinel : Int) (valuesPerNode : Int) (t : NativeTriTree) : Stats :=
  match t.m_root with
  | some root =>
    let s := root.getStats valuesPerNode 0 (Stats.init sentinel)
    { s with averageValuesPerLeaf := s.averageValuesPerLeaf / s.numLeaves }
  | none =>
    { Stats.init sentinel with shallowestLeaf := 0, shallowestNodeOverMin := 0 }

end G3D

namespace G3D

/-! ## Vocabulary for the claims -/

/-- The extent `[low, high]` of a candidate, as a box. -/
def Poly.box (p : Poly) : AABox := ⟨p.low, p.high⟩

/-- The triangle references held by a node's `valueArray` pointer: none when
the pointer is null. -/
def valuesOf : Option ValueArray → List Nat
  | some va => va.data
  | none => []

/-- The triangle references of a node's own value array. -/
def Node.values (n : Node) : List Nat := valuesOf n.valueArray

/-- All triangle references in the subtree of a node, over leaves and
internal nodes alike. -/
def Node.refs : Node → List Nat
  | .leaf _ _ v => valuesOf v
  | .inner _ _ v _ c0 c1 => valuesOf v ++ (Node.refs c0 ++ Node.refs c1)

/-- The triangle references held by the leaves in the subtree of a node. -/
def Node.leafRefs : Node → List Nat
  | .leaf _ _ v => valuesOf v
  | .inner _ _ _ _ c0 c1 => Node.leafRefs c0 ++ Node.leafRefs c1

/-- The containment invariant of a subtree, for a given extent `box i` of
every triangle `i`: each node's bounds contain the extent of every triangle
its value array references and the bounds of both children. -/
def Node.Contained (box : Nat → AABox) : Node → Prop
  | .leaf b _ v => ∀ i ∈ valuesOf v, b.contains (box i)
  | .inner b _ v _ c0 c1 =>
    (∀ i ∈ valuesOf v, b.contains (box i)) ∧ b.contains c0.bounds ∧ b.contains c1.bounds ∧
      Node.Contained box c0 ∧ Node.Contained box c1

/-- The full extent of triangle `i` of the tree: the box of its three
corners. -/
def NativeTriTree.triBounds (t : NativeTriTree) (i : Nat) : AABox :=
  (Poly.ofTri t.m_vertexArray (t.tri i) i).box

/-- What `Node::split` guarantees about its outcome for the candidate array
`original` of a node with bounds `bounds`. -/
def SplitOutcome.Spec (bounds : AABox) (settings : Settings) (original : List Poly) :
    SplitOutcome → Prop
  | .leaf _ values => values.Perm original
  | .children loc axis arrays =>
    ∃ o1 : List Poly, o1.Perm original ∧
      arrays = splitAll o1 axis loc (bounds.area * settings.maxAreaFraction) ∧
      badSplit o1.length arrays.lowArray.length arrays.highArray.length = false

end G3D

namespace G3D

/-! ## Concrete inputs -/

/-- Build settings with the given split algorithm, a leaf threshold of four, a
maximum area fraction of one half, and the fast SAH sweep for arrays of more
than two candidates. -/
def settingsWith (algorithm : SplitAlgorithm) : Settings := ⟨algorithm, 4, 1 / 2, 2⟩

/-- Build settings with the mean-extent split and a leaf threshold of four. -/
def meanExtentSettings : Settings := settingsWith .MEAN_EXTENT

/-- Five triangles in the plane `z = 0`: triangles 0, 1 and 2 over
`0 ≤ x ≤ 1`, triangle 3 over `4 ≤ x ≤ 5`, and the thin triangle 4 over
`1/2 ≤ x ≤ 5`, which straddles every plane `x = c` with `1/2 < c < 5`. The
stored areas are the areas of the triangles. -/
def straddleTree : NativeTriTree :=
  { m_triArray :=
      [⟨0, 1, 2, false, 1 / 2⟩, ⟨2, 1, 3, false, 1 / 2⟩, ⟨0, 1, 2, false, 1 / 2⟩,
       ⟨4, 5, 6, false, 1 / 2⟩, ⟨7, 5, 8, false, 9 / 40⟩]
    m_vertexArray :=
      [⟨0, 0, 0⟩, ⟨1, 0, 0⟩, ⟨0, 1, 0⟩, ⟨1, 1, 0⟩, ⟨4, 0, 0⟩, ⟨5, 0, 0⟩, ⟨4, 1, 0⟩,
       ⟨1 / 2, 0, 0⟩, ⟨1 / 2, 1 / 10, 0⟩]
    m_root := none }

/-- What a build of `straddleTree` is inspected for: whether the root is a
leaf, the root's own value array, and the references held by leaves. -/
def rootSummary (settings : Settings) (t : NativeTriTree) :
    Option (Option (Bool × List Nat × List Nat)) :=
  (t.rebuild settings).map (fun t1 => t1.m_root.map (fun r => (r.isLeaf, r.values, r.leafRefs)))

end G3D

namespace G3D

/-- The test a range query applies to triangle `i` before appending it:
positive area and the exact triangle-volume test. -/
def rangeAccepts (t : NativeTriTree) (exact : Vector3 → Vector3 → Vector3 → Bool)
    (i : Nat) : Bool :=
  decide ((t.tri i).area > 0) &&
    exact ((t.tri i).position t.m_vertexArray 0) ((t.tri i).position t.m_vertexArray 1)
      ((t.tri i).position t.m_vertexArray 2)

/-- The triangle references a range query reaches in a subtree: those of the
value arrays whose own bounds overlap the volume, in nodes whose bounds and
whose ancestors' bounds overlap it. -/
def Node.reached (overlaps : AABox → Bool) : Node → List Nat
  | .leaf b _ v =>
    if overlaps b then
      match v with
      | some va => if overlaps va.bounds then va.data else []
      | none => []
    else []
  | .inner b _ v _ c0 c1 =>
    if overlaps b then
      (match v with
        | some va => if overlaps va.bounds then va.data else []
        | none => []) ++ (Node.reached overlaps c0 ++ Node.reached overlaps c1)
    else []

/-- The triangle references a range query reaches in the tree. -/
def NativeTriTree.reached (t : NativeTriTree) (overlaps : AABox → Bool) : List Nat :=
  match t.m_root with
  | some root => root.reached overlaps
  | none => []

/-- The invariant of the two by-reference arguments of a range query started
on the output array `out0`: the output is `out0` followed by the triangles in
`alreadyAdded`, in insertion order, and `alreadyAdded` has no repetition. -/
def RangeState.Inv (t : NativeTriTree) (out0 : List Tri) (st : RangeState) : Prop :=
  st.triArray = out0 ++ st.alreadyAdded.map t.tri ∧ st.alreadyAdded.Nodup

/-- A triangle array with a single thin triangle of area 5e-7 (between 0 and
the filter threshold 1e-6) at the origin. -/
def sliverTree : NativeTriTree :=
  { m_triArray := [⟨0, 1, 2, false, 1 / 2000000⟩]
    m_vertexArray := [⟨0, 0, 0⟩, ⟨1 / 1000, 0, 0⟩, ⟨0, 1 / 1000, 0⟩]
    m_root := none }

/-- The unit sphere about the origin. -/
def unitSphere : Sphere := ⟨⟨0, 0, 0⟩, 1⟩

/-- The box `[-1, 1]^3`. -/
def unitBox : AABox := ⟨⟨-1, -1, -1⟩, ⟨1, 1, 1⟩⟩

end G3D

namespace G3D

/-- The order `a <= b` on floats that may be `+inf`. -/
def EFloat.le : EFloat → EFloat → Prop
  | _, .inf => True
  | .fin x, .fin y => x ≤ y
  | .inf, .fin _ => False

/-- All triangle references in the tree. -/
def NativeTriTree.refs (t : NativeTriTree) : List Nat :=
  match t.m_root with
  | some root => root.refs
  | none => []

/-- Exhaustive testing of a ray against all triangles of the tree's triangle
array with `rayTriangleIntersection`, under the given options and the ray's
own `minDistance()` and `maxDistance()`: true when some triangle is hit. -/
def bruteForce (ext : Externals) (t : NativeTriTree) (ray : PrecomputedRay) (hit : Hit)
    (options : IntersectRayOptions) : Bool :=
  (List.range t.m_triArray.length).any (fun i =>
    (rayTriangleIntersection ext ray ray.minDistance ray.maxDistance (t.tri i)
      t.m_vertexArray hit options).1)

/-- The hit record `h` is the hit of the ray on a triangle referenced in
`refs`, found within the distance bound `maxD`: its index is `h.triIndex` and
`rayTriangleIntersection` accepts that triangle, writing the distance, `u`,
`v` and `backface` of `h` into whatever record it is given. -/
def HitFrom (ext : Externals) (t : NativeTriTree) (ray : PrecomputedRay)
    (options : IntersectRayOptions) (refs : List Nat) (maxD : EFloat) (h : Hit) : Prop :=
  ∃ i ∈ refs, h.triIndex = (i : Int) ∧
    ∀ hd : Hit, rayTriangleIntersection ext ray ray.minDistance maxD (t.tri i)
      t.m_vertexArray hd options = (true, { h with triIndex := hd.triIndex })

/-- The invariant of the local state of `Node::intersectRay`, for a call that
received the bound `maxD0` and the record `hd0`: the current bound is at most
`maxD0`; once `hit` is set the record is a hit on a triangle of `refs`; until
then the record is still `hd0`. -/
def RayState.Inv (ext : Externals) (t : NativeTriTree) (ray : PrecomputedRay)
    (options : IntersectRayOptions) (refs : List Nat) (maxD0 : EFloat) (hd0 : Hit)
    (st : RayState) : Prop :=
  st.maxDistance.le maxD0 ∧
  (st.hit = true → HitFrom ext t ray options refs maxD0 st.hitData) ∧
  (st.hit = false → st.hitData = hd0)

end G3D

namespace G3D

/-- How the result `rT` of a query in occlusion-only mode relates to the
result `rF` of the same query without the flag: when `rF` reports no hit the
two results are identical, and when `rF` reports a hit so does `rT`. -/
def OcclusionAgrees (rT rF : Bool × Hit) : Prop :=
  (rF.1 = false → rT = rF) ∧ (rF.1 = true → rT.1 = true)

end G3D

namespace G3D

/-! ## A concrete choice of collaborators, for runs on concrete inputs -/

/-- One axis of the slab test: the interval `(tmin, tmax)` of ray parameters
(`tmax = none` is unbounded) cut down to the parameters at which the ray is
inside the slab `lo ≤ x ≤ hi`; `none` when the ray runs parallel to the slab
and outside it. -/
def slabClip (origin direction lo hi : ℚ) (range : ℚ × Option ℚ) : Option (ℚ × Option ℚ) :=
  if direction = 0 then
    (if lo ≤ origin ∧ origin ≤ hi then some range else none)
  else
    let t1 := (lo - origin) / direction
    let t2 := (hi - origin) / direction
    let near := Min.min t1 t2
    let far := Max.max t1 t2
    some (Max.max range.1 near,
      match range.2 with
      | none => some far
      | some m => some (Min.min m far))

/-- Modelled from the spec: the ray-box "slab test", exact over the rationals:
the ray meets the box at some parameter `t ≥ 0`. -/
def slabTest (ray : PrecomputedRay) (box : AABox) : Bool :=
  match slabClip ray.origin.x ray.direction.x box.low.x box.high.x (0, none) with
  | none => false
  | some r1 =>
    match slabClip ray.origin.y ray.direction.y box.low.y box.high.y r1 with
    | none => false
    | some r2 =>
      match slabClip ray.origin.z ray.direction.z box.low.z box.high.z r2 with
      | none => false
      | some r3 =>
        match r3.2 with
        | none => true
        | some m => decide (r3.1 ≤ m)

/-- Modelled from the spec: the traversal order, "the near child is whichever
side the ray origin is on"; the other child is the far child. -/
def originSideOrder (ray : PrecomputedRay) (_bounds : AABox) (axis : Axis)
    (splitLocation : EFloat) : ChildIndex × ChildIndex :=
  if EFloat.ltOf (ray.origin.get axis) splitLocation then (some 0, some 1)
  else (some 1, some 0)

/-- The overlap test of two boxes. -/
def boxesOverlap (a b : AABox) : Bool :=
  decide (a.low.le b.high ∧ b.low.le a.high)

/-- The overlap test of a box and a sphere: the point of the box closest to
the centre lies within the radius. -/
def boxOverlapsSphere (b : AABox) (s : Sphere) : Bool :=
  let c := (s.center.max b.low).min b.high
  decide ((c.sub s.center).dot (c.sub s.center) ≤ s.radius * s.radius)

/-- A concrete choice of collaborators: the slab test, the origin-side
traversal order, fully opaque materials (the alpha test always passes), the
standard box overlap tests, and, standing in for the exact triangle tests,
the overlap of the triangle's bounding box with the volume. -/
def sampleExternals : Externals :=
  { rayAABox := slabTest
    computeTraversalOrder := originSideOrder
    intersectionAlphaTest := fun _ _ _ _ _ => true
    boxIntersectsSphere := boxOverlapsSphere
    boxIntersectsBox := boxesOverlap
    fixedSolidSphereIntersectsFixedTriangle := fun s p0 p1 p2 =>
      boxOverlapsSphere ⟨(p0.min p1).min p2, (p0.max p1).max p2⟩ s
    fixedSolidBoxIntersectsFixedTriangle := fun b p0 p1 p2 =>
      boxesOverlap ⟨(p0.min p1).min p2, (p0.max p1).max p2⟩ b }

/-- A hit record before any query: no triangle, distance `+inf`. -/
def noHit : Hit := ⟨-1, 0, 0, .inf, false⟩

/-- The option set with no flag set. -/
def noOptions : IntersectRayOptions := ⟨false, false, false, false⟩

/-- The option set that only disables the partial-coverage test. -/
def noCoverageTest : IntersectRayOptions := ⟨false, false, false, true⟩

/-- The tree that `rebuild` makes of `straddleTree` under `meanExtentSettings`. -/
def straddleBuilt : NativeTriTree :=
  (straddleTree.rebuild meanExtentSettings).getD straddleTree

/-- A ray from `(1/4, 1/4, 1)` straight down the z axis, unbounded. -/
def downRay : PrecomputedRay := ⟨⟨1 / 4, 1 / 4, 1⟩, ⟨0, 0, -1⟩, 0, .inf⟩

/-- A ray from `(1/4000, 1/4000, 1)` straight down the z axis, unbounded: it
passes through the triangle of `sliverTree`. -/
def sliverRay : PrecomputedRay := ⟨⟨1 / 4000, 1 / 4000, 1⟩, ⟨0, 0, -1⟩, 0, .inf⟩

/-- A triangle array with the single triangle `(0,0,0)`, `(1,0,0)`, `(0,1,0)`,
of area 1/2. -/
def edgeTree : NativeTriTree :=
  { m_triArray := [⟨0, 1, 2, false, 1 / 2⟩]
    m_vertexArray := [⟨0, 0, 0⟩, ⟨1, 0, 0⟩, ⟨0, 1, 0⟩]
    m_root := none }

/-- The tree that `rebuild` makes of `edgeTree` under `meanExtentSettings`. -/
def edgeBuilt : NativeTriTree := (edgeTree.rebuild meanExtentSettings).getD edgeTree

/-- A ray straight down the z axis that passes the plane of the triangle of
`edgeTree` at `x = -1e-9`, just outside the edge `x = 0`. -/
def edgeRay : PrecomputedRay := ⟨⟨-1 / 1000000000, 1 / 4, 1⟩, ⟨0, 0, -1⟩, 0, .inf⟩

end G3D

namespace G3D

/-! ## Vocabulary for the claims about `Node::split` and the node shape -/

/-- The first pass of the axis loop of `Node::split`: the trial along
`preferredAxis[0]` on the candidate array as the constructor received it. -/
def Node.firstTrial (bounds : AABox) (settings : Settings) (original : List Poly) :
    Option SplitTrial :=
  Node.splitTrial bounds settings original (Node.preferredAxis bounds).1

/-- The second pass of the axis loop of `Node::split`: the trial along
`preferredAxis[1]` on the candidate array as the first pass left it. -/
def Node.secondTrial (bounds : AABox) (settings : Settings) (original : List Poly) :
    Option SplitTrial :=
  (Node.firstTrial bounds settings original).bind
    (fun t0 => Node.splitTrial bounds settings t0.original (Node.preferredAxis bounds).2.1)

/-- The third pass of the axis loop of `Node::split`: the trial along
`preferredAxis[2]` on the candidate array as the second pass left it. -/
def Node.thirdTrial (bounds : AABox) (settings : Settings) (original : List Poly) :
    Option SplitTrial :=
  (Node.secondTrial bounds settings original).bind
    (fun t1 => Node.splitTrial bounds settings t1.original (Node.preferredAxis bounds).2.2)

/-- Every leaf in the subtree has a populated value array. -/
def Node.LeavesPopulated : Node → Prop
  | .leaf _ _ v => valuesOf v ≠ []
  | .inner _ _ _ _ c0 c1 => Node.LeavesPopulated c0 ∧ Node.LeavesPopulated c1

/-- The candidates `rebuild` makes of the single triangle of `edgeTree`. -/
def edgeSource : List Poly :=
  NativeTriTree.sourceFrom edgeTree.m_vertexArray 0 edgeTree.m_triArray

end G3D

namespace G3D

/-- Five copies of the triangle `(0,0,0)`, `(1,0,0)`, `(0,1,0)`: every
candidate has the same extent, so no plane separates them. -/
def stackTree : NativeTriTree :=
  { m_triArray :=
      [⟨0, 1, 2, false, 1 / 2⟩, ⟨0, 1, 2, false, 1 / 2⟩, ⟨0, 1, 2, false, 1 / 2⟩,
       ⟨0, 1, 2, false, 1 / 2⟩, ⟨0, 1, 2, false, 1 / 2⟩]
    m_vertexArray := [⟨0, 0, 0⟩, ⟨1, 0, 0⟩, ⟨0, 1, 0⟩]
    m_root := none }

/-- The candidates `rebuild` makes of the triangles of `stackTree`. -/
def stackSource : List Poly :=
  NativeTriTree.sourceFrom stackTree.m_vertexArray 0 stackTree.m_triArray

/-- Build settings with the mean-extent split, a leaf threshold of four and
the given maximum area fraction. -/
def settingsArea (maxAreaFraction : ℚ) : Settings := ⟨.MEAN_EXTENT, 4, maxAreaFraction, 2⟩

end G3D

namespace G3D

/-- The candidate of triangle 4 of `straddleTree`, with extent
`(1/2, 0, 0)..(5, 1/10, 0)` and area 9/40. -/
def straddlePoly : Poly := ⟨4, ⟨1 / 2, 0, 0⟩, ⟨5, 1 / 10, 0⟩, 9 / 40⟩

/-- The hit distance `t = e2.dot(q)` that `rayTriangleIntersection` computes
for a ray and a triangle, by the same chain of local values as the function
(`e1`, `e2`, `p`, `a`, `f`, `s`, `q`). -/
def rayTriangleDistance (ray : PrecomputedRay) (tri : Tri) (vertexArray : CPUVertexArray) :
    ℚ :=
  let v0 := tri.position vertexArray 0
  let e1 := (tri.position vertexArray 1).sub v0
  let e2 := (tri.position vertexArray 2).sub v0
  let p := ray.direction.cross e2
  let a := e1.dot p
  let f := 1 / a
  let s := (ray.origin.sub v0).scale f
  let q := s.cross e1
  e2.dot q

/-- The left-hand side `(e1.cross(e2)).dot(ray.direction())` of the backface
test of `rayTriangleIntersection`. -/
def facing (ray : PrecomputedRay) (tri : Tri) (vertexArray : CPUVertexArray) : ℚ :=
  let v0 := tri.position vertexArray 0
  let e1 := (tri.position vertexArray 1).sub v0
  let e2 := (tri.position vertexArray 2).sub v0
  (e1.cross e2).dot ray.direction

/-- The one-sided triangle `(0,0,0)`, `(1,0,0)`, `(0,1,0)` of `edgeTree` with a
stored signed area of exactly zero. -/
def zeroAreaTri : Tri := ⟨0, 1, 2, false, 0⟩

/-- A ray from `(1/4, 1/4, -1)` straight up the z axis, unbounded: it meets
the triangle of `edgeTree` from behind, at distance 1. -/
def upRay : PrecomputedRay := ⟨⟨1 / 4, 1 / 4, -1⟩, ⟨0, 0, 1⟩, 0, .inf⟩

/-- The option set with only `DO_NOT_CULL_BACKFACES` and
`NO_PARTIAL_COVERAGE_TEST` set. -/
def noCulling : IntersectRayOptions := ⟨false, true, false, true⟩

end G3D

namespace G3D

/-- The results of the two recursive calls of `Node::intersectRay` at the root
of a tree whose root is an internal node visited in the order child 0, child
1, when the root's own value array records no hit: the call on child 0 with
the ray's maximum distance, then the call on child 1 with the distance and the
hit record the first call left. -/
def childResults (ext : Externals) (t : NativeTriTree) (ray : PrecomputedRay) (hit : Hit)
    (options : IntersectRayOptions) : Option ((Bool × Hit) × (Bool × Hit)) :=
  match t.m_root with
  | some (.inner _ _ _ _ child0 child1) =>
    let r0 := child0.intersectRay ext t ray options ray.maxDistance hit
    some (r0, child1.intersectRay ext t ray options r0.2.distance r0.2)
  | _ => none

end G3D

namespace G3D

/-- The candidates `rebuild` makes of the triangles of `straddleTree`. -/
def straddleSource : List Poly :=
  NativeTriTree.sourceFrom straddleTree.m_vertexArray 0 straddleTree.m_triArray

end G3D

namespace G3D

/-! ## Triangle (G3D-base.lib/source/Triangle.cpp) -/

/-- Modelled from the spec: the class `Ray` of `G3D-base/Ray.h`, of which
`Triangle::intersect` reads `origin()` and `direction()`. -/
structure Ray where
  origin : Vector3
  direction : Vector3
deriving DecidableEq

/-- The class `Triangle`: the three stored vertices `_vertex[0..2]`; the other
members that `intersect` reads are set from them by `init`. -/
structure Triangle where
  vertex0 : Vector3
  vertex1 : Vector3
  vertex2 : Vector3
deriving DecidableEq

/-- Modelled from the spec: `Vector3::operator-` on `float` components, each
difference rounded by `fl`. -/
def Vector3.subF (fl : ℚ → ℚ) (a b : Vector3) : Vector3 :=
  ⟨fl (a.x - b.x), fl (a.y - b.y), fl (a.z - b.z)⟩

/-- Modelled from the spec: `Vector3::dot` on `float` components,
`x * b.x + y * b.y + z * b.z` evaluated left to right, every product and sum
rounded by `fl`. -/
def Vector3.dotF (fl : ℚ → ℚ) (a b : Vector3) : ℚ :=
  fl (fl (fl (a.x * b.x) + fl (a.y * b.y)) + fl (a.z * b.z))

/-- Modelled from the spec: `Vector3::cross` on `float` components, every
product and difference rounded by `fl`. -/
def Vector3.crossF (fl : ℚ → ℚ) (a b : Vector3) : Vector3 :=
  ⟨fl (fl (a.y * b.z) - fl (a.z * b.y)), fl (fl (a.z * b.x) - fl (a.x * b.z)),
    fl (fl (a.x * b.y) - fl (a.y * b.x))⟩

/-- Function `Triangle::edge01()`: `_edge01 = _vertex[1] - _vertex[0]`, as `init` sets it. -/
def Triangle.edge01 (fl : ℚ → ℚ) (tri : Triangle) : Vector3 :=
  Vector3.subF fl tri.vertex1 tri.vertex0

/-- Function `Triangle::edge02()`: `_edge02 = _vertex[2] - _vertex[0]`, as `init` sets it. -/
def Triangle.edge02 (fl : ℚ → ℚ) (tri : Triangle) : Vector3 :=
  Vector3.subF fl tri.vertex2 tri.vertex0

/-- The determinant `a = e1.dot(ray.direction().cross(e2))` that
`Triangle::intersect` computes first. -/
def Triangle.determinant (fl : ℚ → ℚ) (tri : Triangle) (ray : Ray) : ℚ :=
  Vector3.dotF fl (tri.edge01 fl) (Vector3.crossF fl ray.direction (tri.edge02 fl))

/-- The body of `Triangle::intersect(ray, distance, baryCoord)` with the
rounding `fl` applied to the result of every float operation: the returned
flag, and `distance` and `baryCoord` as the call leaves them. The search
distance may be `inf()`. `EPS` is the binary32 literal `1e-5f`. -/
def Triangle.intersectWith (fl : ℚ → ℚ) (tri : Triangle) (ray : Ray) (distance : EFloat)
    (baryCoord : ℚ × ℚ × ℚ) : Bool × EFloat × (ℚ × ℚ × ℚ) :=
  let EPS : ℚ := Float32.round (1 / 100000)
  let e1 := tri.edge01 fl
  let e2 := tri.edge02 fl
  let p := Vector3.crossF fl ray.direction e2
  let a := Vector3.dotF fl e1 p
  if |a| < EPS then (false, distance, baryCoord)
  else
    let f := fl (1 / a)
    let s := Vector3.subF fl ray.origin tri.vertex0
    let u := fl (f * Vector3.dotF fl s p)
    if u < 0 ∨ u > 1 then (false, distance, baryCoord)
    else
      let q := Vector3.crossF fl s e1
      let v := fl (f * Vector3.dotF fl ray.direction q)
      if v < 0 ∨ fl (u + v) > 1 then (false, distance, baryCoord)
      else
        let t := fl (f * Vector3.dotF fl e2 q)
        if t > 0 ∧ EFloat.ltOf t distance = true then
          (true, .fin t, (fl (fl (1 - u) - v), u, v))
        else (false, distance, baryCoord)

/-- Function `Triangle::intersect(ray, distance, baryCoord)`, in binary32 arithmetic. -/
def Triangle.intersect (tri : Triangle) (ray : Ray) (distance : EFloat)
    (baryCoord : ℚ × ℚ × ℚ) : Bool × EFloat × (ℚ × ℚ × ℚ) :=
  tri.intersectWith Float32.round ray distance baryCoord

/-- The ray meets the triangle at the parameter `t`, at the point with the
barycentric weights `(1 - u - v, u, v)`: the point `origin + t * direction` is
`vertex0 + u * edge01 + v * edge02`, and the weights are not negative. -/
def Triangle.HitAt (tri : Triangle) (ray : Ray) (t u v : ℚ) : Prop :=
  0 ≤ u ∧ 0 ≤ v ∧ u + v ≤ 1 ∧
  ray.origin.add (ray.direction.scale t) =
    (tri.vertex0.add ((tri.vertex1.sub tri.vertex0).scale u)).add
      ((tri.vertex2.sub tri.vertex0).scale v)

instance (tri : Triangle) (ray : Ray) (t u v : ℚ) : Decidable (tri.HitAt ray t u v) := by
  unfold Triangle.HitAt; exact inferInstance

/-- A triangle with legs of length 1/1024 in the plane `z = 0`. -/
def smallTriangle : Triangle := ⟨⟨0, 0, 0⟩, ⟨1 / 1024, 0, 0⟩, ⟨0, 1 / 1024, 0⟩⟩

/-- The triangle `(0,0,0)`, `(1,0,0)`, `(0,1,0)`. -/
def unitTriangle : Triangle := ⟨⟨0, 0, 0⟩, ⟨1, 0, 0⟩, ⟨0, 1, 0⟩⟩

/-- A ray from `(1/4096, 1/4096, 1)` straight down the z axis: it passes
through `smallTriangle` at distance 1. -/
def smallRay : Ray := ⟨⟨1 / 4096, 1 / 4096, 1⟩, ⟨0, 0, -1⟩⟩

/-- A ray from `(1/4, 1/4, 1)` straight down the z axis: it passes through
`unitTriangle` at distance 1. -/
def unitRay : Ray := ⟨⟨1 / 4, 1 / 4, 1⟩, ⟨0, 0, -1⟩⟩

/-- A ray from `(3/4, 1/4 + 2^-25, 1)` straight down the z axis: it meets the
plane of `unitTriangle` at distance 1 at a point outside the triangle, beyond
the edge `u + v = 1` by `2^-25`. All coordinates are binary32 numbers. -/
def outsideRay : Ray := ⟨⟨3 / 4, 1 / 4 + 1 / 33554432, 1⟩, ⟨0, 0, -1⟩⟩

/-- A right triangle in the plane `z = 0` whose legs are `1e-5f` (the
binary32 number `2748779 / 2^38`) and 1. -/
def thresholdTriangle : Triangle :=
  ⟨⟨0, 0, 0⟩, ⟨2748779 / 274877906944, 0, 0⟩, ⟨0, 1, 0⟩⟩

/-- A ray straight down the z axis through the interior of
`thresholdTriangle`, from height 1. -/
def thresholdRay : Ray := ⟨⟨1 / 1048576, 1 / 4, 1⟩, ⟨0, 0, -1⟩⟩

end G3D

namespace G3D

/-- The values `(t, u, v)` that `Triangle::intersect` computes for a ray, by
the same chain of local values as the function (`e1`, `e2`, `p`, `a`, `f`,
`s`, `q`), with the rounding `fl` after every float operation. -/
def Triangle.hitParameters (fl : ℚ → ℚ) (tri : Triangle) (ray : Ray) : ℚ × ℚ × ℚ :=
  let e1 := tri.edge01 fl
  let e2 := tri.edge02 fl
  let p := Vector3.crossF fl ray.direction e2
  let a := Vector3.dotF fl e1 p
  let f := fl (1 / a)
  let s := Vector3.subF fl ray.origin tri.vertex0
  let u := fl (f * Vector3.dotF fl s p)
  let q := Vector3.crossF fl s e1
  let v := fl (f * Vector3.dotF fl ray.direction q)
  let t := fl (f * Vector3.dotF fl e2 q)
  (t, u, v)

end G3D

namespace G3D

/-! ## Inputs for the far-child test -/

/-- Function `Node::child(i)`: the `i`-th child of an internal node; `none` at a leaf
or for an index other than 0 and 1. -/
def Node.child : Node → Nat → Option Node
  | .inner _ _ _ _ child0 _, 0 => some child0
  | .inner _ _ _ _ _ child1, 1 => some child1
  | _, _ => none

/-- Build settings with the mean-extent split and a leaf threshold of one. -/
def farSettings : Settings := ⟨.MEAN_EXTENT, 1, 1 / 2, 2⟩

/-- Two triangles on a grid of spacing `s = 1/1024`: triangle 0, with corners
`(-2s, 0, 0)`, `(s, 0, 0)`, `(-2s, s, 0)`, lies in `x <= s`; triangle 1, with
corners `(s, 0, 0)`, `(4s, 0, -4s)`, `(s, s, 0)`, lies in `x >= s` and has an
edge in the plane `x = s`. The stored areas are the areas of the triangles,
`3/2 s^2` and `5/2 s^2`. -/
def farTree : NativeTriTree :=
  { m_triArray := [⟨0, 1, 2, false, 3 / 2097152⟩, ⟨1, 3, 4, false, 5 / 2097152⟩]
    m_vertexArray :=
      [⟨-1 / 512, 0, 0⟩, ⟨1 / 1024, 0, 0⟩, ⟨-1 / 512, 1 / 1024, 0⟩,
       ⟨1 / 256, 0, -1 / 256⟩, ⟨1 / 1024, 1 / 1024, 0⟩]
    m_root := none }

/-- The tree that `rebuild` makes of `farTree` under `farSettings`: the root is
split at `x = s` into one leaf per triangle. -/
def farBuilt : NativeTriTree := (farTree.rebuild farSettings).getD farTree

/-- A ray from `(127/256 s, s/2, s)` with direction `(1, 0, -2)` and maximum
distance `s/2`, for `s = 1/1024`: it reaches the plane of triangle 1 of
`farTree` at the parameter `63/128 s`, at `x = 253/256 s`, just outside the
edge `x = s`, and the plane `x = s` at the parameter `129/256 s`. -/
def farRay : PrecomputedRay :=
  ⟨⟨127 / 262144, 1 / 2048, 1 / 1024⟩, ⟨1, 0, -2⟩, 0, .fin (1 / 2048)⟩

end G3D

namespace G3D

/-- The far child of the root of `farBuilt`: child 1, the leaf that holds
triangle 1. -/
def farChild : Node :=
  (farBuilt.m_root.bind (fun r => r.child 1)).getD (.leaf ⟨Vector3.zero, Vector3.zero⟩ (.fin 0) none)

end G3D

namespace G3D

/-! ## The hits accepted during a traversal -/

/-- The hit records accepted by the loop of `Node::intersectRay` over the value
array, in the order of acceptance: each is `hitData` right after a call of
`rayTriangleIntersection` that returned true and the assignment of `triIndex`.
The loop itself is `rayValueLoop`; this follows the same calls and states. -/
def rayValueLoopHits (ext : Externals) (t : NativeTriTree) (ray : PrecomputedRay)
    (options : IntersectRayOptions) : List Nat → RayState → List Hit
  | [], _ => []
  | i :: rest, st =>
    let r := rayTriangleIntersection ext ray ray.minDistance st.maxDistance (t.tri i)
      t.m_vertexArray st.hitData options
    if r.1 then
      let hitData : Hit := { r.2 with triIndex := (i : Int) }
      if options.OCCLUSION_TEST_ONLY then [hitData]
      else hitData :: rayValueLoopHits ext t ray options rest ⟨true, hitData.distance, hitData⟩
    else rayValueLoopHits ext t ray options rest { st with hitData := r.2 }

/-- The hit records accepted by the block of `Node::intersectRay` that tests
the contents of the node (`rayValues`). -/
def rayValuesHits (ext : Externals) (t : NativeTriTree) (ray : PrecomputedRay)
    (options : IntersectRayOptions) (valueArray : Option ValueArray) (st : RayState) :
    List Hit :=
  match valueArray with
  | none => []
  | some va =>
    if va.data.length > 0 ∧ intersect ext ray va.bounds st.maxDistance = true then
      rayValueLoopHits ext t ray options va.data st
    else []

/-- The hit records accepted by the part of `Node::intersectRay` that follows
the visit of the near child (`rayAfterNear`): those of the node's own value
array, then those of the far child when it is visited. `far0` and `far1` are
the recursive calls on the children and `farHits0`, `farHits1` the hit records
they accept. -/
def rayAfterNearHits (ext : Externals) (t : NativeTriTree) (ray : PrecomputedRay)
    (options : IntersectRayOptions) (splitLocation : EFloat)
    (valueArray : Option ValueArray) (axis : Axis) (secondChild : ChildIndex)
    (farHits0 farHits1 : EFloat → Hit → List Hit) (maxDistance : EFloat) (near : Bool × Hit) :
    List Hit :=
  if options.OCCLUSION_TEST_ONLY && near.1 then []
  else
    let st0 : RayState :=
      ⟨near.1, if near.1 then near.2.distance else maxDistance, near.2⟩
    let r := rayValues ext t ray options valueArray st0
    let own := rayValuesHits ext t ray options valueArray st0
    if r.1 then own
    else
      let st1 := r.2
      match secondChild with
      | none => own
      | some j =>
        if ray.direction.get axis ≠ 0 ∧
            beyondSplittingPlane splitLocation (ray.origin.get axis)
              (ray.invDirection.get axis) st1.maxDistance = true then
          own
        else
          own ++
            (match j with
            | 0 => farHits0 st1.maxDistance st1.hitData
            | 1 => farHits1 st1.maxDistance st1.hitData)

/-- The hit records accepted during one call of `Node::intersectRay`, in the
order of acceptance: those of the near child, of the node's own value array,
and of the far child. -/
def Node.intersectRayHits (ext : Externals) (t : NativeTriTree) (ray : PrecomputedRay)
    (options : IntersectRayOptions) : Node → EFloat → Hit → List Hit
  | .leaf _ _ valueArray, maxDistance, hitData =>
    rayValuesHits ext t ray options valueArray ⟨false, maxDistance, hitData⟩
  | .inner bounds splitLocation valueArray axis child0 child1, maxDistance, hitData =>
    if !intersect ext ray bounds maxDistance then []
    else
      let order := ext.computeTraversalOrder ray bounds axis splitLocation
      let near : Bool × Hit :=
        match order.1 with
        | none => (false, hitData)
        | some 0 => Node.intersectRay ext t ray options child0 maxDistance hitData
        | some 1 => Node.intersectRay ext t ray options child1 maxDistance hitData
      let nearHits : List Hit :=
        match order.1 with
        | none => []
        | some 0 => Node.intersectRayHits ext t ray options child0 maxDistance hitData
        | some 1 => Node.intersectRayHits ext t ray options child1 maxDistance hitData
      nearHits ++ rayAfterNearHits ext t ray options splitLocation valueArray axis order.2
        (Node.intersectRayHits ext t ray options child0)
        (Node.intersectRayHits ext t ray options child1) maxDistance near

/-- The hit records accepted during one traversal `NativeTriTree::intersectRay`,
in the order of acceptance. -/
def NativeTriTree.intersectRayHits (ext : Externals) (t : NativeTriTree)
    (ray : PrecomputedRay) (hit : Hit) (options : IntersectRayOptions) : List Hit :=
  match t.m_root with
  | none => []
  | some root => root.intersectRayHits ext t ray options ray.maxDistance hit

/-- Hit `b` is strictly closer than hit `a`: both distances are finite and
that of `b` is the smaller. -/
def Hit.Closer (a b : Hit) : Prop :=
  ∃ x y, a.distance = .fin x ∧ b.distance = .fin y ∧ y < x

/-- A sequence of accepted hits, for a traversal that started with the bound
`bound`: every distance is finite and lies strictly between `minDistance` and
`bound`, and every hit is strictly closer than all hits before it. -/
def HitsOrdered (minDistance : ℚ) (bound : EFloat) (hits : List Hit) : Prop :=
  (∀ h ∈ hits, ∃ d, h.distance = .fin d ∧ minDistance < d ∧ EFloat.ltOf d bound = true) ∧
  hits.Pairwise Hit.Closer

/-- How a stretch of the traversal that accepts the hits `hits` takes the
local state of `Node::intersectRay` from `s0` to `s1`: the hits are ordered
below the bound of `s0`; without a hit the state is unchanged; with hits the
state records the last of them, with its distance as the new bound. -/
def RayState.Advances (minDistance : ℚ) (s0 : RayState) (hits : List Hit) (s1 : RayState) :
    Prop :=
  HitsOrdered minDistance s0.maxDistance hits ∧
  (hits = [] → s1 = s0) ∧
  (∀ h, hits.getLast? = some h → s1 = ⟨true, h.distance, h⟩)

/-- Two triangles over each other: triangle 0 `(0,0,0)`, `(1,0,0)`, `(0,1,0)`
in the plane `z = 0` and triangle 1, the same shape, in the plane `z = 1/2`. -/
def layerTree : NativeTriTree :=
  { m_triArray := [⟨0, 1, 2, false, 1 / 2⟩, ⟨3, 4, 5, false, 1 / 2⟩]
    m_vertexArray :=
      [⟨0, 0, 0⟩, ⟨1, 0, 0⟩, ⟨0, 1, 0⟩, ⟨0, 0, 1 / 2⟩, ⟨1, 0, 1 / 2⟩, ⟨0, 1, 1 / 2⟩]
    m_root := none }

/-- The tree that `rebuild` makes of `layerTree` under `meanExtentSettings`: one
leaf that holds both triangles. -/
def layerBuilt : NativeTriTree := (layerTree.rebuild meanExtentSettings).getD layerTree

end G3D

namespace G3D

/-- The local state of `Node::intersectRay` after a recursive call that was
given the bound `maxDistance` and returned `r`: the flag, the bound
(`maxDistance = hitData.distance` after a hit) and the hit record. -/
def RayState.afterCall (maxDistance : EFloat) (r : Bool × Hit) : RayState :=
  ⟨r.1, if r.1 then r.2.distance else maxDistance, r.2⟩

end G3D

namespace G3D

/-! ## Vocabulary for the claims on rounded arithmetic and on the range queries -/

instance Float32.exactSumsDecidable :
    (acc : ℚ) → (l : List ℚ) → Decidable (Float32.ExactSums acc l)
  | _, [] => isTrue trivial
  | acc, a :: l =>
    show Decidable (Float32.round (acc + a) = acc + a ∧ Float32.ExactSums (acc + a) l) from
      @instDecidableAnd _ _ _ (Float32.exactSumsDecidable (acc + a) l)

instance Float32.exactDifferencesDecidable :
    (acc : ℚ) → (l : List ℚ) → Decidable (Float32.ExactDifferences acc l)
  | _, [] => isTrue trivial
  | acc, a :: l =>
    show Decidable (Float32.round (acc - a) = acc - a ∧
        Float32.ExactDifferences (acc - a) l) from
      @instDecidableAnd _ _ _ (Float32.exactDifferencesDecidable (acc - a) l)

/-- Three triangles in the plane `z = 0`: two right triangles with legs of 128
(area 8192) over `0 ≤ x ≤ 128` and `128 ≤ x ≤ 256`, and between them in the
order of upper extents a right triangle with legs of 1/32 (area 1/2048) over
`128 ≤ x ≤ 128 + 1/32`. All coordinates and areas are binary32 numbers. -/
def absorbTree : NativeTriTree :=
  { m_triArray := [⟨0, 1, 2, false, 8192⟩, ⟨3, 4, 5, false, 1 / 2048⟩, ⟨6, 7, 8, false, 8192⟩]
    m_vertexArray :=
      [⟨0, 0, 0⟩, ⟨128, 0, 0⟩, ⟨0, 128, 0⟩,
       ⟨128, 0, 0⟩, ⟨4097 / 32, 0, 0⟩, ⟨128, 1 / 32, 0⟩,
       ⟨128, 0, 0⟩, ⟨256, 0, 0⟩, ⟨128, 128, 0⟩]
    m_root := none }

/-- The candidates `rebuild` makes of the triangles of `absorbTree`. -/
def absorbSource : List Poly :=
  NativeTriTree.sourceFrom absorbTree.m_vertexArray 0 absorbTree.m_triArray

/-- The value arrays of a subtree cover their triangles, for a given extent
`box i` of every triangle `i`: the bounds of each value array contain the
extent of every triangle the array references. -/
def Node.ValueBoundsCover (box : Nat → AABox) : Node → Prop
  | .leaf _ _ v => ∀ va, v = some va → ∀ i ∈ va.data, va.bounds.contains (box i)
  | .inner _ _ v _ c0 c1 =>
    (∀ va, v = some va → ∀ i ∈ va.data, va.bounds.contains (box i)) ∧
      Node.ValueBoundsCover box c0 ∧ Node.ValueBoundsCover box c1

/-- The box of the three corners of a triangle. -/
def cornerBox (p0 p1 p2 : Vector3) : AABox := ⟨(p0.min p1).min p2, (p0.max p1).max p2⟩

/-- The box-sphere overlap test of the collaborators never rejects a box that
contains a triangle which their exact triangle-sphere test accepts. -/
def Externals.SphereTestsAgree (ext : Externals) (sphere : Sphere) : Prop :=
  ∀ (b : AABox) (p0 p1 p2 : Vector3),
    ext.fixedSolidSphereIntersectsFixedTriangle sphere p0 p1 p2 = true →
    b.contains (cornerBox p0 p1 p2) → ext.boxIntersectsSphere b sphere = true

/-- The box-box overlap test of the collaborators never rejects a box that
contains a triangle which their exact triangle-box test accepts. -/
def Externals.BoxTestsAgree (ext : Externals) (box : AABox) : Prop :=
  ∀ (b : AABox) (p0 p1 p2 : Vector3),
    ext.fixedSolidBoxIntersectsFixedTriangle box p0 p1 p2 = true →
    b.contains (cornerBox p0 p1 p2) → ext.boxIntersectsBox b box = true

end G3D

/-! # Theorems -/

namespace G3D

/-! ## Facts about `Poly::split` and the split loop -/

theorem Poly.split_lowArray (p : Poly) (axis : Axis) (offset : EFloat) (maxArea : ℚ)
    (out : SplitArrays) :
    (p.split axis offset maxArea out).lowArray =
      out.lowArray ++ (if EFloat.leOf (p.high.get axis) offset then [p] else []) := by
  unfold Poly.split
  split_ifs <;> simp
  cases offset <;> simp

theorem Poly.split_highArray (p : Poly) (axis : Axis) (offset : EFloat) (maxArea : ℚ)
    (out : SplitArrays) :
    (p.split axis offset maxArea out).highArray =
      out.highArray ++ (if EFloat.leOf (p.high.get axis) offset = false ∧
        EFloat.geOf (p.low.get axis) offset = true then [p] else []) := by
  unfold Poly.split
  split_ifs <;> simp_all
  cases offset <;> simp

theorem splitAll_foldl_lowArray (axis : Axis) (offset : EFloat) (maxArea : ℚ)
    (l : List Poly) (out : SplitArrays) :
    (l.foldl (fun out p => p.split axis offset maxArea out) out).lowArray =
      out.lowArray ++ l.filter (fun p => EFloat.leOf (p.high.get axis) offset) := by
  induction l generalizing out with
  | nil => simp
  | cons p ps ih =>
    rw [List.foldl_cons, ih, Poly.split_lowArray, List.filter_cons]
    split_ifs <;> simp

theorem splitAll_foldl_highArray (axis : Axis) (offset : EFloat) (maxArea : ℚ)
    (l : List Poly) (out : SplitArrays) :
    (l.foldl (fun out p => p.split axis offset maxArea out) out).highArray =
      out.highArray ++ l.filter (fun p => !EFloat.leOf (p.high.get axis) offset &&
        EFloat.geOf (p.low.get axis) offset) := by
  induction l generalizing out with
  | nil => simp
  | cons p ps ih =>
    rw [List.foldl_cons, ih, Poly.split_highArray, List.filter_cons]
    cases h1 : EFloat.leOf (p.high.get axis) offset <;>
      cases h2 : EFloat.geOf (p.low.get axis) offset <;> simp

theorem splitAll_lowArray (original : List Poly) (axis : Axis) (offset : EFloat) (maxArea : ℚ) :
    (splitAll original axis offset maxArea).lowArray =
      original.filter (fun p => EFloat.leOf (p.high.get axis) offset) := by
  unfold splitAll
  rw [splitAll_foldl_lowArray]
  simp [SplitArrays.empty]

theorem splitAll_highArray (original : List Poly) (axis : Axis) (offset : EFloat) (maxArea : ℚ) :
    (splitAll original axis offset maxArea).highArray =
      original.filter (fun p => !EFloat.leOf (p.high.get axis) offset &&
        EFloat.geOf (p.low.get axis) offset) := by
  unfold splitAll
  rw [splitAll_foldl_highArray]
  simp [SplitArrays.empty]

end G3D

namespace G3D

/-! ## Boxes and bounds -/

theorem Vector3.le_refl (a : Vector3) : a.le a := ⟨le_rfl, le_rfl, le_rfl⟩

theorem Vector3.le_trans {a b c : Vector3} (h1 : a.le b) (h2 : b.le c) : a.le c :=
  ⟨h1.1.trans h2.1, h1.2.1.trans h2.2.1, h1.2.2.trans h2.2.2⟩

theorem Vector3.min_le_left (a b : Vector3) : (a.min b).le a := by
  simp [Vector3.min, Vector3.le]

theorem Vector3.min_le_right (a b : Vector3) : (a.min b).le b := by
  simp [Vector3.min, Vector3.le]

theorem Vector3.le_max_left (a b : Vector3) : a.le (a.max b) := by
  simp [Vector3.max, Vector3.le]

theorem Vector3.le_max_right (a b : Vector3) : b.le (a.max b) := by
  simp [Vector3.max, Vector3.le]

theorem Vector3.le_min_of {a b c : Vector3} (h1 : a.le b) (h2 : a.le c) : a.le (b.min c) := by
  simp only [Vector3.min, Vector3.le, le_min_iff] at *
  exact ⟨⟨h1.1, h2.1⟩, ⟨h1.2.1, h2.2.1⟩, ⟨h1.2.2, h2.2.2⟩⟩

theorem Vector3.max_le_of {a b c : Vector3} (h1 : a.le c) (h2 : b.le c) : (a.max b).le c := by
  simp only [Vector3.max, Vector3.le, max_le_iff] at *
  exact ⟨⟨h1.1, h2.1⟩, ⟨h1.2.1, h2.2.1⟩, ⟨h1.2.2, h2.2.2⟩⟩

theorem Vector3.set_le_self (v : Vector3) (a : Axis) (c : ℚ) (h : c ≤ v.get a) :
    (v.set a c).le v := by
  cases a <;> simp_all [Vector3.set, Vector3.get, Vector3.le]

theorem Vector3.self_le_set (v : Vector3) (a : Axis) (c : ℚ) (h : v.get a ≤ c) :
    v.le (v.set a c) := by
  cases a <;> simp_all [Vector3.set, Vector3.get, Vector3.le]

theorem AABox.contains_refl (b : AABox) : b.contains b :=
  ⟨Vector3.le_refl _, Vector3.le_refl _⟩

theorem AABox.contains_trans {a b c : AABox} (h1 : a.contains b) (h2 : b.contains c) :
    a.contains c :=
  ⟨Vector3.le_trans h1.1 h2.1, Vector3.le_trans h2.2 h1.2⟩

theorem computeBounds_foldl_contains (ps : List Poly) (b : AABox) :
    (ps.foldl (fun b q => (⟨b.low.min q.low, b.high.max q.high⟩ : AABox)) b).contains b ∧
    ∀ p ∈ ps, (ps.foldl (fun b q => (⟨b.low.min q.low, b.high.max q.high⟩ : AABox)) b).contains
      p.box := by
  induction ps generalizing b with
  | nil => exact ⟨AABox.contains_refl b, by simp⟩
  | cons q qs ih =>
    have hb : (AABox.mk (b.low.min q.low) (b.high.max q.high)).contains b :=
      ⟨Vector3.min_le_left _ _, Vector3.le_max_left _ _⟩
    have hq : (AABox.mk (b.low.min q.low) (b.high.max q.high)).contains q.box :=
      ⟨Vector3.min_le_right _ _, Vector3.le_max_right _ _⟩
    obtain ⟨h1, h2⟩ := ih ⟨b.low.min q.low, b.high.max q.high⟩
    refine ⟨AABox.contains_trans h1 hb, ?_⟩
    intro p hp
    rcases List.mem_cons.1 hp with rfl | hp
    · exact AABox.contains_trans h1 hq
    · exact h2 p hp

/-- The bounds computed for a candidate list contain the extent of each
candidate. -/
theorem computeBounds_contains_mem (l : List Poly) (p : Poly) (hp : p ∈ l) :
    (Poly.computeBounds l).contains p.box := by
  cases l with
  | nil => simp at hp
  | cons q qs =>
    obtain ⟨h1, h2⟩ := computeBounds_foldl_contains qs ⟨q.low, q.high⟩
    rcases List.mem_cons.1 hp with rfl | hp
    · exact h1
    · exact h2 p hp

theorem computeBounds_foldl_least (ps : List Poly) (b c : AABox) (hb : c.contains b)
    (hps : ∀ p ∈ ps, c.contains p.box) :
    c.contains (ps.foldl (fun b q => (⟨b.low.min q.low, b.high.max q.high⟩ : AABox)) b) := by
  induction ps generalizing b with
  | nil => exact hb
  | cons q qs ih =>
    apply ih
    · have hq := hps q (List.mem_cons_self _ _)
      exact ⟨Vector3.le_min_of hb.1 hq.1, Vector3.max_le_of hb.2 hq.2⟩
    · intro p hp
      exact hps p (List.mem_cons_of_mem _ hp)

/-- A box that contains the extent of every candidate of a non-empty list
contains the bounds computed for the list. -/
theorem computeBounds_least (l : List Poly) (c : AABox) (hne : l ≠ [])
    (h : ∀ p ∈ l, c.contains p.box) : c.contains (Poly.computeBounds l) := by
  cases l with
  | nil => exact absurd rfl hne
  | cons q qs =>
    exact computeBounds_foldl_least qs ⟨q.low, q.high⟩ c (h q (List.mem_cons_self _ _))
      (fun p hp => h p (List.mem_cons_of_mem _ hp))

/-- The bounds of a non-empty candidate list drawn from another list lie
inside the bounds of that list. -/
theorem computeBounds_mono (l1 l2 : List Poly) (hne : l1 ≠ []) (h : ∀ p ∈ l1, p ∈ l2) :
    (Poly.computeBounds l2).contains (Poly.computeBounds l1) :=
  computeBounds_least l1 _ hne (fun p hp => computeBounds_contains_mem l2 p (h p hp))

theorem Poly.split_spanArray_mem (p : Poly) (axis : Axis) (offset : EFloat) (maxArea : ℚ)
    (out : SplitArrays) (q : Poly) (hq : q ∈ (p.split axis offset maxArea out).spanArray) :
    q ∈ out.spanArray ∨ (q.source = p.source ∧ p.box.contains q.box) := by
  unfold Poly.split at hq
  split_ifs at hq with h1 h2 h3
  · exact Or.inl hq
  · exact Or.inl hq
  · simp only [List.mem_append, List.mem_singleton] at hq
    rcases hq with hq | rfl
    · exact Or.inl hq
    · exact Or.inr ⟨rfl, AABox.contains_refl _⟩
  · cases offset with
    | inf => simp [EFloat.leOf] at h1
    | fin c =>
      simp only [EFloat.leOf, EFloat.geOf, decide_eq_true_eq, not_le, ge_iff_le] at h1 h2
      simp only [List.mem_append, List.mem_cons, List.mem_singleton, List.not_mem_nil,
        or_false] at hq
      rcases hq with hq | rfl | rfl
      · exact Or.inl hq
      · exact Or.inr ⟨rfl, Vector3.le_refl _, Vector3.set_le_self _ _ _ h1.le⟩
      · exact Or.inr ⟨rfl, Vector3.self_le_set _ _ _ h2.le, Vector3.le_refl _⟩

theorem Poly.split_spanArray_sub (p : Poly) (axis : Axis) (offset : EFloat) (maxArea : ℚ)
    (out : SplitArrays) (q : Poly) (hq : q ∈ out.spanArray) :
    q ∈ (p.split axis offset maxArea out).spanArray := by
  unfold Poly.split
  split_ifs
  · exact hq
  · exact hq
  · exact List.mem_append_left _ hq
  · cases offset <;> exact List.mem_append_left _ hq

theorem Poly.split_spanArray_covers (p : Poly) (axis : Axis) (offset : EFloat) (maxArea : ℚ)
    (out : SplitArrays) (h1 : EFloat.leOf (p.high.get axis) offset = false)
    (h2 : EFloat.geOf (p.low.get axis) offset = false) :
    ∃ q ∈ (p.split axis offset maxArea out).spanArray, q.source = p.source := by
  unfold Poly.split
  simp only [h1, h2, Bool.false_eq_true, if_false]
  split_ifs
  · exact ⟨p, by simp, rfl⟩
  · cases offset with
    | inf => exact ⟨p, by simp, rfl⟩
    | fin c => exact ⟨{ p with high := p.high.set axis c }, by simp, rfl⟩

theorem splitAll_foldl_spanArray_mem (axis : Axis) (offset : EFloat) (maxArea : ℚ)
    (l : List Poly) (out : SplitArrays) (q : Poly)
    (hq : q ∈ (l.foldl (fun out p => p.split axis offset maxArea out) out).spanArray) :
    q ∈ out.spanArray ∨ ∃ p ∈ l, q.source = p.source ∧ p.box.contains q.box := by
  induction l generalizing out with
  | nil => exact Or.inl hq
  | cons p ps ih =>
    rcases ih _ hq with h | ⟨p1, hp1, h⟩
    · rcases Poly.split_spanArray_mem p axis offset maxArea out q h with h | h
      · exact Or.inl h
      · exact Or.inr ⟨p, List.mem_cons_self _ _, h⟩
    · exact Or.inr ⟨p1, List.mem_cons_of_mem _ hp1, h⟩

theorem splitAll_foldl_spanArray_sub (axis : Axis) (offset : EFloat) (maxArea : ℚ)
    (l : List Poly) (out : SplitArrays) (q : Poly) (hq : q ∈ out.spanArray) :
    q ∈ (l.foldl (fun out p => p.split axis offset maxArea out) out).spanArray := by
  induction l generalizing out with
  | nil => exact hq
  | cons p ps ih => exact ih _ (Poly.split_spanArray_sub p axis offset maxArea out q hq)

theorem splitAll_foldl_spanArray_covers (axis : Axis) (offset : EFloat) (maxArea : ℚ)
    (l : List Poly) (out : SplitArrays) (p : Poly) (hp : p ∈ l)
    (h1 : EFloat.leOf (p.high.get axis) offset = false)
    (h2 : EFloat.geOf (p.low.get axis) offset = false) :
    ∃ q ∈ (l.foldl (fun out p => p.split axis offset maxArea out) out).spanArray,
      q.source = p.source := by
  induction l generalizing out with
  | nil => simp at hp
  | cons p1 ps ih =>
    rcases List.mem_cons.1 hp with rfl | hp
    · obtain ⟨q, hq, hs⟩ := Poly.split_spanArray_covers p axis offset maxArea out h1 h2
      exact ⟨q, splitAll_foldl_spanArray_sub axis offset maxArea ps _ q hq, hs⟩
    · exact ih _ hp

/-- Every entry of the span array comes from a candidate: it has that
candidate's source triangle and lies inside that candidate's extent. -/
theorem splitAll_spanArray_mem (original : List Poly) (axis : Axis) (offset : EFloat)
    (maxArea : ℚ) (q : Poly) (hq : q ∈ (splitAll original axis offset maxArea).spanArray) :
    ∃ p ∈ original, q.source = p.source ∧ p.box.contains q.box := by
  rcases splitAll_foldl_spanArray_mem axis offset maxArea original SplitArrays.empty q hq with
    h | h
  · simp [SplitArrays.empty] at h
  · exact h

/-- Every candidate lands in the low array, in the high array, or leaves an
entry with its source triangle in the span array. -/
theorem splitAll_covers (original : List Poly) (axis : Axis) (offset : EFloat)
    (maxArea : ℚ) (p : Poly) (hp : p ∈ original) :
    p ∈ (splitAll original axis offset maxArea).lowArray ∨
    p ∈ (splitAll original axis offset maxArea).highArray ∨
    ∃ q ∈ (splitAll original axis offset maxArea).spanArray, q.source = p.source := by
  rw [splitAll_lowArray, splitAll_highArray]
  cases h1 : EFloat.leOf (p.high.get axis) offset
  · cases h2 : EFloat.geOf (p.low.get axis) offset
    · exact Or.inr (Or.inr
        (splitAll_foldl_spanArray_covers axis offset maxArea original _ p hp h1 h2))
    · exact Or.inr (Or.inl (List.mem_filter.2 ⟨hp, by simp [h1, h2]⟩))
  · exact Or.inl (List.mem_filter.2 ⟨hp, h1⟩)

end G3D

namespace G3D

/-! ## The split policy never reads outside its arrays -/

theorem sortByHigh_perm (axis : Axis) (l : List Poly) : (sortByHigh axis l).Perm l :=
  List.perm_insertionSort _ l

theorem sortByHigh_ne_nil (axis : Axis) (l : List Poly) (h : l ≠ []) :
    sortByHigh axis l ≠ [] := by
  intro h0
  have hp := sortByHigh_perm axis l
  rw [h0] at hp
  exact h hp.symm.eq_nil

theorem insertMember_ne_nil (s : List ℚ) (q : ℚ) : insertMember s q ≠ [] := by
  unfold insertMember
  split_ifs with h
  · intro h0; rw [h0] at h; simp at h
  · simp

theorem candidatePositions_foldl_ne_nil (axis : Axis) (l : List Poly) (s : List ℚ)
    (hs : s ≠ []) :
    l.foldl (fun s p => insertMember (insertMember s (p.low.get axis)) (p.high.get axis)) s
      ≠ [] := by
  induction l generalizing s with
  | nil => exact hs
  | cons p ps ih => exact ih _ (insertMember_ne_nil _ _)

theorem candidatePositions_ne_nil (axis : Axis) (l : List Poly) (h : l ≠ []) :
    candidatePositions axis l ≠ [] := by
  cases l with
  | nil => exact absurd rfl h
  | cons p ps =>
    exact candidatePositions_foldl_ne_nil axis ps _ (insertMember_ne_nil _ _)

theorem accurateLoop_index (axis : Axis) (source : List Poly) (containingArea : ℚ)
    (settings : Settings) (rest : List ℚ) (i : Nat) (st : EFloat × Nat) :
    (accurateLoop axis source containingArea settings rest i st).2 = st.2 ∨
    (accurateLoop axis source containingArea settings rest i st).2 < i + rest.length := by
  induction rest generalizing i st with
  | nil => exact Or.inl rfl
  | cons pos rest ih =>
    unfold accurateLoop
    simp only []
    split_ifs
    · rcases ih (i + 1) (.fin (SAHCostAt axis pos source containingArea settings), i) with h | h
      · right; rw [h]; simp
      · right; simp only [List.length_cons]; omega
    · rcases ih (i + 1) st with h | h
      · exact Or.inl h
      · right; simp only [List.length_cons]; omega

theorem chooseSAHSplitLocationAccurate_some (bounds : AABox) (source : List Poly)
    (axis : Axis) (settings : Settings) (h : source ≠ []) :
    ∃ q, chooseSAHSplitLocationAccurate bounds source axis settings = some q := by
  unfold chooseSAHSplitLocationAccurate
  simp only []
  have hne := candidatePositions_ne_nil axis source h
  have hlen : 0 < (candidatePositions axis source).length := List.length_pos.2 hne
  have hidx := accurateLoop_index axis source bounds.area settings
    (candidatePositions axis source) 0 (.inf, 0)
  have hlt : (accurateLoop axis source bounds.area settings (candidatePositions axis source) 0
      (.inf, 0)).2 < (candidatePositions axis source).length := by
    rcases hidx with h1 | h1
    · rw [h1]; exact hlen
    · simpa using h1
  exact ⟨_, List.getElem?_eq_getElem hlt⟩

theorem uniqueHighs_ne_nil_source (axis : Axis) (c : ℚ) (ps : List Poly)
    (h : uniqueHighs axis c ps ≠ []) : ps ≠ [] := by
  intro h0; subst h0; simp [uniqueHighs] at h

theorem dropLast_cons_of_ne_nil (a : ℚ) (l : List ℚ) (h : l ≠ []) :
    (a :: l).dropLast = a :: l.dropLast := by
  cases l with
  | nil => exact absurd rfl h
  | cons b l => rfl

/-- Every split position but the last is the upper extent of a candidate that
is not the last one of the array. -/
theorem uniqueHighs_dropLast_index (axis : Axis) (ps : List Poly) (c h : ℚ)
    (hh : h ∈ (uniqueHighs axis c ps).dropLast) :
    ∃ j p, ps[j]? = some p ∧ p.high.get axis = h ∧ j + 1 < ps.length := by
  induction ps generalizing c with
  | nil => simp [uniqueHighs] at hh
  | cons p ps ih =>
    unfold uniqueHighs at hh
    split_ifs at hh with hc
    · by_cases hl : uniqueHighs axis (p.high.get axis) ps = []
      · rw [hl] at hh; simp at hh
      · rw [dropLast_cons_of_ne_nil _ _ hl] at hh
        rcases List.mem_cons.1 hh with rfl | hh
        · have hne := uniqueHighs_ne_nil_source axis _ ps hl
          refine ⟨0, p, by simp, rfl, ?_⟩
          have := List.length_pos.2 hne
          simp only [List.length_cons]; omega
        · obtain ⟨j, p1, h1, h2, h3⟩ := ih _ hh
          exact ⟨j + 1, p1, by simpa using h1, h2, by simp only [List.length_cons]; omega⟩
    · obtain ⟨j, p1, h1, h2, h3⟩ := ih _ hh
      exact ⟨j + 1, p1, by simpa using h1, h2, by simp only [List.length_cons]; omega⟩

theorem uniqueHighs_pairwise (axis : Axis) (ps : List Poly) (c : ℚ) :
    (c :: uniqueHighs axis c ps).Pairwise (· < ·) := by
  induction ps generalizing c with
  | nil => simp [uniqueHighs]
  | cons p ps ih =>
    unfold uniqueHighs
    split_ifs with hc
    · have h1 := ih (p.high.get axis)
      rw [List.pairwise_cons] at h1 ⊢
      refine ⟨?_, List.pairwise_cons.2 h1⟩
      intro x hx
      rcases List.mem_cons.1 hx with rfl | hx
      · exact hc
      · exact lt_trans hc (h1.1 x hx)
    · exact ih c

/-- When the scan appends anything, some candidate's upper extent exceeds
every split position that survives `popDiscard`. -/
theorem uniqueHighs_top (axis : Axis) (ps : List Poly) (c : ℚ)
    (hne : uniqueHighs axis c ps ≠ []) :
    ∃ p ∈ ps, ∀ h ∈ (c :: uniqueHighs axis c ps).dropLast, h < p.high.get axis := by
  induction ps generalizing c with
  | nil => simp [uniqueHighs] at hne
  | cons p ps ih =>
    unfold uniqueHighs at hne ⊢
    split_ifs at hne ⊢ with hc
    · by_cases hl : uniqueHighs axis (p.high.get axis) ps = []
      · refine ⟨p, List.mem_cons_self _ _, ?_⟩
        rw [hl]
        intro h hh
        simp at hh
        rw [hh]; exact hc
      · obtain ⟨p1, hp1, hlt⟩ := ih _ hl
        refine ⟨p1, List.mem_cons_of_mem _ hp1, ?_⟩
        intro h hh
        rw [dropLast_cons_of_ne_nil _ _ (List.cons_ne_nil _ _)] at hh
        rcases List.mem_cons.1 hh with rfl | hh
        · have : p.high.get axis ∈ (p.high.get axis :: uniqueHighs axis (p.high.get axis) ps).dropLast := by
            rw [dropLast_cons_of_ne_nil _ _ hl]; exact List.mem_cons_self _ _
          exact lt_trans hc (hlt _ this)
        · exact hlt _ hh
    · obtain ⟨p1, hp1, hlt⟩ := ih _ hne
      exact ⟨p1, List.mem_cons_of_mem _ hp1, hlt⟩

theorem highWhile_some (axis : Axis) (source : List Poly) (h : ℚ) (k : Nat)
    (low high : Vector3) (hk : k ≤ source.length)
    (hex : ∃ j p, j < k ∧ source[j]? = some p ∧ p.high.get axis ≤ h) :
    ∃ k1 low1 high1, highWhile axis source h k low high = some (k1, low1, high1) ∧ k1 ≤ k ∧
      ∀ j p, j < k → source[j]? = some p → p.high.get axis ≤ h → j < k1 := by
  induction k generalizing low high with
  | zero => obtain ⟨j, p, hj, _⟩ := hex; omega
  | succ k ih =>
    have hlt : k < source.length := hk
    unfold highWhile
    rw [List.getElem?_eq_getElem hlt]
    simp only []
    split_ifs with hgt
    · have hex1 : ∃ j p, j < k ∧ source[j]? = some p ∧ p.high.get axis ≤ h := by
        obtain ⟨j, p, hj, hjp, hle⟩ := hex
        refine ⟨j, p, ?_, hjp, hle⟩
        rcases Nat.lt_succ_iff_lt_or_eq.1 hj with h1 | h1
        · exact h1
        · subst h1
          rw [List.getElem?_eq_getElem hlt] at hjp
          cases hjp
          exact absurd hle (not_le.2 hgt)
      obtain ⟨k1, low1, high1, he, hle, hall⟩ := ih (low.min source[k].low)
        (high.max source[k].high) (Nat.le_of_lt hlt) hex1
      refine ⟨k1, low1, high1, he, Nat.le_succ_of_le hle, ?_⟩
      intro j p hj hjp hph
      rcases Nat.lt_succ_iff_lt_or_eq.1 hj with h1 | h1
      · exact hall j p h1 hjp hph
      · subst h1
        rw [List.getElem?_eq_getElem hlt] at hjp
        cases hjp
        exact absurd hph (not_le.2 hgt)
    · exact ⟨k + 1, low, high, rfl, le_rfl, fun j p hj _ _ => hj⟩

theorem highSweepLoop_some (axis : Axis) (source : List Poly) (containingArea : ℚ)
    (hs : List ℚ) (k : Nat) (low high : Vector3) (hk : k ≤ source.length)
    (hsorted : hs.Pairwise (fun a b => b ≤ a))
    (hex : ∀ h ∈ hs, ∃ j p, j < k ∧ source[j]? = some p ∧ p.high.get axis ≤ h) :
    ∃ cs, highSweepLoop axis source containingArea hs k low high = some cs := by
  induction hs generalizing k low high with
  | nil => exact ⟨[], rfl⟩
  | cons h hs ih =>
    obtain ⟨k1, low1, high1, he, hle, hall⟩ :=
      highWhile_some axis source h k low high hk (hex h (List.mem_cons_self _ _))
    rw [List.pairwise_cons] at hsorted
    have hex1 : ∀ h1 ∈ hs, ∃ j p, j < k1 ∧ source[j]? = some p ∧ p.high.get axis ≤ h1 := by
      intro h1 hh1
      obtain ⟨j, p, hj, hjp, hph⟩ := hex h1 (List.mem_cons_of_mem _ hh1)
      exact ⟨j, p, hall j p hj hjp (le_trans hph (hsorted.1 h1 hh1)), hjp, hph⟩
    obtain ⟨cs, hcs⟩ := ih k1 low1 high1 (le_trans hle hk) hsorted.2 hex1
    unfold highSweepLoop
    rw [he]
    simp only [hcs]
    exact ⟨_, rfl⟩

theorem lowWhile_some (axis : Axis) (h : ℚ) (unvisited : List Poly) (i : Nat)
    (low high : Vector3) (p : Poly) (hp : p ∈ unvisited) (hgt : h < p.high.get axis) :
    ∃ r, lowWhile axis h unvisited i low high = some r ∧ p ∈ r.1 := by
  induction unvisited generalizing i low high with
  | nil => simp at hp
  | cons q qs ih =>
    unfold lowWhile
    split_ifs with hq
    · rcases List.mem_cons.1 hp with rfl | hp
      · exact absurd hq (not_le.2 hgt)
      · exact ih _ _ _ hp
    · exact ⟨_, rfl, hp⟩

theorem lowSweepLoop_some (axis : Axis) (size : Nat) (containingArea : ℚ)
    (pairs : List (ℚ × ℚ)) (unvisited : List Poly) (i : Nat) (low high : Vector3)
    (st : EFloat × EFloat) (p : Poly) (hp : p ∈ unvisited)
    (hgt : ∀ x ∈ pairs, x.1 < p.high.get axis) :
    ∃ r, lowSweepLoop axis size containingArea pairs unvisited i low high st = some r := by
  induction pairs generalizing unvisited i low high st with
  | nil => exact ⟨st, rfl⟩
  | cons x rest ih =>
    obtain ⟨h, highCost⟩ := x
    obtain ⟨r, hr, hpr⟩ := lowWhile_some axis h unvisited i low high p hp
      (hgt (h, highCost) (List.mem_cons_self _ _))
    obtain ⟨u1, i1, low1, high1⟩ := r
    unfold lowSweepLoop
    rw [hr]
    simp only []
    exact ih _ _ _ _ _ hpr (fun x hx => hgt x (List.mem_cons_of_mem _ hx))

end G3D

namespace G3D

theorem splitPositions_mem_index (axis : Axis) (p : Poly) (ps : List Poly) (h : ℚ)
    (hh : h ∈ (p.high.get axis :: uniqueHighs axis (p.high.get axis) ps).dropLast) :
    ∃ j q, j < (p :: ps).length - 1 ∧ (p :: ps)[j]? = some q ∧ q.high.get axis ≤ h := by
  by_cases hl : uniqueHighs axis (p.high.get axis) ps = []
  · rw [hl] at hh; simp at hh
  · rw [dropLast_cons_of_ne_nil _ _ hl] at hh
    have hne := List.length_pos.2 (uniqueHighs_ne_nil_source axis _ ps hl)
    rcases List.mem_cons.1 hh with rfl | hh
    · exact ⟨0, p, by simpa using hne, by simp, le_rfl⟩
    · obtain ⟨j, q, h1, h2, h3⟩ := uniqueHighs_dropLast_index axis ps _ h hh
      exact ⟨j + 1, q, by simp only [List.length_cons]; omega, by simpa using h1, h2.le⟩

theorem chooseSAHSplitLocationFast_some (bounds : AABox) (source : List Poly) (axis : Axis)
    (h : source ≠ []) :
    ∃ loc, chooseSAHSplitLocationFast bounds source axis = some (loc, sortByHigh axis source) := by
  unfold chooseSAHSplitLocationFast
  have hne := sortByHigh_ne_nil axis source h
  generalize sortByHigh axis source = sorted at hne
  cases sorted with
  | nil => exact absurd rfl hne
  | cons p ps =>
    simp only [splitPositions]
    have hpw := uniqueHighs_pairwise axis ps (p.high.get axis)
    have hpw2 : ((p.high.get axis :: uniqueHighs axis (p.high.get axis) ps).dropLast).Pairwise
        (· < ·) := hpw.sublist (List.dropLast_sublist _)
    -- the sweep from above
    have hhigh : ∃ hc, highSweep axis (p :: ps) bounds.area
        (p.high.get axis :: uniqueHighs axis (p.high.get axis) ps).dropLast = some hc := by
      unfold highSweep
      have hlast : (p :: ps).length - 1 < (p :: ps).length := by simp
      rw [List.getElem?_eq_getElem hlast]
      simp only []
      obtain ⟨cs, hcs⟩ := highSweepLoop_some axis (p :: ps) bounds.area
        ((p.high.get axis :: uniqueHighs axis (p.high.get axis) ps).dropLast).reverse
        ((p :: ps).length - 1) ((p :: ps)[(p :: ps).length - 1]).low
        ((p :: ps)[(p :: ps).length - 1]).high (Nat.sub_le _ _)
        (List.pairwise_reverse.2 (hpw2.imp (fun hab => le_of_lt hab)))
        (fun h1 hh1 => splitPositions_mem_index axis p ps h1 (List.mem_reverse.1 hh1))
      rw [hcs]
      exact ⟨_, rfl⟩
    obtain ⟨hc, hhc⟩ := hhigh
    rw [hhc]
    simp only []
    -- the sweep from below
    have hlow : ∃ r, lowSweepLoop axis (p :: ps).length bounds.area
        (((p.high.get axis :: uniqueHighs axis (p.high.get axis) ps).dropLast).zip hc) ps 1
        p.low p.high (.inf, .inf) = some r := by
      by_cases hl : uniqueHighs axis (p.high.get axis) ps = []
      · rw [hl]
        exact ⟨_, rfl⟩
      · obtain ⟨q, hq, hlt⟩ := uniqueHighs_top axis ps _ hl
        exact lowSweepLoop_some axis _ _ _ ps 1 _ _ _ q hq
          (fun x hx => hlt x.1 (List.of_mem_zip (a := x.1) (b := x.2) hx).1)
    obtain ⟨r, hr⟩ := hlow
    rw [hr]
    exact ⟨_, rfl⟩

/-- On a non-empty candidate array `chooseSplitLocation` returns a location
(no read falls outside an array) together with a rearrangement of the
candidates. -/
theorem chooseSplitLocation_some (bounds : AABox) (source : List Poly) (settings : Settings)
    (axis : Axis) (h : source ≠ []) :
    ∃ loc source1, chooseSplitLocation bounds source settings axis = some (loc, source1) ∧
      source1.Perm source := by
  unfold chooseSplitLocation
  cases settings.algorithm with
  | MEAN_EXTENT => exact ⟨_, _, rfl, List.Perm.refl _⟩
  | MEDIAN_AREA => exact ⟨_, _, rfl, sortByHigh_perm axis source⟩
  | MEDIAN_COUNT =>
    simp only []
    have hne := sortByHigh_ne_nil axis source h
    have hlt : ((sortByHigh axis source).length - 1) / 2 < (sortByHigh axis source).length := by
      have := List.length_pos.2 hne
      omega
    rw [List.getElem?_eq_getElem hlt]
    exact ⟨_, _, rfl, sortByHigh_perm axis source⟩
  | SAH =>
    simp only [chooseSAHSplitLocation]
    split_ifs
    · obtain ⟨q, hq⟩ := chooseSAHSplitLocationAccurate_some bounds source axis settings h
      rw [hq]
      exact ⟨_, _, rfl, List.Perm.refl _⟩
    · obtain ⟨loc, hloc⟩ := chooseSAHSplitLocationFast_some bounds source axis h
      rw [hloc]
      exact ⟨_, _, rfl, sortByHigh_perm axis source⟩

end G3D

namespace G3D

/-! ## The build -/

theorem valuesOf_setValueArray (src : List Poly) :
    valuesOf (setValueArray src) = src.map Poly.source := by
  cases src <;> simp [setValueArray, valuesOf]

theorem Node.splitTrial_some (bounds : AABox) (settings : Settings) (original : List Poly)
    (axis : Axis) (h : original ≠ []) :
    ∃ t, Node.splitTrial bounds settings original axis = some t ∧ t.original.Perm original ∧
      t.arrays = splitAll t.original axis t.splitLocation (bounds.area * settings.maxAreaFraction) ∧
      t.bad = badSplit t.original.length t.arrays.lowArray.length t.arrays.highArray.length := by
  obtain ⟨loc, o1, he, hp⟩ := chooseSplitLocation_some bounds original settings axis h
  unfold Node.splitTrial
  rw [he]
  exact ⟨_, rfl, hp, rfl, rfl⟩

theorem perm_ne_nil {l1 l2 : List Poly} (hp : l1.Perm l2) (h : l2 ≠ []) : l1 ≠ [] := by
  intro h0; rw [h0] at hp; exact h hp.symm.eq_nil

/-- Function `Node::split` on a non-empty candidate array always produces an outcome,
and the outcome satisfies `SplitOutcome.Spec`. -/
theorem Node.split_some (bounds : AABox) (original : List Poly) (settings : Settings)
    (h : original ≠ []) :
    ∃ o, Node.split bounds original settings = some o ∧ o.Spec bounds settings original := by
  unfold Node.split
  simp only []
  obtain ⟨t0, e0, p0, a0, b0⟩ := Node.splitTrial_some bounds settings original
    (Node.preferredAxis bounds).1 h
  rw [e0]
  simp only []
  by_cases hb0 : t0.bad = true
  · rw [if_pos hb0]
    obtain ⟨t1, e1, p1, a1, b1⟩ := Node.splitTrial_some bounds settings t0.original
      (Node.preferredAxis bounds).2.1 (perm_ne_nil p0 h)
    rw [e1]
    simp only []
    by_cases hb1 : t1.bad = true
    · rw [if_pos hb1]
      obtain ⟨t2, e2, p2, a2, b2⟩ := Node.splitTrial_some bounds settings t1.original
        (Node.preferredAxis bounds).2.2 (perm_ne_nil p1 (perm_ne_nil p0 h))
      rw [e2]
      simp only []
      by_cases hb2 : t2.bad = true
      · rw [if_pos hb2]
        exact ⟨_, rfl, (p2.trans p1).trans p0⟩
      · rw [if_neg hb2]
        refine ⟨_, rfl, t2.original, (p2.trans p1).trans p0, a2, ?_⟩
        rw [← b2]; simpa using hb2
    · rw [if_neg hb1]
      refine ⟨_, rfl, t1.original, p1.trans p0, a1, ?_⟩
      rw [← b1]; simpa using hb1
  · rw [if_neg hb0]
    refine ⟨_, rfl, t0.original, p0, a0, ?_⟩
    rw [← b0]; simpa using hb0

theorem badSplit_false (n lo hi : Nat) (h : badSplit n lo hi = false) :
    lo ≠ 0 ∧ hi ≠ 0 ∧ lo ≠ n ∧ hi ≠ n := by
  unfold badSplit at h
  simp only [Bool.or_eq_false_iff, beq_eq_false_iff_ne, ne_eq] at h
  exact ⟨h.1.1.1.1, h.1.1.1.2, h.1.1.2, h.1.2⟩

/-- An accepted split hands each child a non-empty, strictly shorter array
whose entries are candidates of the parent. -/
theorem children_arrays (bounds : AABox) (settings : Settings) (original : List Poly)
    (loc : EFloat) (axis : Axis) (arrays : SplitArrays)
    (h : (SplitOutcome.children loc axis arrays).Spec bounds settings original) :
    (arrays.lowArray ≠ [] ∧ arrays.lowArray.length < original.length ∧
      ∀ p ∈ arrays.lowArray, p ∈ original) ∧
    (arrays.highArray ≠ [] ∧ arrays.highArray.length < original.length ∧
      ∀ p ∈ arrays.highArray, p ∈ original) := by
  obtain ⟨o1, hp, ha, hb⟩ := h
  obtain ⟨h1, h2, h3, h4⟩ := badSplit_false _ _ _ hb
  have hlen := hp.length_eq
  have hlow : arrays.lowArray = o1.filter (fun p => EFloat.leOf (p.high.get axis) loc) := by
    rw [ha, splitAll_lowArray]
  have hhigh : arrays.highArray = o1.filter (fun p => !EFloat.leOf (p.high.get axis) loc &&
      EFloat.geOf (p.low.get axis) loc) := by
    rw [ha, splitAll_highArray]
  have hl1 : arrays.lowArray.length ≤ o1.length := by rw [hlow]; exact List.length_filter_le _ _
  have hl2 : arrays.highArray.length ≤ o1.length := by rw [hhigh]; exact List.length_filter_le _ _
  refine ⟨⟨?_, by omega, ?_⟩, ⟨?_, by omega, ?_⟩⟩
  · intro h0; rw [h0] at h1; exact h1 rfl
  · intro p hp1
    rw [hlow] at hp1
    exact hp.subset (List.mem_filter.1 hp1).1
  · intro h0; rw [h0] at h2; exact h2 rfl
  · intro p hp1
    rw [hhigh] at hp1
    exact hp.subset (List.mem_filter.1 hp1).1

/-- The node constructor terminates with a node on every non-empty candidate
array: a recursion depth equal to the array's length is enough. -/
theorem Node.build_some (settings : Settings) (fuel : Nat) (originals : List Poly)
    (hne : originals ≠ []) (hlen : originals.length ≤ fuel) :
    ∃ n, Node.build settings fuel originals = some n := by
  induction fuel generalizing originals with
  | zero =>
    have := List.length_pos.2 hne
    omega
  | succ fuel ih =>
    unfold Node.build
    simp only []
    split_ifs
    · exact ⟨_, rfl⟩
    · obtain ⟨o, ho, hspec⟩ := Node.split_some (Poly.computeBounds originals) originals
        settings hne
      rw [ho]
      cases o with
      | leaf loc values => exact ⟨_, rfl⟩
      | children loc axis arrays =>
        obtain ⟨⟨l1, l2, _⟩, ⟨h1, h2, _⟩⟩ := children_arrays _ _ _ _ _ _ hspec
        obtain ⟨c0, hc0⟩ := ih arrays.lowArray l1 (by omega)
        obtain ⟨c1, hc1⟩ := ih arrays.highArray h1 (by omega)
        simp only [hc0, hc1]
        exact ⟨_, rfl⟩

end G3D

namespace G3D

theorem Node.bounds_leaf (b : AABox) (l : EFloat) (v : Option ValueArray) :
    (Node.leaf b l v).bounds = b := rfl

theorem Node.bounds_inner (b : AABox) (l : EFloat) (v : Option ValueArray) (a : Axis)
    (c0 c1 : Node) : (Node.inner b l v a c0 c1).bounds = b := rfl

/-- What the node constructor builds from a non-empty candidate array: the
node's bounds are the bounds of the candidates, the subtree references exactly
the source triangles of the candidates, and when every candidate carries the
full extent `box` of its source triangle the subtree satisfies the containment
invariant for `box`. -/
theorem Node.build_spec (settings : Settings) (box : Nat → AABox) (fuel : Nat)
    (originals : List Poly) (n : Node) (h : Node.build settings fuel originals = some n)
    (hne : originals ≠ []) :
    n.bounds = Poly.computeBounds originals ∧
    (∀ i, i ∈ n.refs ↔ ∃ p ∈ originals, p.source = i) ∧
    ((∀ p ∈ originals, p.box = box p.source) → n.Contained box) := by
  induction fuel generalizing originals n with
  | zero => simp [Node.build] at h
  | succ fuel ih =>
    unfold Node.build at h
    simp only [] at h
    split_ifs at h
    · cases h
      refine ⟨rfl, ?_, ?_⟩
      · intro i
        simp [Node.refs, valuesOf_setValueArray]
      · intro hbox i hi
        simp only [valuesOf_setValueArray, List.mem_map] at hi
        obtain ⟨p, hp, rfl⟩ := hi
        rw [← hbox p hp]
        exact computeBounds_contains_mem originals p hp
    · obtain ⟨o, ho, hspec⟩ := Node.split_some (Poly.computeBounds originals) originals
        settings hne
      rw [ho] at h
      cases o with
      | leaf loc values =>
        simp only [Option.some.injEq] at h
        subst h
        have hperm : values.Perm originals := hspec
        refine ⟨rfl, ?_, ?_⟩
        · intro i
          simp only [Node.refs, valuesOf_setValueArray, List.mem_map]
          constructor
          · rintro ⟨p, hp, rfl⟩; exact ⟨p, hperm.subset hp, rfl⟩
          · rintro ⟨p, hp, rfl⟩; exact ⟨p, hperm.symm.subset hp, rfl⟩
        · intro hbox i hi
          simp only [valuesOf_setValueArray, List.mem_map] at hi
          obtain ⟨p, hp, rfl⟩ := hi
          rw [← hbox p (hperm.subset hp)]
          exact computeBounds_contains_mem originals p (hperm.subset hp)
      | children loc axis arrays =>
        obtain ⟨⟨l1, _, l3⟩, ⟨h1, _, h3⟩⟩ := children_arrays _ _ _ _ _ _ hspec
        obtain ⟨o1, hperm, harr, _⟩ := hspec
        simp only [] at h
        cases hc0 : Node.build settings fuel arrays.lowArray with
        | none => simp [hc0] at h
        | some c0 =>
          cases hc1 : Node.build settings fuel arrays.highArray with
          | none => simp [hc0, hc1] at h
          | some c1 =>
            simp only [hc0, hc1, Option.some.injEq] at h
            subst h
            obtain ⟨b0, r0, k0⟩ := ih arrays.lowArray c0 hc0 l1
            obtain ⟨b1, r1, k1⟩ := ih arrays.highArray c1 hc1 h1
            have hspan : ∀ q ∈ arrays.spanArray,
                ∃ p ∈ originals, q.source = p.source ∧ p.box.contains q.box := by
              intro q hq
              rw [harr] at hq
              obtain ⟨p, hp, hs⟩ := splitAll_spanArray_mem _ _ _ _ q hq
              exact ⟨p, hperm.subset hp, hs⟩
            refine ⟨rfl, ?_, ?_⟩
            · intro i
              simp only [Node.refs, valuesOf_setValueArray, List.mem_append, List.mem_map,
                r0, r1]
              constructor
              · rintro (⟨q, hq, rfl⟩ | ⟨p, hp, rfl⟩ | ⟨p, hp, rfl⟩)
                · obtain ⟨p, hp, hs, _⟩ := hspan q hq
                  exact ⟨p, hp, hs.symm⟩
                · exact ⟨p, l3 p hp, rfl⟩
                · exact ⟨p, h3 p hp, rfl⟩
              · rintro ⟨p, hp, rfl⟩
                have hcov := splitAll_covers o1 axis loc
                  ((Poly.computeBounds originals).area * settings.maxAreaFraction) p
                  (hperm.symm.subset hp)
                rw [← harr] at hcov
                rcases hcov with hc | hc | ⟨q, hq, hs⟩
                · exact Or.inr (Or.inl ⟨p, hc, rfl⟩)
                · exact Or.inr (Or.inr ⟨p, hc, rfl⟩)
                · exact Or.inl ⟨q, hq, hs⟩
            · intro hbox
              refine ⟨?_, ?_, ?_, k0 (fun p hp => hbox p (l3 p hp)),
                k1 (fun p hp => hbox p (h3 p hp))⟩
              · intro i hi
                simp only [valuesOf_setValueArray, List.mem_map] at hi
                obtain ⟨q, hq, rfl⟩ := hi
                obtain ⟨p, hp, hs, _⟩ := hspan q hq
                rw [hs, ← hbox p hp]
                exact computeBounds_contains_mem originals p hp
              · rw [b0]
                exact computeBounds_mono _ _ l1 l3
              · rw [b1]
                exact computeBounds_mono _ _ h1 h3

end G3D

namespace G3D

/-- More recursion depth than needed does not change the node that is
built. -/
theorem Node.build_mono (settings : Settings) (fuel : Nat) (originals : List Poly) (n : Node)
    (h : Node.build settings fuel originals = some n) (fuel2 : Nat) (hle : fuel ≤ fuel2) :
    Node.build settings fuel2 originals = some n := by
  induction fuel generalizing originals n fuel2 with
  | zero => simp [Node.build] at h
  | succ fuel ih =>
    cases fuel2 with
    | zero => omega
    | succ fuel2 =>
      have hle2 : fuel ≤ fuel2 := by omega
      unfold Node.build at h ⊢
      simp only [] at h ⊢
      split_ifs at h ⊢
      · exact h
      · cases ho : Node.split (Poly.computeBounds originals) originals settings with
        | none => rw [ho] at h; simp at h
        | some o =>
          rw [ho] at h
          cases o with
          | leaf loc values => exact h
          | children loc axis arrays =>
            simp only [] at h ⊢
            cases hc0 : Node.build settings fuel arrays.lowArray with
            | none => simp [hc0] at h
            | some c0 =>
              cases hc1 : Node.build settings fuel arrays.highArray with
              | none => simp [hc0, hc1] at h
              | some c1 =>
                rw [ih _ _ hc0 fuel2 hle2, ih _ _ hc1 fuel2 hle2]
                simpa [hc0, hc1] using h

end G3D

namespace G3D

/-! ## `rebuild` -/

theorem sourceFrom_mem (va : CPUVertexArray) (first : Nat) (tris : List Tri) (p : Poly)
    (hp : p ∈ NativeTriTree.sourceFrom va first tris) :
    ∃ j t, tris[j]? = some t ∧ t.area > NativeTriTree.epsilon ∧
      p = Poly.ofTri va t (first + j) := by
  induction tris generalizing first with
  | nil => simp [NativeTriTree.sourceFrom] at hp
  | cons t ts ih =>
    unfold NativeTriTree.sourceFrom at hp
    split_ifs at hp with ha
    · rcases List.mem_cons.1 hp with rfl | hp
      · exact ⟨0, t, by simp, ha, rfl⟩
      · obtain ⟨j, t1, h1, h2, h3⟩ := ih (first + 1) hp
        exact ⟨j + 1, t1, by simpa using h1, h2, by rw [h3]; congr 1; omega⟩
    · obtain ⟨j, t1, h1, h2, h3⟩ := ih (first + 1) hp
      exact ⟨j + 1, t1, by simpa using h1, h2, by rw [h3]; congr 1; omega⟩

theorem mem_sourceFrom (va : CPUVertexArray) (first : Nat) (tris : List Tri) (j : Nat)
    (t : Tri) (hj : tris[j]? = some t) (ha : t.area > NativeTriTree.epsilon) :
    Poly.ofTri va t (first + j) ∈ NativeTriTree.sourceFrom va first tris := by
  induction tris generalizing first j with
  | nil => simp at hj
  | cons t1 ts ih =>
    unfold NativeTriTree.sourceFrom
    cases j with
    | zero =>
      simp only [List.getElem?_cons_zero, Option.some.injEq] at hj
      subst hj
      rw [if_pos ha]
      exact List.mem_cons_self _ _
    | succ j =>
      simp only [List.getElem?_cons_succ] at hj
      have := ih (first + 1) j hj
      have e : first + 1 + j = first + (j + 1) := by omega
      rw [e] at this
      split_ifs
      · exact List.mem_cons_of_mem _ this
      · exact this

theorem tri_of_getElem? (t : NativeTriTree) (j : Nat) (x : Tri)
    (h : t.m_triArray[j]? = some x) : t.tri j = x := by
  unfold NativeTriTree.tri
  rw [List.getD_eq_getElem?_getD, h]
  rfl

/-- The candidates `rebuild` starts from: each wraps a triangle of the array
whose area exceeds `epsilon`, with the full extent of that triangle. -/
theorem source_mem (t : NativeTriTree) (p : Poly)
    (hp : p ∈ NativeTriTree.sourceFrom t.m_vertexArray 0 t.m_triArray) :
    p.source < t.m_triArray.length ∧ (t.tri p.source).area > NativeTriTree.epsilon ∧
      p.box = t.triBounds p.source := by
  obtain ⟨j, x, h1, h2, h3⟩ := sourceFrom_mem _ _ _ p hp
  have hs : p.source = j := by rw [h3]; simp [Poly.ofTri]
  have hx := tri_of_getElem? t j x h1
  have hlt : j < t.m_triArray.length := by
    by_contra hge
    rw [List.getElem?_eq_none (Nat.le_of_not_lt hge)] at h1
    cases h1
  refine ⟨by rw [hs]; exact hlt, by rw [hs, hx]; exact h2, ?_⟩
  rw [hs]
  unfold NativeTriTree.triBounds
  rw [hx, h3]
  simp

theorem mem_source (t : NativeTriTree) (i : Nat) (hi : i < t.m_triArray.length)
    (ha : (t.tri i).area > NativeTriTree.epsilon) :
    ∃ p ∈ NativeTriTree.sourceFrom t.m_vertexArray 0 t.m_triArray, p.source = i := by
  have h1 : t.m_triArray[i]? = some t.m_triArray[i] := List.getElem?_eq_getElem hi
  have hx := tri_of_getElem? t i _ h1
  rw [hx] at ha
  have := mem_sourceFrom t.m_vertexArray 0 t.m_triArray i _ h1 ha
  exact ⟨_, this, by simp [Poly.ofTri]⟩

/-- Function `rebuild` always succeeds. It leaves the triangle and vertex data alone;
the new tree has a root exactly when some triangle passes the area filter, and
then the root is the node built from all the filtered candidates. -/
theorem rebuild_spec (settings : Settings) (t : NativeTriTree) :
    ∃ t1, t.rebuild settings = some t1 ∧ t1.m_triArray = t.m_triArray ∧
      t1.m_vertexArray = t.m_vertexArray ∧
      ((NativeTriTree.sourceFrom t.m_vertexArray 0 t.m_triArray = [] ∧ t1.m_root = none) ∨
       (NativeTriTree.sourceFrom t.m_vertexArray 0 t.m_triArray ≠ [] ∧
        ∃ root, t1.m_root = some root ∧
          Node.build settings (NativeTriTree.sourceFrom t.m_vertexArray 0 t.m_triArray).length
            (NativeTriTree.sourceFrom t.m_vertexArray 0 t.m_triArray) = some root)) := by
  unfold NativeTriTree.rebuild
  simp only []
  by_cases hne : NativeTriTree.sourceFrom t.m_vertexArray 0 t.m_triArray = []
  · rw [if_neg (by rw [hne]; simp)]
    exact ⟨_, rfl, rfl, rfl, Or.inl ⟨hne, rfl⟩⟩
  · rw [if_pos (List.length_pos.2 hne)]
    obtain ⟨root, hroot⟩ := Node.build_some settings _ _ hne le_rfl
    rw [hroot]
    exact ⟨_, rfl, rfl, rfl, Or.inr ⟨hne, root, rfl, rfl⟩⟩

theorem tri_congr (t t1 : NativeTriTree) (h : t1.m_triArray = t.m_triArray) (i : Nat) :
    t1.tri i = t.tri i := by
  unfold NativeTriTree.tri; rw [h]

theorem triBounds_congr (t t1 : NativeTriTree) (h1 : t1.m_triArray = t.m_triArray)
    (h2 : t1.m_vertexArray = t.m_vertexArray) (i : Nat) : t1.triBounds i = t.triBounds i := by
  unfold NativeTriTree.triBounds; rw [tri_congr t t1 h1, h2]

/-- The tree `rebuild` leaves behind: a root, when there is one, has the
bounds of all filtered candidates, references exactly the triangles whose area
exceeds `epsilon`, and satisfies the containment invariant for the full
triangle extents. -/
theorem rebuild_root (settings : Settings) (t : NativeTriTree) :
    ∃ t1, t.rebuild settings = some t1 ∧ t1.m_triArray = t.m_triArray ∧
      t1.m_vertexArray = t.m_vertexArray ∧
      ((∀ i, i < t.m_triArray.length → (t.tri i).area > NativeTriTree.epsilon →
          ∃ root, t1.m_root = some root) ∧
       ∀ root, t1.m_root = some root →
        (∀ i, i ∈ root.refs ↔
          (i < t.m_triArray.length ∧ (t.tri i).area > NativeTriTree.epsilon)) ∧
        (∀ i ∈ root.refs, root.bounds.contains (t.triBounds i)) ∧
        root.Contained t.triBounds) := by
  obtain ⟨t1, h1, h2, h3, h4⟩ := rebuild_spec settings t
  refine ⟨t1, h1, h2, h3, ?_, ?_⟩
  · intro i hi ha
    rcases h4 with ⟨hnil, _⟩ | ⟨_, root, hr, _⟩
    · obtain ⟨p, hp, _⟩ := mem_source t i hi ha
      rw [hnil] at hp
      simp at hp
    · exact ⟨root, hr⟩
  · intro root hroot
    rcases h4 with ⟨_, hnone⟩ | ⟨hne, root1, hr, hb⟩
    · rw [hnone] at hroot; cases hroot
    · have e : root = root1 := Option.some.inj (hroot.symm.trans hr)
      rw [e]
      obtain ⟨b1, b2, b3⟩ := Node.build_spec settings t.triBounds _ _ _ hb hne
      have hrefs : ∀ i, i ∈ root1.refs ↔
          (i < t.m_triArray.length ∧ (t.tri i).area > NativeTriTree.epsilon) := by
        intro i
        rw [b2]
        constructor
        · rintro ⟨p, hp, rfl⟩
          exact ⟨(source_mem t p hp).1, (source_mem t p hp).2.1⟩
        · rintro ⟨hi, ha⟩
          exact mem_source t i hi ha
      refine ⟨hrefs, ?_, b3 (fun p hp => (source_mem t p hp).2.2)⟩
      intro i hi
      obtain ⟨p, hp, rfl⟩ := (b2 i).1 hi
      rw [b1, ← (source_mem t p hp).2.2]
      exact computeBounds_contains_mem _ p hp

end G3D

namespace G3D

/-! ## Range queries -/

theorem rangeValueLoop_spec (t : NativeTriTree) (exact : Vector3 → Vector3 → Vector3 → Bool)
    (out0 : List Tri) (data : List Nat) (st : RangeState) (hinv : st.Inv t out0) :
    (rangeValueLoop t exact data st).Inv t out0 ∧
    ∀ i, i ∈ (rangeValueLoop t exact data st).alreadyAdded ↔
      (i ∈ st.alreadyAdded ∨ (i ∈ data ∧ rangeAccepts t exact i = true)) := by
  induction data generalizing st with
  | nil =>
    refine ⟨hinv, ?_⟩
    intro i
    simp [rangeValueLoop]
  | cons j rest ih =>
    unfold rangeValueLoop
    by_cases hmem : j ∈ st.alreadyAdded
    · have hc : (!st.alreadyAdded.contains j) = false := by simp [hmem]
      rw [hc]
      simp only [Bool.false_eq_true, if_false]
      obtain ⟨h1, h2⟩ := ih st hinv
      refine ⟨h1, ?_⟩
      intro i
      rw [h2 i]
      constructor
      · rintro (h | ⟨h, ha⟩)
        · exact Or.inl h
        · exact Or.inr ⟨List.mem_cons_of_mem _ h, ha⟩
      · rintro (h | ⟨h, ha⟩)
        · exact Or.inl h
        · rcases List.mem_cons.1 h with rfl | h
          · exact Or.inl hmem
          · exact Or.inr ⟨h, ha⟩
    · have hc : (!st.alreadyAdded.contains j) = true := by simp [hmem]
      rw [hc]
      simp only [if_true]
      by_cases hacc : rangeAccepts t exact j = true
      · have hacc1 := hacc
        unfold rangeAccepts at hacc1
        rw [if_pos hacc1]
        have hinv1 : (RangeState.mk (st.triArray ++ [t.tri j]) (st.alreadyAdded ++ [j])).Inv t
            out0 := by
          refine ⟨?_, ?_⟩
          · simp only [List.map_append, List.map_cons, List.map_nil]
            rw [hinv.1, List.append_assoc]
          · exact List.nodup_append.2 ⟨hinv.2, List.nodup_singleton j, by
              intro a ha hb
              rw [List.mem_singleton] at hb
              subst hb
              exact hmem ha⟩
        obtain ⟨h1, h2⟩ := ih _ hinv1
        refine ⟨h1, ?_⟩
        intro i
        rw [h2 i]
        simp only [List.mem_append, List.mem_cons, List.not_mem_nil, or_false]
        constructor
        · rintro ((h | rfl) | ⟨h, ha⟩)
          · exact Or.inl h
          · exact Or.inr ⟨Or.inl rfl, hacc⟩
          · exact Or.inr ⟨Or.inr h, ha⟩
        · rintro (h | ⟨rfl | h, ha⟩)
          · exact Or.inl (Or.inl h)
          · exact Or.inl (Or.inr rfl)
          · exact Or.inr ⟨h, ha⟩
      · have hacc1 := hacc
        unfold rangeAccepts at hacc1
        rw [if_neg hacc1]
        obtain ⟨h1, h2⟩ := ih st hinv
        refine ⟨h1, ?_⟩
        intro i
        rw [h2 i]
        constructor
        · rintro (h | ⟨h, ha⟩)
          · exact Or.inl h
          · exact Or.inr ⟨List.mem_cons_of_mem _ h, ha⟩
        · rintro (h | ⟨h, ha⟩)
          · exact Or.inl h
          · rcases List.mem_cons.1 h with rfl | h
            · exact absurd ha hacc
            · exact Or.inr ⟨h, ha⟩

theorem rangeValues_spec (t : NativeTriTree) (overlaps : AABox → Bool)
    (exact : Vector3 → Vector3 → Vector3 → Bool) (out0 : List Tri)
    (v : Option ValueArray) (st : RangeState) (hinv : st.Inv t out0) :
    (match v with
      | some va => if overlaps va.bounds then rangeValueLoop t exact va.data st else st
      | none => st).Inv t out0 ∧
    ∀ i, i ∈ (match v with
      | some va => if overlaps va.bounds then rangeValueLoop t exact va.data st else st
      | none => st).alreadyAdded ↔
      (i ∈ st.alreadyAdded ∨
        (i ∈ (match v with
          | some va => if overlaps va.bounds then va.data else []
          | none => []) ∧ rangeAccepts t exact i = true)) := by
  cases v with
  | none => exact ⟨hinv, fun i => by simp⟩
  | some va =>
    simp only []
    split_ifs
    · exact rangeValueLoop_spec t exact out0 va.data st hinv
    · exact ⟨hinv, fun i => by simp⟩

/-- A range query on a subtree keeps the invariant of its two by-reference
arguments, and afterwards `alreadyAdded` holds what it held before plus
exactly the reached references that pass the area and exact tests. -/
theorem Node.intersectVolume_spec (t : NativeTriTree) (overlaps : AABox → Bool)
    (exact : Vector3 → Vector3 → Vector3 → Bool) (out0 : List Tri) (n : Node)
    (st : RangeState) (hinv : st.Inv t out0) :
    (n.intersectVolume t overlaps exact st).Inv t out0 ∧
    ∀ i, i ∈ (n.intersectVolume t overlaps exact st).alreadyAdded ↔
      (i ∈ st.alreadyAdded ∨ (i ∈ n.reached overlaps ∧ rangeAccepts t exact i = true)) := by
  induction n generalizing st with
  | leaf b l v =>
    unfold Node.intersectVolume Node.reached
    by_cases hb : overlaps b = true
    · simp only [hb, Bool.not_true, Bool.false_eq_true, if_false, if_true]
      exact rangeValues_spec t overlaps exact out0 v st hinv
    · simp only [hb, Bool.not_eq_true] at *
      simp only [hb, Bool.not_false, if_true, Bool.false_eq_true, if_false]
      exact ⟨hinv, fun i => by simp⟩
  | inner b l v a c0 c1 ih0 ih1 =>
    unfold Node.intersectVolume Node.reached
    by_cases hb : overlaps b = true
    · simp only [hb, Bool.not_true, Bool.false_eq_true, if_false, if_true]
      obtain ⟨k1, m1⟩ := rangeValues_spec t overlaps exact out0 v st hinv
      obtain ⟨k2, m2⟩ := ih0 _ k1
      obtain ⟨k3, m3⟩ := ih1 _ k2
      refine ⟨k3, ?_⟩
      intro i
      rw [m3 i, m2 i, m1 i]
      simp only [List.mem_append]
      tauto
    · simp only [hb, Bool.not_eq_true] at *
      simp only [hb, Bool.not_false, if_true, Bool.false_eq_true, if_false]
      exact ⟨hinv, fun i => by simp⟩

/-- A range query on the tree, started on an empty output array, returns the
triangles of a repetition-free list of references: exactly the reached
references that pass the area and exact tests. -/
theorem intersectVolume_root (t : NativeTriTree) (overlaps : AABox → Bool)
    (exact : Vector3 → Vector3 → Vector3 → Bool) :
    ∃ idxs : List Nat, idxs.Nodup ∧
      (match t.m_root with
        | some root => (root.intersectVolume t overlaps exact ⟨[], []⟩).triArray
        | none => []) = idxs.map t.tri ∧
      ∀ i, i ∈ idxs ↔ (i ∈ t.reached overlaps ∧ rangeAccepts t exact i = true) := by
  unfold NativeTriTree.reached
  cases t.m_root with
  | none => exact ⟨[], List.nodup_nil, rfl, fun i => by simp⟩
  | some root =>
    have hinv : (RangeState.mk [] []).Inv t [] := ⟨rfl, List.nodup_nil⟩
    obtain ⟨h1, h2⟩ := Node.intersectVolume_spec t overlaps exact [] root _ hinv
    refine ⟨_, h1.2, ?_, ?_⟩
    · simpa using h1.1
    · intro i
      rw [h2 i]
      simp

end G3D

namespace G3D

/-! ## The ray-triangle test -/

theorem EFloat.le_self (a : EFloat) : a.le a := by
  cases a <;> simp [EFloat.le]

theorem EFloat.le_chain {a b c : EFloat} (h1 : a.le b) (h2 : b.le c) : a.le c := by
  cases a <;> cases b <;> cases c <;> simp_all [EFloat.le]
  exact h1.trans h2

theorem EFloat.ltOf_mono {d : ℚ} {a b : EFloat} (h1 : EFloat.ltOf d a = true) (h2 : a.le b) :
    EFloat.ltOf d b = true := by
  cases a <;> cases b <;> simp_all [EFloat.le, EFloat.ltOf]
  exact lt_of_lt_of_le h1 h2

theorem EFloat.le_of_ltOf {d : ℚ} {a : EFloat} (h : EFloat.ltOf d a = true) :
    (EFloat.fin d).le a := by
  cases a <;> simp_all [EFloat.le, EFloat.ltOf]
  exact le_of_lt h

/-- Function `rayTriangleIntersection` writes to the hit record only when it returns
true. -/
theorem rayTriangleIntersection_false (ext : Externals) (ray : PrecomputedRay) (mn : ℚ)
    (mx : EFloat) (tri : Tri) (va : CPUVertexArray) (hd : Hit) (o : IntersectRayOptions)
    (h : (rayTriangleIntersection ext ray mn mx tri va hd o).1 = false) :
    (rayTriangleIntersection ext ray mn mx tri va hd o).2 = hd := by
  unfold rayTriangleIntersection at h ⊢
  simp only [] at h ⊢
  split_ifs at h ⊢ <;> rfl

/-- An accepted hit lies strictly between `minDistance` and `maxDistance`, is
accepted under every larger bound as well, and the values written do not
depend on the record passed in. -/
theorem rayTriangleIntersection_true (ext : Externals) (ray : PrecomputedRay) (mn : ℚ)
    (mx : EFloat) (tri : Tri) (va : CPUVertexArray) (hd : Hit) (o : IntersectRayOptions)
    (h : (rayTriangleIntersection ext ray mn mx tri va hd o).1 = true) :
    (∃ d : ℚ, (rayTriangleIntersection ext ray mn mx tri va hd o).2.distance = .fin d ∧
      mn < d ∧ EFloat.ltOf d mx = true) ∧
    ∀ (mx2 : EFloat) (hd2 : Hit), mx.le mx2 →
      rayTriangleIntersection ext ray mn mx2 tri va hd2 o =
        (true, { (rayTriangleIntersection ext ray mn mx tri va hd o).2 with
          triIndex := hd2.triIndex }) := by
  obtain ⟨occ, cull, thr, nocov⟩ := o
  unfold rayTriangleIntersection at h ⊢
  cases thr <;> simp only [Bool.false_eq_true, if_false, if_true] at h ⊢ <;>
    split_ifs at h with h1 h2 h3 h4 h5 <;> try (simp at h; done)
  all_goals
    simp only [if_neg h1, if_neg h2, if_neg h3, if_pos h4, if_neg h5]
    refine ⟨⟨_, rfl, h4.1, h4.2⟩, ?_⟩
    intro mx2 hd2 hle
    have h4b := EFloat.ltOf_mono h4.2 hle
    rw [if_pos ⟨h4.1, h4b⟩]

/-- The test does not read the `OCCLUSION_TEST_ONLY` flag. -/
theorem rayTriangleIntersection_occlusion (ext : Externals) (ray : PrecomputedRay) (mn : ℚ)
    (mx : EFloat) (tri : Tri) (va : CPUVertexArray) (hd : Hit) (o : IntersectRayOptions)
    (b : Bool) :
    rayTriangleIntersection ext ray mn mx tri va hd { o with OCCLUSION_TEST_ONLY := b } =
      rayTriangleIntersection ext ray mn mx tri va hd o := rfl

end G3D

namespace G3D

/-! ## Ray traversal: every reported hit is a hit of the exhaustive test -/

theorem HitFrom.mono {ext : Externals} {t : NativeTriTree} {ray : PrecomputedRay}
    {options : IntersectRayOptions} {refs1 refs2 : List Nat} {m1 m2 : EFloat} {h : Hit}
    (hh : HitFrom ext t ray options refs1 m1 h) (hsub : ∀ i ∈ refs1, i ∈ refs2)
    (hle : m1.le m2) : HitFrom ext t ray options refs2 m2 h := by
  obtain ⟨i, hi, hidx, hall⟩ := hh
  refine ⟨i, hsub i hi, hidx, ?_⟩
  intro hd
  have h1 := hall hd
  have h2 := (rayTriangleIntersection_true ext ray ray.minDistance m1 (t.tri i)
    t.m_vertexArray hd options (by rw [h1])).2 m2 hd hle
  rw [h2, h1]

theorem HitFrom.distance_le {ext : Externals} {t : NativeTriTree} {ray : PrecomputedRay}
    {options : IntersectRayOptions} {refs : List Nat} {m : EFloat} {h : Hit}
    (hh : HitFrom ext t ray options refs m h) : h.distance.le m := by
  obtain ⟨i, _, _, hall⟩ := hh
  have h1 := hall h
  obtain ⟨d, hd1, _, hd3⟩ := (rayTriangleIntersection_true ext ray ray.minDistance m (t.tri i)
    t.m_vertexArray h options (by rw [h1])).1
  rw [h1] at hd1
  simp only [] at hd1
  rw [hd1]
  exact EFloat.le_of_ltOf hd3

/-- The loop over the value array keeps the state invariant, and when it
leaves the function early the flag `hit` is set. -/
theorem rayValueLoop_inv (ext : Externals) (t : NativeTriTree) (ray : PrecomputedRay)
    (options : IntersectRayOptions) (refs : List Nat) (maxD0 : EFloat) (hd0 : Hit)
    (data : List Nat) (st : RayState) (hdata : ∀ i ∈ data, i ∈ refs)
    (hinv : st.Inv ext t ray options refs maxD0 hd0) :
    (rayValueLoop ext t ray options data st).2.Inv ext t ray options refs maxD0 hd0 ∧
    ((rayValueLoop ext t ray options data st).1 = true →
      (rayValueLoop ext t ray options data st).2.hit = true) := by
  induction data generalizing st with
  | nil => exact ⟨hinv, by simp [rayValueLoop]⟩
  | cons i rest ih =>
    have hrest : ∀ j ∈ rest, j ∈ refs := fun j hj => hdata j (List.mem_cons_of_mem _ hj)
    unfold rayValueLoop
    simp only []
    by_cases hr : (rayTriangleIntersection ext ray ray.minDistance st.maxDistance (t.tri i)
        t.m_vertexArray st.hitData options).1 = true
    · rw [if_pos hr]
      obtain ⟨⟨d, hd1, _, hd3⟩, hall⟩ := rayTriangleIntersection_true ext ray ray.minDistance
        st.maxDistance (t.tri i) t.m_vertexArray st.hitData options hr
      have hfrom : HitFrom ext t ray options refs maxD0
          { (rayTriangleIntersection ext ray ray.minDistance st.maxDistance (t.tri i)
              t.m_vertexArray st.hitData options).2 with triIndex := (i : Int) } := by
        refine ⟨i, hdata i (List.mem_cons_self _ _), rfl, ?_⟩
        intro hd
        rw [hall maxD0 hd hinv.1]
      have hle : (EFloat.fin d).le maxD0 := EFloat.le_chain (EFloat.le_of_ltOf hd3) hinv.1
      split_ifs
      · exact ⟨⟨hinv.1, fun _ => hfrom, fun h => by simp at h⟩, fun _ => rfl⟩
      · apply ih _ hrest
        refine ⟨?_, fun _ => hfrom, fun h => by simp at h⟩
        simp only []
        rw [hd1]
        exact hle
    · rw [if_neg hr]
      have hr2 := rayTriangleIntersection_false ext ray ray.minDistance st.maxDistance
        (t.tri i) t.m_vertexArray st.hitData options (by simpa using hr)
      rw [hr2]
      exact ih st hrest hinv

theorem rayValues_inv (ext : Externals) (t : NativeTriTree) (ray : PrecomputedRay)
    (options : IntersectRayOptions) (refs : List Nat) (maxD0 : EFloat) (hd0 : Hit)
    (v : Option ValueArray) (st : RayState) (hdata : ∀ i ∈ valuesOf v, i ∈ refs)
    (hinv : st.Inv ext t ray options refs maxD0 hd0) :
    (rayValues ext t ray options v st).2.Inv ext t ray options refs maxD0 hd0 ∧
    ((rayValues ext t ray options v st).1 = true →
      (rayValues ext t ray options v st).2.hit = true) := by
  unfold rayValues
  cases v with
  | none => exact ⟨hinv, by simp⟩
  | some va =>
    simp only []
    split_ifs
    · exact rayValueLoop_inv ext t ray options refs maxD0 hd0 va.data st hdata hinv
    · exact ⟨hinv, by simp⟩

end G3D

namespace G3D

theorem rayAfterNear_inv (ext : Externals) (t : NativeTriTree) (ray : PrecomputedRay)
    (options : IntersectRayOptions) (l : EFloat) (v : Option ValueArray) (a : Axis)
    (second : ChildIndex) (far0 far1 : EFloat → Hit → Bool × Hit) (maxD : EFloat)
    (near : Bool × Hit) (hd : Hit) (refs : List Nat) (hv : ∀ i ∈ valuesOf v, i ∈ refs)
    (hnear : (near.1 = false → near.2 = hd) ∧
      (near.1 = true → HitFrom ext t ray options refs maxD near.2))
    (hfar : ∀ (m : EFloat) (h : Hit) (far : Bool × Hit), far = far0 m h ∨ far = far1 m h →
      (far.1 = false → far.2 = h) ∧ (far.1 = true → HitFrom ext t ray options refs m far.2)) :
    ((rayAfterNear ext t ray options l v a second far0 far1 maxD near).1 = false →
      (rayAfterNear ext t ray options l v a second far0 far1 maxD near).2 = hd) ∧
    ((rayAfterNear ext t ray options l v a second far0 far1 maxD near).1 = true →
      HitFrom ext t ray options refs maxD
        (rayAfterNear ext t ray options l v a second far0 far1 maxD near).2) := by
  unfold rayAfterNear
  simp only []
  by_cases hocc : (options.OCCLUSION_TEST_ONLY && near.1) = true
  · rw [if_pos hocc]
    simp only [Bool.and_eq_true] at hocc
    exact ⟨fun h => by simp at h, fun _ => hnear.2 hocc.2⟩
  · rw [if_neg hocc]
    have hinit : (RayState.mk near.1 (if near.1 = true then near.2.distance else maxD)
        near.2).Inv ext t ray options refs maxD hd := by
      refine ⟨?_, hnear.2, hnear.1⟩
      simp only []
      split_ifs with hn
      · exact (hnear.2 hn).distance_le
      · exact EFloat.le_self _
    obtain ⟨hinv, hflag⟩ := rayValues_inv ext t ray options refs maxD hd v _ hv hinit
    generalize rayValues ext t ray options v
      (RayState.mk near.1 (if near.1 = true then near.2.distance else maxD) near.2) = r at *
    by_cases hr : r.1 = true
    · rw [if_pos hr]
      exact ⟨fun h => by simp at h, fun _ => hinv.2.1 (hflag hr)⟩
    · rw [if_neg hr]
      cases second with
      | none => exact ⟨hinv.2.2, hinv.2.1⟩
      | some j =>
        simp only []
        split_ifs
        · exact ⟨hinv.2.2, hinv.2.1⟩
        · have hj : ∃ far : Bool × Hit, (far = far0 r.2.maxDistance r.2.hitData ∨
              far = far1 r.2.maxDistance r.2.hitData) ∧
              (match j with
                | 0 => far0 r.2.maxDistance r.2.hitData
                | 1 => far1 r.2.maxDistance r.2.hitData) = far := by
            fin_cases j
            · exact ⟨_, Or.inl rfl, rfl⟩
            · exact ⟨_, Or.inr rfl, rfl⟩
          obtain ⟨far, hfar1, hfar2⟩ := hj
          rw [hfar2]
          obtain ⟨f1, f2⟩ := hfar r.2.maxDistance r.2.hitData far hfar1
          constructor
          · intro h
            simp only [Bool.or_eq_false_iff] at h
            rw [f1 h.1]
            exact hinv.2.2 h.2
          · intro h
            by_cases hf : far.1 = true
            · exact (f2 hf).mono (fun i hi => hi) hinv.1
            · have hf1 : far.1 = false := by simpa using hf
              rw [hf1] at h
              simp only [Bool.false_or] at h
              rw [f1 hf1]
              exact hinv.2.1 h

/-- Function `Node::intersectRay` leaves the hit record alone when it returns false, and
when it returns true the record is the hit of the ray on a triangle
referenced in the subtree, found by `rayTriangleIntersection` within the
bound the call was given. -/
theorem Node.intersectRay_inv (ext : Externals) (t : NativeTriTree) (ray : PrecomputedRay)
    (options : IntersectRayOptions) (n : Node) (maxD : EFloat) (hd : Hit) :
    ((n.intersectRay ext t ray options maxD hd).1 = false →
      (n.intersectRay ext t ray options maxD hd).2 = hd) ∧
    ((n.intersectRay ext t ray options maxD hd).1 = true →
      HitFrom ext t ray options n.refs maxD (n.intersectRay ext t ray options maxD hd).2) := by
  induction n generalizing maxD hd with
  | leaf b l v =>
    have hinit : (RayState.mk false maxD hd).Inv ext t ray options (valuesOf v) maxD hd :=
      ⟨EFloat.le_self _, fun h => by simp at h, fun _ => rfl⟩
    obtain ⟨hinv, hflag⟩ := rayValues_inv ext t ray options (valuesOf v) maxD hd v _
      (fun i hi => hi) hinit
    unfold Node.intersectRay Node.refs
    simp only []
    split_ifs with hr
    · exact ⟨fun h => by simp at h, fun _ => hinv.2.1 (hflag hr)⟩
    · exact ⟨hinv.2.2, hinv.2.1⟩
  | inner b l v a c0 c1 ih0 ih1 =>
    unfold Node.intersectRay
    simp only []
    by_cases hb : (!intersect ext ray b maxD) = true
    · rw [if_pos hb]
      exact ⟨fun _ => rfl, fun h => by simp at h⟩
    · rw [if_neg hb]
      have h0 : ∀ i ∈ c0.refs, i ∈ (Node.inner b l v a c0 c1).refs := by
        intro i hi; simp [Node.refs, hi]
      have h1 : ∀ i ∈ c1.refs, i ∈ (Node.inner b l v a c0 c1).refs := by
        intro i hi; simp [Node.refs, hi]
      have hv : ∀ i ∈ valuesOf v, i ∈ (Node.inner b l v a c0 c1).refs := by
        intro i hi; simp [Node.refs, hi]
      apply rayAfterNear_inv ext t ray options l v a _ _ _ maxD _ hd _ hv
      · rcases (ext.computeTraversalOrder ray b a l).1 with _ | j
        · exact ⟨fun _ => rfl, fun h => by simp at h⟩
        · fin_cases j
          · exact ⟨(ih0 maxD hd).1, fun h => ((ih0 maxD hd).2 h).mono h0 (EFloat.le_self _)⟩
          · exact ⟨(ih1 maxD hd).1, fun h => ((ih1 maxD hd).2 h).mono h1 (EFloat.le_self _)⟩
      · intro m h far hfar
        rcases hfar with rfl | rfl
        · exact ⟨(ih0 m h).1, fun hh => ((ih0 m h).2 hh).mono h0 (EFloat.le_self _)⟩
        · exact ⟨(ih1 m h).1, fun hh => ((ih1 m h).2 hh).mono h1 (EFloat.le_self _)⟩

end G3D

namespace G3D

/-! ## Ray traversal: the occlusion-only shortcut -/

theorem rayValueLoop_hit_mono (ext : Externals) (t : NativeTriTree) (ray : PrecomputedRay)
    (options : IntersectRayOptions) (data : List Nat) (st : RayState) (h : st.hit = true) :
    (rayValueLoop ext t ray options data st).2.hit = true := by
  induction data generalizing st with
  | nil => exact h
  | cons i rest ih =>
    unfold rayValueLoop
    simp only []
    split_ifs
    · rfl
    · exact ih _ rfl
    · exact ih _ h

theorem rayValueLoop_no_return (ext : Externals) (t : NativeTriTree) (ray : PrecomputedRay)
    (o : IntersectRayOptions) (data : List Nat) (st : RayState) :
    (rayValueLoop ext t ray { o with OCCLUSION_TEST_ONLY := false } data st).1 = false := by
  induction data generalizing st with
  | nil => rfl
  | cons i rest ih =>
    unfold rayValueLoop
    simp only [Bool.false_eq_true, if_false]
    split_ifs
    · exact ih _
    · exact ih _

theorem rayValueLoop_occlusion (ext : Externals) (t : NativeTriTree) (ray : PrecomputedRay)
    (o : IntersectRayOptions) (data : List Nat) (st : RayState) (h : st.hit = false) :
    ((rayValueLoop ext t ray { o with OCCLUSION_TEST_ONLY := false } data st).2.hit = false →
      rayValueLoop ext t ray { o with OCCLUSION_TEST_ONLY := true } data st =
        (false, (rayValueLoop ext t ray { o with OCCLUSION_TEST_ONLY := false } data st).2)) ∧
    ((rayValueLoop ext t ray { o with OCCLUSION_TEST_ONLY := false } data st).2.hit = true →
      (rayValueLoop ext t ray { o with OCCLUSION_TEST_ONLY := true } data st).1 = true) := by
  induction data generalizing st with
  | nil => exact ⟨fun _ => rfl, fun h1 => by rw [rayValueLoop, h] at h1; simp at h1⟩
  | cons i rest ih =>
    unfold rayValueLoop
    simp only [rayTriangleIntersection_occlusion, Bool.false_eq_true, if_false, if_true]
    by_cases hr : (rayTriangleIntersection ext ray ray.minDistance st.maxDistance (t.tri i)
        t.m_vertexArray st.hitData o).1 = true
    · simp only [if_pos hr]
      refine ⟨?_, fun _ => trivial⟩
      intro h1
      rw [rayValueLoop_hit_mono ext t ray _ rest _ rfl] at h1
      simp at h1
    · simp only [if_neg hr]
      exact ih _ h

theorem rayValues_hit_mono (ext : Externals) (t : NativeTriTree) (ray : PrecomputedRay)
    (options : IntersectRayOptions) (v : Option ValueArray) (st : RayState)
    (h : st.hit = true) : (rayValues ext t ray options v st).2.hit = true := by
  unfold rayValues
  cases v with
  | none => exact h
  | some va =>
    simp only []
    split_ifs
    · exact rayValueLoop_hit_mono ext t ray options va.data st h
    · exact h

theorem rayValues_no_return (ext : Externals) (t : NativeTriTree) (ray : PrecomputedRay)
    (o : IntersectRayOptions) (v : Option ValueArray) (st : RayState) :
    (rayValues ext t ray { o with OCCLUSION_TEST_ONLY := false } v st).1 = false := by
  unfold rayValues
  cases v with
  | none => rfl
  | some va =>
    simp only []
    split_ifs
    · exact rayValueLoop_no_return ext t ray o va.data st
    · rfl

theorem rayValues_occlusion (ext : Externals) (t : NativeTriTree) (ray : PrecomputedRay)
    (o : IntersectRayOptions) (v : Option ValueArray) (st : RayState) (h : st.hit = false) :
    ((rayValues ext t ray { o with OCCLUSION_TEST_ONLY := false } v st).2.hit = false →
      rayValues ext t ray { o with OCCLUSION_TEST_ONLY := true } v st =
        (false, (rayValues ext t ray { o with OCCLUSION_TEST_ONLY := false } v st).2)) ∧
    ((rayValues ext t ray { o with OCCLUSION_TEST_ONLY := false } v st).2.hit = true →
      (rayValues ext t ray { o with OCCLUSION_TEST_ONLY := true } v st).1 = true) := by
  unfold rayValues
  cases v with
  | none => exact ⟨fun _ => rfl, fun h1 => by rw [h] at h1; simp at h1⟩
  | some va =>
    simp only []
    split_ifs
    · exact rayValueLoop_occlusion ext t ray o va.data st h
    · exact ⟨fun _ => rfl, fun h1 => by rw [h] at h1; simp at h1⟩

end G3D

namespace G3D

theorem rayAfterNear_hit (ext : Externals) (t : NativeTriTree) (ray : PrecomputedRay)
    (o : IntersectRayOptions) (l : EFloat) (v : Option ValueArray) (a : Axis)
    (second : ChildIndex) (far0 far1 : EFloat → Hit → Bool × Hit) (maxD : EFloat)
    (near : Bool × Hit) (h : near.1 = true) :
    (rayAfterNear ext t ray { o with OCCLUSION_TEST_ONLY := false } l v a second far0 far1
      maxD near).1 = true := by
  unfold rayAfterNear
  simp only [Bool.false_and, Bool.false_eq_true, if_false]
  have hno := rayValues_no_return ext t ray o v
    (RayState.mk near.1 (if near.1 = true then near.2.distance else maxD) near.2)
  have hmono := rayValues_hit_mono ext t ray { o with OCCLUSION_TEST_ONLY := false } v
    (RayState.mk near.1 (if near.1 = true then near.2.distance else maxD) near.2) h
  generalize rayValues ext t ray { o with OCCLUSION_TEST_ONLY := false } v
    (RayState.mk near.1 (if near.1 = true then near.2.distance else maxD) near.2) = r at *
  rw [hno]
  simp only [Bool.false_eq_true, if_false]
  cases second with
  | none => exact hmono
  | some j =>
    simp only []
    split_ifs
    · exact hmono
    · simp [hmono]

theorem rayAfterNear_occlusion (ext : Externals) (t : NativeTriTree) (ray : PrecomputedRay)
    (o : IntersectRayOptions) (l : EFloat) (v : Option ValueArray) (a : Axis)
    (second : ChildIndex) (farT0 farT1 farF0 farF1 : EFloat → Hit → Bool × Hit)
    (maxD : EFloat) (nearT nearF : Bool × Hit) (hnear : OcclusionAgrees nearT nearF)
    (h0 : ∀ m h, OcclusionAgrees (farT0 m h) (farF0 m h))
    (h1 : ∀ m h, OcclusionAgrees (farT1 m h) (farF1 m h)) :
    OcclusionAgrees
      (rayAfterNear ext t ray { o with OCCLUSION_TEST_ONLY := true } l v a second farT0 farT1
        maxD nearT)
      (rayAfterNear ext t ray { o with OCCLUSION_TEST_ONLY := false } l v a second farF0 farF1
        maxD nearF) := by
  by_cases hn : nearF.1 = true
  · have hT : (rayAfterNear ext t ray { o with OCCLUSION_TEST_ONLY := true } l v a second
        farT0 farT1 maxD nearT).1 = true := by
      unfold rayAfterNear
      simp [hnear.2 hn]
    have hF := rayAfterNear_hit ext t ray o l v a second farF0 farF1 maxD nearF hn
    exact ⟨fun h => by rw [hF] at h; simp at h, fun _ => hT⟩
  · have hn1 : nearF.1 = false := by simpa using hn
    have he : nearT = nearF := hnear.1 hn1
    subst he
    unfold rayAfterNear
    simp only [hn1, Bool.and_false, Bool.false_and, Bool.false_eq_true, if_false]
    have hno := rayValues_no_return ext t ray o v (RayState.mk false maxD nearT.2)
    obtain ⟨hv1, hv2⟩ := rayValues_occlusion ext t ray o v (RayState.mk false maxD nearT.2) rfl
    generalize rayValues ext t ray { o with OCCLUSION_TEST_ONLY := false } v
      (RayState.mk false maxD nearT.2) = rF at *
    generalize rayValues ext t ray { o with OCCLUSION_TEST_ONLY := true } v
      (RayState.mk false maxD nearT.2) = rT at *
    rw [hno]
    simp only [Bool.false_eq_true, if_false]
    by_cases hh : rF.2.hit = true
    · rw [if_pos (hv2 hh)]
      refine ⟨?_, fun _ => rfl⟩
      intro hF
      exfalso
      cases second with
      | none => simp only [] at hF; rw [hh] at hF; simp at hF
      | some j =>
        simp only [] at hF
        split_ifs at hF
        · rw [hh] at hF; simp at hF
        · simp [hh] at hF
    · have hh1 : rF.2.hit = false := by simpa using hh
      rw [hv1 hh1]
      simp only [Bool.false_eq_true, if_false]
      cases second with
      | none => exact ⟨fun _ => rfl, fun h => by simp only [] at h; rw [hh1] at h; simp at h⟩
      | some j =>
        simp only []
        split_ifs
        · exact ⟨fun _ => rfl, fun h => by simp only [] at h; rw [hh1] at h; simp at h⟩
        · simp only [hh1, Bool.or_false]
          fin_cases j
          · obtain ⟨a1, a2⟩ := h0 rF.2.maxDistance rF.2.hitData
            exact ⟨fun h => by simp only [] at h ⊢; rw [a1 h], fun h => a2 h⟩
          · obtain ⟨a1, a2⟩ := h1 rF.2.maxDistance rF.2.hitData
            exact ⟨fun h => by simp only [] at h ⊢; rw [a1 h], fun h => a2 h⟩

/-- On every subtree the occlusion-only query and the query without the flag
agree on whether there is a hit. -/
theorem Node.intersectRay_occlusion (ext : Externals) (t : NativeTriTree)
    (ray : PrecomputedRay) (o : IntersectRayOptions) (n : Node) (maxD : EFloat) (hd : Hit) :
    OcclusionAgrees
      (n.intersectRay ext t ray { o with OCCLUSION_TEST_ONLY := true } maxD hd)
      (n.intersectRay ext t ray { o with OCCLUSION_TEST_ONLY := false } maxD hd) := by
  induction n generalizing maxD hd with
  | leaf b l v =>
    unfold Node.intersectRay
    simp only []
    have hno := rayValues_no_return ext t ray o v (RayState.mk false maxD hd)
    obtain ⟨hv1, hv2⟩ := rayValues_occlusion ext t ray o v (RayState.mk false maxD hd) rfl
    generalize rayValues ext t ray { o with OCCLUSION_TEST_ONLY := false } v
      (RayState.mk false maxD hd) = rF at *
    generalize rayValues ext t ray { o with OCCLUSION_TEST_ONLY := true } v
      (RayState.mk false maxD hd) = rT at *
    rw [hno]
    simp only [Bool.false_eq_true, if_false]
    by_cases hh : rF.2.hit = true
    · rw [if_pos (hv2 hh)]
      exact ⟨fun h => by simp only [] at h; rw [hh] at h; simp at h, fun _ => rfl⟩
    · have hh1 : rF.2.hit = false := by simpa using hh
      rw [hv1 hh1]
      simp only [Bool.false_eq_true, if_false]
      exact ⟨fun _ => rfl, fun h => by simp only [] at h; rw [hh1] at h; simp at h⟩
  | inner b l v a c0 c1 ih0 ih1 =>
    unfold Node.intersectRay
    simp only []
    by_cases hb : (!intersect ext ray b maxD) = true
    · rw [if_pos hb, if_pos hb]
      exact ⟨fun _ => rfl, fun h => by simp at h⟩
    · rw [if_neg hb, if_neg hb]
      apply rayAfterNear_occlusion
      · rcases (ext.computeTraversalOrder ray b a l).1 with _ | j
        · exact ⟨fun _ => rfl, fun h => by simp at h⟩
        · fin_cases j
          · exact ih0 maxD hd
          · exact ih1 maxD hd
      · exact fun m h => ih0 m h
      · exact fun m h => ih1 m h

end G3D

namespace G3D

/-! ## Claims about the build -/

/-- C3, as stated, fails: with the mean-extent split, a leaf threshold of four
and `maxAreaFraction = 1/100`, `rebuild` on `straddleTree` splits the root at
`x = 5/2`. Triangle 4 (area 9/40 > 1e-6) straddles that plane and its area
exceeds `maxArea = 10 * 1/100`, so it is put whole into the span array, which
becomes the value array of the root, an internal node; it is handed to neither
child, and the leaves reference the triangles 0, 1, 2 and 3 only. -/
theorem rebuild_straddler_not_in_leaf :
    rootSummary (settingsArea (1 / 100)) straddleTree =
      some (some (false, [4], [0, 1, 2, 3])) ∧
    4 < straddleTree.m_triArray.length ∧
    (straddleTree.tri 4).area > NativeTriTree.epsilon ∧
    (Poly.computeBounds straddleSource).area * (settingsArea (1 / 100)).maxAreaFraction =
      1 / 10 ∧
    (straddleTree.tri 4).area > 1 / 10 ∧
    (straddleTree.triBounds 4).low.x < 5 / 2 ∧ 5 / 2 < (straddleTree.triBounds 4).high.x :=
  ⟨by decide!, by decide!, by decide!, by decide!, by decide!, by decide!, by decide!⟩

/-- C3, amended: for every triangle array and all build settings, `rebuild`
succeeds and every input triangle whose area exceeds 1e-6 is referenced by the
value array of at least one node of the built tree (a leaf or an internal
node). -/
theorem rebuild_references_every_triangle (settings : Settings) (t : NativeTriTree) :
    ∃ t1, t.rebuild settings = some t1 ∧
      ∀ i, i < t.m_triArray.length → (t.tri i).area > NativeTriTree.epsilon →
        ∃ root, t1.m_root = some root ∧ i ∈ root.refs := by
  obtain ⟨t1, h1, _, _, h4, h5⟩ := rebuild_root settings t
  refine ⟨t1, h1, ?_⟩
  intro i hi ha
  obtain ⟨root, hr⟩ := h4 i hi ha
  exact ⟨root, hr, ((h5 root hr).1 i).2 ⟨hi, ha⟩⟩

/-- C5: for every triangle array and all build settings, `rebuild` succeeds
and, when it yields a root, the root's bounds contain the bounding box of
every triangle referenced anywhere in the tree. -/
theorem rebuild_root_bounds (settings : Settings) (t : NativeTriTree) :
    ∃ t1, t.rebuild settings = some t1 ∧
      ∀ root, t1.m_root = some root →
        ∀ i ∈ root.refs, root.bounds.contains (t1.triBounds i) := by
  obtain ⟨t1, h1, h2, h3, _, h5⟩ := rebuild_root settings t
  refine ⟨t1, h1, ?_⟩
  intro root hr i hi
  rw [triBounds_congr t t1 h2 h3]
  exact (h5 root hr).2.1 i hi

/-- C6: for every triangle array and all build settings, `rebuild` does not
fail, and a triangle is referenced by the value array of some node of the
built tree only if it is a triangle of the array whose area is greater than
1e-6; in particular a zero-area triangle is never referenced. -/
theorem rebuild_filters_degenerate (settings : Settings) (t : NativeTriTree) :
    ∃ t1, t.rebuild settings = some t1 ∧
      ∀ root, t1.m_root = some root → ∀ i ∈ root.refs,
        i < t.m_triArray.length ∧ (t.tri i).area > NativeTriTree.epsilon ∧
          (t.tri i).area ≠ 0 := by
  obtain ⟨t1, h1, _, _, _, h5⟩ := rebuild_root settings t
  refine ⟨t1, h1, ?_⟩
  intro root hr i hi
  obtain ⟨h6, h7⟩ := ((h5 root hr).1 i).1 hi
  refine ⟨h6, h7, ?_⟩
  intro h0
  rw [h0] at h7
  unfold NativeTriTree.epsilon at h7
  norm_num at h7

/-- C7: a freshly constructed tree, a cleared tree, and a tree rebuilt from
an array with no triangle of area above 1e-6 have no root; and on every tree
without a root `intersectRay` returns false for every ray and option set and
leaves the hit record alone, while `intersectSphere` and `intersectBox` return
the output array as it was passed in. -/
theorem empty_tree_queries :
    NativeTriTree.new.m_root = none ∧
    (∀ t : NativeTriTree, t.clear.m_root = none) ∧
    (∀ (settings : Settings) (t : NativeTriTree),
      (∀ x ∈ t.m_triArray, ¬ x.area > NativeTriTree.epsilon) →
        ∃ t1, t.rebuild settings = some t1 ∧ t1.m_root = none) ∧
    (∀ (ext : Externals) (t : NativeTriTree), t.m_root = none →
      (∀ ray hit options, t.intersectRay ext ray hit options = (false, hit)) ∧
      (∀ sphere out, t.intersectSphere ext sphere out = out) ∧
      (∀ box out, t.intersectBox ext box out = out)) := by
  refine ⟨rfl, fun _ => rfl, ?_, ?_⟩
  · intro settings t hall
    obtain ⟨t1, h1, _, _, h4⟩ := rebuild_spec settings t
    refine ⟨t1, h1, ?_⟩
    rcases h4 with ⟨_, h⟩ | ⟨hne, _⟩
    · exact h
    · exfalso
      cases hs : NativeTriTree.sourceFrom t.m_vertexArray 0 t.m_triArray with
      | nil => exact hne hs
      | cons p ps =>
        have hp : p ∈ NativeTriTree.sourceFrom t.m_vertexArray 0 t.m_triArray := by
          rw [hs]; exact List.mem_cons_self _ _
        obtain ⟨j, x, hj, ha, _⟩ := sourceFrom_mem _ _ _ p hp
        exact hall x (List.getElem?_mem hj) ha
  · intro ext t hroot
    refine ⟨?_, ?_, ?_⟩
    · intro ray hit options
      unfold NativeTriTree.intersectRay
      rw [hroot]
    · intro sphere out
      unfold NativeTriTree.intersectSphere
      rw [hroot]
    · intro box out
      unfold NativeTriTree.intersectBox
      rw [hroot]

/-- C8: for every triangle and vertex data, all build settings (so every split
algorithm) and every previous root, `rebuild` succeeds, and calling it again on
its own result succeeds with an identical tree, hence with identical `stats`
output. -/
theorem rebuild_idempotent (settings : Settings) (t : NativeTriTree) (sentinel k : Int) :
    ∃ t1 t2, t.rebuild settings = some t1 ∧ t1.rebuild settings = some t2 ∧
      t2.m_root = t1.m_root ∧ t2 = t1 ∧
      NativeTriTree.stats sentinel k t2 = NativeTriTree.stats sentinel k t1 := by
  obtain ⟨t1, h1, h2, h3, _⟩ := rebuild_spec settings t
  have key : t1.rebuild settings = some t1 := by
    unfold NativeTriTree.rebuild at h1 ⊢
    simp only [] at h1 ⊢
    rw [h2, h3]
    split_ifs at h1 ⊢ with hlen
    · cases hb : Node.build settings
          (NativeTriTree.sourceFrom t.m_vertexArray 0 t.m_triArray).length
          (NativeTriTree.sourceFrom t.m_vertexArray 0 t.m_triArray) with
      | none => rw [hb] at h1; cases h1
      | some root =>
        rw [hb] at h1
        simp only [Option.some.injEq] at h1 ⊢
        rw [← h1]
    · simp only [Option.some.injEq] at h1 ⊢
      rw [← h1]
  exact ⟨t1, t1, h1, key, rfl, rfl, rfl⟩

end G3D

namespace G3D

/-! ## Claims about the range queries -/

theorem sliverTree_source :
    NativeTriTree.sourceFrom sliverTree.m_vertexArray 0 sliverTree.m_triArray = [] := by
  decide!

theorem sliverTree_rebuild (settings : Settings) :
    sliverTree.rebuild settings = some sliverTree := by
  unfold NativeTriTree.rebuild
  simp only [sliverTree_source]
  rfl

/-- C10: for every tree and every query volume, `intersectSphere` and
`intersectBox`, called with an empty output array, return the triangles of a
list of references into the triangle array in which no reference occurs
twice: each triangle of the array is appended at most once, however many
nodes reference it. -/
theorem range_query_no_duplicates (ext : Externals) (t : NativeTriTree) (sphere : Sphere)
    (box : AABox) :
    (∃ idxs : List Nat, idxs.Nodup ∧ t.intersectSphere ext sphere [] = idxs.map t.tri) ∧
    (∃ idxs : List Nat, idxs.Nodup ∧ t.intersectBox ext box [] = idxs.map t.tri) := by
  constructor
  · obtain ⟨idxs, h1, h2, _⟩ := intersectVolume_root t
      (fun b => ext.boxIntersectsSphere b sphere)
      (ext.fixedSolidSphereIntersectsFixedTriangle sphere)
    refine ⟨idxs, h1, ?_⟩
    rw [← h2]
    unfold NativeTriTree.intersectSphere Node.intersectSphere
    cases t.m_root <;> rfl
  · obtain ⟨idxs, h1, h2, _⟩ := intersectVolume_root t
      (fun b => ext.boxIntersectsBox b box)
      (ext.fixedSolidBoxIntersectsFixedTriangle box)
    refine ⟨idxs, h1, ?_⟩
    rw [← h2]
    unfold NativeTriTree.intersectBox Node.intersectBox
    cases t.m_root <;> rfl

end G3D

namespace G3D

/-! ## Claims about the ray query -/

theorem rayTriangleIntersection_noCoverage (ext1 ext2 : Externals) (ray : PrecomputedRay)
    (mn : ℚ) (mx : EFloat) (tri : Tri) (va : CPUVertexArray) (hd : Hit)
    (o : IntersectRayOptions) (h : o.NO_PARTIAL_COVERAGE_TEST = true) :
    rayTriangleIntersection ext1 ray mn mx tri va hd o =
      rayTriangleIntersection ext2 ray mn mx tri va hd o := by
  unfold rayTriangleIntersection
  simp [h]

theorem bruteForce_noCoverage (ext1 ext2 : Externals) (t : NativeTriTree)
    (ray : PrecomputedRay) (hit : Hit) (o : IntersectRayOptions)
    (h : o.NO_PARTIAL_COVERAGE_TEST = true) :
    bruteForce ext1 t ray hit o = bruteForce ext2 t ray hit o := by
  unfold bruteForce
  simp only [rayTriangleIntersection_noCoverage ext1 ext2 _ _ _ _ _ _ _ h]

theorem bruteForce_sliver :
    bruteForce sampleExternals sliverTree sliverRay noHit noCoverageTest = true := by
  decide!

/-- C1, as stated, fails: the only triangle of `sliverTree` has area 5e-7, so
`rebuild` (with any settings) filters it out and leaves no root; the ray
`sliverRay` passes through the triangle, and exhaustive testing with
`rayTriangleIntersection` (partial-coverage test disabled, whatever the
collaborators compute) reports a hit, while `intersectRay` reports none. -/
theorem intersectRay_misses_sliver :
    (sliverTree.tri 0).area > 0 ∧
    ∀ (ext : Externals) (settings : Settings),
      ∃ t1, sliverTree.rebuild settings = some t1 ∧
        bruteForce ext t1 sliverRay noHit noCoverageTest = true ∧
        (t1.intersectRay ext sliverRay noHit noCoverageTest).1 = false := by
  refine ⟨by decide!, ?_⟩
  intro ext settings
  refine ⟨sliverTree, sliverTree_rebuild settings, ?_, rfl⟩
  rw [bruteForce_noCoverage ext sampleExternals _ _ _ _ rfl]
  exact bruteForce_sliver

/-- A second way in which the exhaustive test and `intersectRay` differ, this
one under `sampleExternals` (the exact slab test as `rayAABox`): the triangle
of `edgeTree` has area 1/2 and is referenced by the root leaf; the ray passes
its plane 1e-9 outside the edge `x = 0`, within the tolerance
`conservative / a = 1e-8` of `rayTriangleIntersection`, so the exhaustive test
reports a hit with `u = -1e-9`, but the ray misses the bounds of the value
array and `intersectRay` never runs the triangle test. -/
theorem intersectRay_misses_edge_hit :
    edgeTree.rebuild meanExtentSettings = some edgeBuilt ∧
    edgeBuilt.m_root.map (fun r => (r.isLeaf, r.refs)) = some (true, [0]) ∧
    rayTriangleIntersection sampleExternals edgeRay edgeRay.minDistance edgeRay.maxDistance
        (edgeBuilt.tri 0) edgeBuilt.m_vertexArray noHit noOptions =
      (true, ⟨-1, -1 / 1000000000, 1 / 4, .fin 1, false⟩) ∧
    bruteForce sampleExternals edgeBuilt edgeRay noHit noOptions = true ∧
    edgeBuilt.intersectRay sampleExternals edgeRay noHit noOptions = (false, noHit) :=
  ⟨by decide!, by decide!, by decide!, by decide!, by decide!⟩

/-- C1, amended: for every tree built by `rebuild`, every ray and every
option set, if `intersectRay` reports a hit then exhaustive testing of the ray
against all triangles of the triangle array with `rayTriangleIntersection`
(same options, the ray's own minimum and maximum distance) reports a hit, and
(in occlusion-only mode as well as without it) the reported triangle index is
a valid index into the triangle array whose test accepts the ray with exactly
the reported distance, `u`, `v` and backface flag. -/
theorem intersectRay_sound (ext : Externals) (settings : Settings) (t0 t : NativeTriTree)
    (ray : PrecomputedRay) (hit : Hit) (options : IntersectRayOptions)
    (hb : t0.rebuild settings = some t)
    (h : (t.intersectRay ext ray hit options).1 = true) :
    bruteForce ext t ray hit options = true ∧
    ∃ i : Nat, i < t.m_triArray.length ∧
      (t.intersectRay ext ray hit options).2.triIndex = (i : Int) ∧
      rayTriangleIntersection ext ray ray.minDistance ray.maxDistance (t.tri i)
          t.m_vertexArray hit options =
        (true, { (t.intersectRay ext ray hit options).2 with triIndex := hit.triIndex }) := by
  obtain ⟨t1, h1, h2, _, _, h5⟩ := rebuild_root settings t0
  have e : t1 = t := Option.some.inj (h1.symm.trans hb)
  subst e
  unfold NativeTriTree.intersectRay at h ⊢
  cases hr : t1.m_root with
  | none => rw [hr] at h; simp at h
  | some root =>
    rw [hr] at h
    simp only [] at h ⊢
    obtain ⟨i, hi, hidx, hall⟩ := (Node.intersectRay_inv ext t1 ray options root
      ray.maxDistance hit).2 h
    have hlt : i < t1.m_triArray.length := by
      rw [h2]; exact (((h5 root hr).1 i).1 hi).1
    refine ⟨?_, i, hlt, hidx, hall hit⟩
    unfold bruteForce
    rw [List.any_eq_true]
    exact ⟨i, List.mem_range.2 hlt, by rw [hall hit]⟩

theorem straddleBuilt_eq : straddleTree.rebuild meanExtentSettings = some straddleBuilt := by
  decide!

/-- Witness for C1 (amended): the tree built from `straddleTree` and the ray
`downRay`, which hits triangle 0 at distance 1. -/
theorem intersectRay_sound_witness :
    straddleTree.rebuild meanExtentSettings = some straddleBuilt ∧
    straddleBuilt.intersectRay sampleExternals downRay noHit noOptions =
      (true, ⟨0, 1 / 4, 1 / 4, .fin 1, false⟩) ∧
    (bruteForce sampleExternals straddleBuilt downRay noHit noOptions = true ∧
    ∃ i : Nat, i < straddleBuilt.m_triArray.length ∧
      (straddleBuilt.intersectRay sampleExternals downRay noHit noOptions).2.triIndex
        = (i : Int) ∧
      rayTriangleIntersection sampleExternals downRay downRay.minDistance downRay.maxDistance
          (straddleBuilt.tri i) straddleBuilt.m_vertexArray noHit noOptions =
        (true, { (straddleBuilt.intersectRay sampleExternals downRay noHit noOptions).2 with
          triIndex := noHit.triIndex })) :=
  ⟨straddleBuilt_eq, by decide!,
    intersectRay_sound sampleExternals meanExtentSettings straddleTree straddleBuilt downRay
      noHit noOptions straddleBuilt_eq (by decide!)⟩

/-- C2: for every tree, ray, initial hit record and option set `o` without
`OCCLUSION_TEST_ONLY`, `intersectRay` with `o | OCCLUSION_TEST_ONLY` returns
true if and only if `intersectRay` with `o` returns true. -/
theorem intersectRay_occlusion_iff (ext : Externals) (t : NativeTriTree)
    (ray : PrecomputedRay) (hit : Hit) (o : IntersectRayOptions)
    (ho : o.OCCLUSION_TEST_ONLY = false) :
    (t.intersectRay ext ray hit { o with OCCLUSION_TEST_ONLY := true }).1 = true ↔
      (t.intersectRay ext ray hit o).1 = true := by
  have eo : o = { o with OCCLUSION_TEST_ONLY := false } := by
    cases o
    simp only [] at ho
    subst ho
    rfl
  unfold NativeTriTree.intersectRay
  cases t.m_root with
  | none => simp
  | some root =>
    simp only []
    obtain ⟨a1, a2⟩ := Node.intersectRay_occlusion ext t ray o root ray.maxDistance hit
    rw [← eo] at a1 a2
    constructor
    · intro hT
      by_contra hF
      have hF1 : (root.intersectRay ext t ray o ray.maxDistance hit).1 = false := by
        simpa using hF
      rw [a1 hF1] at hT
      exact hF hT
    · exact a2

/-- Witness for C2: on the tree built from `straddleTree` the ray `downRay`
is reported as a hit with and without `OCCLUSION_TEST_ONLY`. -/
theorem intersectRay_occlusion_iff_witness :
    noOptions.OCCLUSION_TEST_ONLY = false ∧
    (straddleBuilt.intersectRay sampleExternals downRay noHit noOptions).1 = true ∧
    ((straddleBuilt.intersectRay sampleExternals downRay noHit
        { noOptions with OCCLUSION_TEST_ONLY := true }).1 = true ↔
      (straddleBuilt.intersectRay sampleExternals downRay noHit noOptions).1 = true) :=
  ⟨rfl, by decide!,
    intersectRay_occlusion_iff sampleExternals straddleBuilt downRay noHit noOptions rfl⟩

end G3D

namespace G3D

/-! ## The claims on a concrete tree -/

theorem straddleBuilt_root :
    straddleBuilt.m_root.map (fun r => (r.isLeaf, r.refs)) =
      some (false, [4, 4, 0, 1, 2, 3]) := by
  decide!

/-- Instance of C3 (amended) on `straddleTree`, built with
`maxAreaFraction = 1/100`: the root is an internal node, it holds triangle 4
itself, and the subtree references all five triangles. -/
theorem rebuild_references_every_triangle_witness :
    (straddleTree.rebuild (settingsArea (1 / 100))).map
        (fun t1 => t1.m_root.map (fun r => (r.isLeaf, r.values, r.refs))) =
      some (some (false, [4], [4, 0, 1, 2, 3])) ∧
    ∃ t1, straddleTree.rebuild (settingsArea (1 / 100)) = some t1 ∧
      ∀ i, i < straddleTree.m_triArray.length →
        (straddleTree.tri i).area > NativeTriTree.epsilon →
        ∃ root, t1.m_root = some root ∧ i ∈ root.refs :=
  ⟨by decide!, rebuild_references_every_triangle (settingsArea (1 / 100)) straddleTree⟩

/-- Instance of C5 on `straddleTree`: the root's bounds are the box from
`(0, 0, 0)` to `(5, 1, 0)`. -/
theorem rebuild_root_bounds_witness :
    straddleBuilt.m_root.map Node.bounds = some ⟨⟨0, 0, 0⟩, ⟨5, 1, 0⟩⟩ ∧
    ∃ t1, straddleTree.rebuild meanExtentSettings = some t1 ∧
      ∀ root, t1.m_root = some root →
        ∀ i ∈ root.refs, root.bounds.contains (t1.triBounds i) :=
  ⟨by decide!, rebuild_root_bounds meanExtentSettings straddleTree⟩

/-- Instance of C6 on `sliverTree`, whose only triangle has area 5e-7:
`rebuild` succeeds and leaves no root. -/
theorem rebuild_filters_degenerate_witness :
    sliverTree.rebuild meanExtentSettings = some sliverTree ∧
    ∃ t1, sliverTree.rebuild meanExtentSettings = some t1 ∧
      ∀ root, t1.m_root = some root → ∀ i ∈ root.refs,
        i < sliverTree.m_triArray.length ∧ (sliverTree.tri i).area > NativeTriTree.epsilon ∧
          (sliverTree.tri i).area ≠ 0 :=
  ⟨sliverTree_rebuild meanExtentSettings, rebuild_filters_degenerate meanExtentSettings sliverTree⟩

/-- Instance of C8 on `straddleTree`, with the statistics of the built tree:
six references in three nodes, two of them leaves, depth one. -/
theorem rebuild_idempotent_witness :
    NativeTriTree.stats 100000 4 straddleBuilt = ⟨6, 3, 2, 1, 3, 2, 1, 100000⟩ ∧
    ∃ t1 t2, straddleTree.rebuild meanExtentSettings = some t1 ∧
      t1.rebuild meanExtentSettings = some t2 ∧ t2.m_root = t1.m_root ∧ t2 = t1 ∧
      NativeTriTree.stats 100000 4 t2 = NativeTriTree.stats 100000 4 t1 :=
  ⟨by decide!, rebuild_idempotent meanExtentSettings straddleTree 100000 4⟩

/-- Instance of C10 on the tree built from `straddleTree`: the root references
triangle 4 twice (once per fragment), and the unit sphere query returns it
once. -/
theorem range_query_no_duplicates_witness :
    straddleBuilt.m_root.map Node.values = some [4, 4] ∧
    straddleBuilt.intersectSphere sampleExternals unitSphere [] =
      [4, 0, 1, 2].map straddleBuilt.tri ∧
    ((∃ idxs : List Nat, idxs.Nodup ∧
      straddleBuilt.intersectSphere sampleExternals unitSphere [] =
        idxs.map straddleBuilt.tri) ∧
    (∃ idxs : List Nat, idxs.Nodup ∧
      straddleBuilt.intersectBox sampleExternals unitBox [] = idxs.map straddleBuilt.tri)) :=
  ⟨by decide!, by decide!,
    range_query_no_duplicates sampleExternals straddleBuilt unitSphere unitBox⟩

end G3D

namespace G3D

/-! ## Leaves made directly by the constructor -/

theorem Vector3.min_self (a : Vector3) : a.min a = a := by
  simp [Vector3.min]

theorem Vector3.max_self (a : Vector3) : a.max a = a := by
  simp [Vector3.max]

theorem setValueArray_foldl (l : List Poly) (lo hi : Vector3) :
    (AABox.mk (l.foldl (fun acc t => (acc.1.min t.low, acc.2.max t.high)) (lo, hi)).1
      (l.foldl (fun acc t => (acc.1.min t.low, acc.2.max t.high)) (lo, hi)).2) =
    l.foldl (fun b q => (⟨b.low.min q.low, b.high.max q.high⟩ : AABox)) ⟨lo, hi⟩ := by
  induction l generalizing lo hi with
  | nil => rfl
  | cons p ps ih => simp only [List.foldl_cons]; exact ih _ _

/-- The value array that `setValueArray` makes of a non-empty candidate
array: the sources in order, and the bounds of the candidates. -/
theorem setValueArray_eq (src : List Poly) (h : src ≠ []) :
    setValueArray src = some ⟨src.map Poly.source, Poly.computeBounds src⟩ := by
  cases src with
  | nil => exact absurd rfl h
  | cons p ps =>
    simp only [setValueArray, Poly.computeBounds, List.foldl_cons, Vector3.min_self,
      Vector3.max_self]
    rw [setValueArray_foldl]

end G3D

namespace G3D

/-! ## The axis loop of `Node::split` -/

theorem chooseSAHSplitLocationFast_snd (bounds : AABox) (source : List Poly) (axis : Axis)
    (r : EFloat × List Poly) (h : chooseSAHSplitLocationFast bounds source axis = some r) :
    r.2 = sortByHigh axis source := by
  unfold chooseSAHSplitLocationFast at h
  simp only [] at h
  cases h1 : splitPositions axis (sortByHigh axis source) with
  | none => rw [h1] at h; simp at h
  | some sp =>
    rw [h1] at h
    simp only [] at h
    cases h2 : highSweep axis (sortByHigh axis source) bounds.area sp with
    | none => rw [h2] at h; simp at h
    | some hc =>
      rw [h2] at h
      simp only [] at h
      generalize sortByHigh axis source = sorted at h ⊢
      cases sorted with
      | nil => simp at h
      | cons p ps =>
        simp only [] at h
        cases h3 : lowSweepLoop axis (p :: ps).length bounds.area (sp.zip hc) ps 1 p.low p.high
            (.inf, .inf) with
        | none => rw [h3] at h; simp at h
        | some st =>
          rw [h3] at h
          simp only [Option.some.injEq] at h
          rw [← h]

/-- Whatever `chooseSplitLocation` returns, the candidate array it leaves
behind is a rearrangement of the one it was given. -/
theorem chooseSplitLocation_perm (bounds : AABox) (source : List Poly) (settings : Settings)
    (axis : Axis) (r : EFloat × List Poly)
    (h : chooseSplitLocation bounds source settings axis = some r) : r.2.Perm source := by
  unfold chooseSplitLocation at h
  cases ha : settings.algorithm with
  | MEAN_EXTENT =>
    rw [ha] at h
    simp only [Option.some.injEq] at h
    rw [← h]
  | MEDIAN_AREA =>
    rw [ha] at h
    simp only [Option.some.injEq] at h
    rw [← h]
    exact sortByHigh_perm axis source
  | MEDIAN_COUNT =>
    rw [ha] at h
    simp only [Option.map_eq_some'] at h
    obtain ⟨p, _, hp⟩ := h
    rw [← hp]
    exact sortByHigh_perm axis source
  | SAH =>
    rw [ha] at h
    simp only [chooseSAHSplitLocation] at h
    split_ifs at h
    · simp only [Option.map_eq_some'] at h
      obtain ⟨q, _, hq⟩ := h
      rw [← hq]
    · rw [chooseSAHSplitLocationFast_snd bounds source axis r h]
      exact sortByHigh_perm axis source

theorem Node.splitTrial_perm (bounds : AABox) (settings : Settings) (original : List Poly)
    (axis : Axis) (t : SplitTrial) (h : Node.splitTrial bounds settings original axis = some t) :
    t.original.Perm original := by
  unfold Node.splitTrial at h
  cases hc : chooseSplitLocation bounds original settings axis with
  | none => rw [hc] at h; simp at h
  | some r =>
    rw [hc] at h
    simp only [Option.some.injEq] at h
    rw [← h]
    exact chooseSplitLocation_perm bounds original settings axis r hc

theorem Node.secondTrial_eq (bounds : AABox) (settings : Settings) (original : List Poly)
    (t0 : SplitTrial) (h0 : Node.firstTrial bounds settings original = some t0) :
    Node.secondTrial bounds settings original =
      Node.splitTrial bounds settings t0.original (Node.preferredAxis bounds).2.1 := by
  unfold Node.secondTrial
  rw [h0]
  rfl

theorem Node.thirdTrial_eq (bounds : AABox) (settings : Settings) (original : List Poly)
    (t1 : SplitTrial) (h1 : Node.secondTrial bounds settings original = some t1) :
    Node.thirdTrial bounds settings original =
      Node.splitTrial bounds settings t1.original (Node.preferredAxis bounds).2.2 := by
  unfold Node.thirdTrial
  rw [h1]
  rfl

/-- When the first trial is accepted, `Node::split` ends with that split. -/
theorem Node.split_first (bounds : AABox) (settings : Settings) (original : List Poly)
    (t0 : SplitTrial) (h0 : Node.firstTrial bounds settings original = some t0)
    (b0 : t0.bad = false) :
    Node.split bounds original settings =
      some (.children t0.splitLocation (Node.preferredAxis bounds).1 t0.arrays) := by
  unfold Node.firstTrial at h0
  unfold Node.split
  simp only [h0, b0, Bool.false_eq_true, if_false]

/-- When the first trial is rejected and the second accepted, `Node::split`
ends with the second split. -/
theorem Node.split_second (bounds : AABox) (settings : Settings) (original : List Poly)
    (t0 t1 : SplitTrial) (h0 : Node.firstTrial bounds settings original = some t0)
    (b0 : t0.bad = true) (h1 : Node.secondTrial bounds settings original = some t1)
    (b1 : t1.bad = false) :
    Node.split bounds original settings =
      some (.children t1.splitLocation (Node.preferredAxis bounds).2.1 t1.arrays) := by
  rw [Node.secondTrial_eq bounds settings original t0 h0] at h1
  unfold Node.firstTrial at h0
  unfold Node.split
  simp only [h0, b0, h1, b1, Bool.false_eq_true, if_false, if_true]

/-- When the first two trials are rejected, `Node::split` ends with the third
split if it is accepted and with a leaf holding all candidates if not. -/
theorem Node.split_third (bounds : AABox) (settings : Settings) (original : List Poly)
    (t0 t1 t2 : SplitTrial) (h0 : Node.firstTrial bounds settings original = some t0)
    (b0 : t0.bad = true) (h1 : Node.secondTrial bounds settings original = some t1)
    (b1 : t1.bad = true) (h2 : Node.thirdTrial bounds settings original = some t2) :
    Node.split bounds original settings =
      some (if t2.bad then .leaf t2.splitLocation t2.original
        else .children t2.splitLocation (Node.preferredAxis bounds).2.2 t2.arrays) := by
  rw [Node.thirdTrial_eq bounds settings original t1 h1] at h2
  rw [Node.secondTrial_eq bounds settings original t0 h0] at h1
  unfold Node.firstTrial at h0
  unfold Node.split
  simp only [h0, b0, h1, b1, h2, if_true]
  split_ifs <;> rfl

theorem Vector3.primaryAxis_max (v : Vector3) (hx : 0 ≤ v.x) (hy : 0 ≤ v.y) (hz : 0 ≤ v.z) :
    v.get v.primaryAxis.succ3 ≤ v.get v.primaryAxis ∧
    v.get v.primaryAxis.succ3.succ3 ≤ v.get v.primaryAxis := by
  unfold Vector3.primaryAxis
  rw [abs_of_nonneg hx, abs_of_nonneg hy, abs_of_nonneg hz]
  split_ifs with h1 h2 h2 <;> simp only [Vector3.get, Axis.succ3] <;> constructor <;> linarith

theorem Node.preferredAxis_perm (bounds : AABox) :
    [(Node.preferredAxis bounds).1, (Node.preferredAxis bounds).2.1,
      (Node.preferredAxis bounds).2.2].Perm [Axis.X, Axis.Y, Axis.Z] := by
  unfold Node.preferredAxis
  simp only []
  split_ifs <;> cases bounds.extent.primaryAxis <;> simp only [Axis.succ3] <;> decide

theorem Node.preferredAxis_ordered (bounds : AABox) (hb : bounds.low.le bounds.high) :
    bounds.extent.get (Node.preferredAxis bounds).2.1 ≤
      bounds.extent.get (Node.preferredAxis bounds).1 ∧
    bounds.extent.get (Node.preferredAxis bounds).2.2 ≤
      bounds.extent.get (Node.preferredAxis bounds).2.1 := by
  have hx : 0 ≤ bounds.extent.x := by
    simp only [AABox.extent, Vector3.sub]; linarith [hb.1]
  have hy : 0 ≤ bounds.extent.y := by
    simp only [AABox.extent, Vector3.sub]; linarith [hb.2.1]
  have hz : 0 ≤ bounds.extent.z := by
    simp only [AABox.extent, Vector3.sub]; linarith [hb.2.2]
  obtain ⟨m1, m2⟩ := Vector3.primaryAxis_max bounds.extent hx hy hz
  unfold Node.preferredAxis
  simp only []
  split_ifs with h
  · exact ⟨m2, le_of_lt h⟩
  · exact ⟨m1, not_lt.1 h⟩

end G3D

namespace G3D

theorem setValueArray_ne_nil (src : List Poly) (h : src ≠ []) :
    valuesOf (setValueArray src) ≠ [] := by
  rw [valuesOf_setValueArray]
  intro h0
  exact h (List.map_eq_nil_iff.1 h0)

/-- Every leaf of a node built from a non-empty candidate array has a
populated value array. -/
theorem Node.build_leavesPopulated (settings : Settings) (fuel : Nat)
    (originals : List Poly) (n : Node) (h : Node.build settings fuel originals = some n)
    (hne : originals ≠ []) : n.LeavesPopulated := by
  induction fuel generalizing originals n with
  | zero => simp [Node.build] at h
  | succ fuel ih =>
    unfold Node.build at h
    simp only [] at h
    split_ifs at h
    · cases h
      exact setValueArray_ne_nil originals hne
    · obtain ⟨o, ho, hspec⟩ := Node.split_some (Poly.computeBounds originals) originals
        settings hne
      rw [ho] at h
      cases o with
      | leaf loc values =>
        simp only [Option.some.injEq] at h
        subst h
        have hperm : values.Perm originals := hspec
        exact setValueArray_ne_nil values (perm_ne_nil hperm hne)
      | children loc axis arrays =>
        obtain ⟨⟨l1, _, _⟩, ⟨h1, _, _⟩⟩ := children_arrays _ _ _ _ _ _ hspec
        simp only [] at h
        cases hc0 : Node.build settings fuel arrays.lowArray with
        | none => simp [hc0] at h
        | some c0 =>
          cases hc1 : Node.build settings fuel arrays.highArray with
          | none => simp [hc0, hc1] at h
          | some c1 =>
            simp only [hc0, hc1, Option.some.injEq] at h
            subst h
            exact ⟨ih _ _ hc0 l1, ih _ _ hc1 h1⟩

end G3D

namespace G3D

/-- The backface test is the only place where `rayTriangleIntersection` reads
`DO_NOT_CULL_BACKFACES`: the call either leaves through the early-out or
continues as the call with the flag set does. -/
theorem rayTriangleIntersection_cull (ext : Externals) (ray : PrecomputedRay) (mn : ℚ)
    (mx : EFloat) (tri : Tri) (va : CPUVertexArray) (hd : Hit) (o : IntersectRayOptions) :
    rayTriangleIntersection ext ray mn mx tri va hd o =
      if ((!(o.DO_NOT_CULL_BACKFACES || tri.twoSided)) && decide (tri.area ≥ 0) &&
          decide (facing ray tri va ≥ -(1 / 1000000000000) * 2 * tri.area)) = true then
        (false, hd)
      else rayTriangleIntersection ext ray mn mx tri va hd
        { o with DO_NOT_CULL_BACKFACES := true } := by
  unfold rayTriangleIntersection facing
  simp only [Bool.true_or, Bool.not_true, Bool.false_and, Bool.false_eq_true, if_false]

theorem Poly.split_total (p : Poly) (axis : Axis) (offset : EFloat) (maxArea : ℚ)
    (out : SplitArrays) :
    out.lowArray.length + out.highArray.length + out.spanArray.length + 1 ≤
      (p.split axis offset maxArea out).lowArray.length +
      (p.split axis offset maxArea out).highArray.length +
      (p.split axis offset maxArea out).spanArray.length := by
  unfold Poly.split
  split_ifs
  · simp only [List.length_append, List.length_singleton]; omega
  · simp only [List.length_append, List.length_singleton]; omega
  · simp only [List.length_append, List.length_singleton]; omega
  · cases offset <;>
      simp only [List.length_append, List.length_singleton, List.length_cons,
        List.length_nil] <;> omega

theorem splitAll_foldl_total (axis : Axis) (offset : EFloat) (maxArea : ℚ) (l : List Poly)
    (out : SplitArrays) :
    out.lowArray.length + out.highArray.length + out.spanArray.length + l.length ≤
      (l.foldl (fun out p => p.split axis offset maxArea out) out).lowArray.length +
      (l.foldl (fun out p => p.split axis offset maxArea out) out).highArray.length +
      (l.foldl (fun out p => p.split axis offset maxArea out) out).spanArray.length := by
  induction l generalizing out with
  | nil => simp
  | cons p ps ih =>
    have h1 := Poly.split_total p axis offset maxArea out
    have h2 := ih (p.split axis offset maxArea out)
    simp only [List.foldl_cons, List.length_cons]
    omega

/-- The three arrays of a split hold at least as many entries as there were
candidates. -/
theorem splitAll_total (original : List Poly) (axis : Axis) (offset : EFloat) (maxArea : ℚ) :
    original.length ≤
      (splitAll original axis offset maxArea).lowArray.length +
      (splitAll original axis offset maxArea).highArray.length +
      (splitAll original axis offset maxArea).spanArray.length := by
  have h := splitAll_foldl_total axis offset maxArea original SplitArrays.empty
  simp only [SplitArrays.empty, List.length_nil, Nat.zero_add] at h
  exact h

/-- A built node references at least as many triangles as it was given
candidates. -/
theorem Node.build_length (settings : Settings) (fuel : Nat) (originals : List Poly)
    (n : Node) (h : Node.build settings fuel originals = some n) (hne : originals ≠ []) :
    originals.length ≤ n.refs.length := by
  induction fuel generalizing originals n with
  | zero => simp [Node.build] at h
  | succ fuel ih =>
    unfold Node.build at h
    simp only [] at h
    split_ifs at h
    · cases h
      simp [Node.refs, valuesOf_setValueArray]
    · obtain ⟨o, ho, hspec⟩ := Node.split_some (Poly.computeBounds originals) originals
        settings hne
      rw [ho] at h
      cases o with
      | leaf loc values =>
        simp only [Option.some.injEq] at h
        subst h
        have hperm : values.Perm originals := hspec
        simp [Node.refs, valuesOf_setValueArray, hperm.length_eq]
      | children loc axis arrays =>
        obtain ⟨⟨l1, _, _⟩, ⟨h1, _, _⟩⟩ := children_arrays _ _ _ _ _ _ hspec
        obtain ⟨o1, hperm, harr, _⟩ := hspec
        simp only [] at h
        cases hc0 : Node.build settings fuel arrays.lowArray with
        | none => simp [hc0] at h
        | some c0 =>
          cases hc1 : Node.build settings fuel arrays.highArray with
          | none => simp [hc0, hc1] at h
          | some c1 =>
            simp only [hc0, hc1, Option.some.injEq] at h
            subst h
            have k0 := ih arrays.lowArray c0 hc0 l1
            have k1 := ih arrays.highArray c1 hc1 h1
            have ht := splitAll_total o1 axis loc
              ((Poly.computeBounds originals).area * settings.maxAreaFraction)
            rw [← harr, hperm.length_eq] at ht
            simp only [Node.refs, valuesOf_setValueArray, List.length_append, List.length_map]
            omega

theorem sourceFrom_length (va : CPUVertexArray) (first : Nat) (tris : List Tri) :
    (NativeTriTree.sourceFrom va first tris).length =
      (tris.filter (fun x => decide (x.area > NativeTriTree.epsilon))).length := by
  induction tris generalizing first with
  | nil => simp [NativeTriTree.sourceFrom]
  | cons t ts ih =>
    unfold NativeTriTree.sourceFrom
    by_cases ha : t.area > NativeTriTree.epsilon
    · rw [if_pos ha, List.filter_cons_of_pos (by simpa using ha)]
      simp [ih]
    · rw [if_neg ha, List.filter_cons_of_neg (by simpa using ha)]
      exact ih _

/-- Function `getStats` adds to `numTris` the number of triangle references in the
subtree. -/
theorem Node.getStats_numTris (k : Int) (n : Node) (level : Int) (s : Stats) :
    (n.getStats k level s).numTris = s.numTris + (n.refs.length : Int) := by
  induction n generalizing level s with
  | leaf b l v =>
    unfold Node.getStats Node.refs
    cases v with
    | none => simp only []; split_ifs <;> simp [valuesOf]
    | some va => simp only []; split_ifs <;> simp [valuesOf]
  | inner b l v a c0 c1 ih0 ih1 =>
    unfold Node.getStats Node.refs
    cases v with
    | none =>
      simp only []
      rw [ih1, ih0]
      split_ifs <;> simp [valuesOf] <;> omega
    | some va =>
      simp only []
      rw [ih1, ih0]
      split_ifs <;> simp [valuesOf] <;> omega

end G3D

namespace G3D

/-- Two calls of `getStats` in a row, started from a state that has counted
one node more than `s` and the same leaves. -/
theorem Node.getStats_pair (k : Int) (c0 c1 : Node) (level : Int) (s : Stats)
    (ih0 : ∀ (level : Int) (s : Stats),
      (c0.getStats k level s).numNodes - s.numNodes =
        2 * ((c0.getStats k level s).numLeaves - s.numLeaves) - 1 ∧
      s.numLeaves + 1 ≤ (c0.getStats k level s).numLeaves ∧
      (c0.getStats k level s).shallowestLeaf ≤ (c0.getStats k level s).depth)
    (ih1 : ∀ (level : Int) (s : Stats),
      (c1.getStats k level s).numNodes - s.numNodes =
        2 * ((c1.getStats k level s).numLeaves - s.numLeaves) - 1 ∧
      s.numLeaves + 1 ≤ (c1.getStats k level s).numLeaves ∧
      (c1.getStats k level s).shallowestLeaf ≤ (c1.getStats k level s).depth)
    (s2 : Stats) (hn : s2.numNodes = s.numNodes + 1) (hl : s2.numLeaves = s.numLeaves) :
    (c1.getStats k level (c0.getStats k level s2)).numNodes - s.numNodes =
      2 * ((c1.getStats k level (c0.getStats k level s2)).numLeaves - s.numLeaves) - 1 ∧
    s.numLeaves + 1 ≤ (c1.getStats k level (c0.getStats k level s2)).numLeaves ∧
    (c1.getStats k level (c0.getStats k level s2)).shallowestLeaf ≤
      (c1.getStats k level (c0.getStats k level s2)).depth := by
  obtain ⟨a0, b0, _⟩ := ih0 level s2
  obtain ⟨a1, b1, c1⟩ := ih1 level (c0.getStats k level s2)
  exact ⟨by omega, by omega, c1⟩

/-- Function `getStats` counts one node more than twice the leaves it counts, counts
at least one leaf, and leaves `shallowestLeaf` at most `depth`. -/
theorem Node.getStats_counts (k : Int) (n : Node) (level : Int) (s : Stats) :
    (n.getStats k level s).numNodes - s.numNodes =
      2 * ((n.getStats k level s).numLeaves - s.numLeaves) - 1 ∧
    s.numLeaves + 1 ≤ (n.getStats k level s).numLeaves ∧
    (n.getStats k level s).shallowestLeaf ≤ (n.getStats k level s).depth := by
  induction n generalizing level s with
  | leaf b l v =>
    unfold Node.getStats
    simp only []
    split_ifs
    · refine ⟨by simp, by simp, ?_⟩
      simp only []
      exact le_trans (min_le_right _ _) (le_max_right _ _)
    · refine ⟨by simp, by simp, ?_⟩
      simp only []
      exact le_trans (min_le_right _ _) (le_max_right _ _)
  | inner b l v a c0 c1 ih0 ih1 =>
    unfold Node.getStats
    simp only []
    split_ifs
    · exact Node.getStats_pair k c0 c1 (level + 1) s ih0 ih1 _ rfl rfl
    · exact Node.getStats_pair k c0 c1 (level + 1) s ih0 ih1 _ rfl rfl

end G3D

namespace G3D

theorem sortByHigh_sorted (axis : Axis) (l : List Poly) :
    (sortByHigh axis l).Sorted (fun a b => a.high.get axis ≤ b.high.get axis) := by
  haveI : IsTotal Poly (fun a b => a.high.get axis ≤ b.high.get axis) :=
    ⟨fun _ _ => le_total _ _⟩
  haveI : IsTrans Poly (fun a b => a.high.get axis ≤ b.high.get axis) :=
    ⟨fun _ _ _ h1 h2 => le_trans h1 h2⟩
  exact List.sorted_insertionSort _ l

/-- The binary32 literal `0.0001f`. -/
theorem Float32.round_epsilon : Float32.round (1 / 10000) = 13743895 / 137438953472 := by
  decide!

/-- The float accumulation of the areas of a candidate array is the float sum
of the list of areas. -/
theorem foldl_area_sum (l : List Poly) (acc : ℚ) :
    l.foldl (fun acc p => Float32.round (acc + p.area)) acc =
      (l.map Poly.area).foldl (fun acc a => Float32.round (acc + a)) acc := by
  rw [List.foldl_map]

/-- When no addition rounds, the float accumulation is the exact sum. -/
theorem Float32.foldl_exactSums (l : List ℚ) (acc : ℚ) (h : Float32.ExactSums acc l) :
    l.foldl (fun acc a => Float32.round (acc + a)) acc = acc + l.sum := by
  induction l generalizing acc with
  | nil => simp
  | cons a l ih =>
    obtain ⟨h1, h2⟩ := h
    simp only [List.foldl_cons, List.sum_cons, h1, ih _ h2]
    ring

/-- When no subtraction rounds, the float remainder after any number of steps
is the exact difference. -/
theorem Float32.remainder_take_exact (l : List ℚ) (start : ℚ)
    (h : Float32.ExactDifferences start l) (k : Nat) :
    Float32.remainder start (l.take k) = start - (l.take k).sum := by
  induction l generalizing start k with
  | nil => simp [Float32.remainder]
  | cons a l ih =>
    obtain ⟨h1, h2⟩ := h
    cases k with
    | zero => simp [Float32.remainder]
    | succ k =>
      have := ih (start - a) h2 k
      unfold Float32.remainder at this ⊢
      simp only [List.take_succ_cons, List.foldl_cons, List.sum_cons, h1, this]
      ring

/-- The walk of `chooseMedianAreaSplitLocation` stops at the first candidate
at which the float remainder is at most the tolerance `0.0001f`, and returns
`0.0f` when there is none. -/
theorem medianAreaWalk_spec (axis : Axis) (ps : List Poly) (area : ℚ) :
    (∃ k p, ps[k]? = some p ∧ medianAreaWalk axis area ps = p.high.get axis ∧
      Float32.remainder area ((ps.take (k + 1)).map Poly.area) ≤ Float32.round (1 / 10000) ∧
      ∀ j, j < k →
        Float32.remainder area ((ps.take (j + 1)).map Poly.area) >
          Float32.round (1 / 10000)) ∨
    ((∀ j, j < ps.length →
        Float32.remainder area ((ps.take (j + 1)).map Poly.area) >
          Float32.round (1 / 10000)) ∧
      medianAreaWalk axis area ps = 0) := by
  induction ps generalizing area with
  | nil =>
    right
    exact ⟨fun j hj => by simp at hj, rfl⟩
  | cons p rest ih =>
    unfold medianAreaWalk
    by_cases h : Float32.round (area - p.area) ≤ Float32.round (1 / 10000)
    · rw [if_pos h]
      left
      refine ⟨0, p, by simp, rfl, by simpa [Float32.remainder] using h, ?_⟩
      intro j hj
      omega
    · rw [if_neg h]
      have hstep : ∀ j, Float32.remainder area (((p :: rest).take (j + 1 + 1)).map Poly.area) =
          Float32.remainder (Float32.round (area - p.area))
            ((rest.take (j + 1)).map Poly.area) := by
        intro j
        simp [Float32.remainder]
      have hzero : Float32.remainder area (((p :: rest).take (0 + 1)).map Poly.area) >
          Float32.round (1 / 10000) := by
        simpa [Float32.remainder] using not_le.1 h
      rcases ih (Float32.round (area - p.area)) with ⟨k, q, hk, hw, hle, hfirst⟩ | ⟨hall, hw⟩
      · left
        refine ⟨k + 1, q, by simpa using hk, hw, ?_, ?_⟩
        · rw [hstep]; exact hle
        · intro j hj
          cases j with
          | zero => exact hzero
          | succ j => rw [hstep]; exact hfirst j (by omega)
      · right
        refine ⟨?_, hw⟩
        intro j hj
        cases j with
        | zero => exact hzero
        | succ j =>
          rw [hstep]
          exact hall j (by simpa using hj)

end G3D

namespace G3D

/-! ## The ray-triangle equation -/

/-- Cramer's rule for the ray-triangle equation, from the equation to the
formulas: a solution `(t, u, v)` of `o + t d = v0 + u e1 + v e2` multiplied by
the determinant gives the three triple products. -/
theorem rayEquation_solution (o d v0 e1 e2 : Vector3) (t u v : ℚ)
    (h : o.add (d.scale t) = (v0.add (e1.scale u)).add (e2.scale v)) :
    (o.sub v0).dot (d.cross e2) = e1.dot (d.cross e2) * u ∧
    d.dot ((o.sub v0).cross e1) = e1.dot (d.cross e2) * v ∧
    e2.dot ((o.sub v0).cross e1) = e1.dot (d.cross e2) * t := by
  obtain ⟨ox, oy, oz⟩ := o
  obtain ⟨dx, dy, dz⟩ := d
  obtain ⟨vx, vy, vz⟩ := v0
  obtain ⟨ax, ay, az⟩ := e1
  obtain ⟨bx, by1, bz⟩ := e2
  simp only [Vector3.add, Vector3.scale, Vector3.mk.injEq] at h
  obtain ⟨hx, hy, hz⟩ := h
  have ex : ox = vx + ax * u + bx * v - dx * t := by linarith
  have ey : oy = vy + ay * u + by1 * v - dy * t := by linarith
  have ez : oz = vz + az * u + bz * v - dz * t := by linarith
  subst ex ey ez
  simp only [Vector3.sub, Vector3.dot, Vector3.cross]
  refine ⟨by ring, by ring, by ring⟩

/-- Cramer's rule, from the formulas to the equation: the determinant times
the offset `o - v0` is the combination of `e1`, `e2` and `d` with the three
triple products. -/
theorem rayEquation_formula (o d v0 e1 e2 : Vector3) :
    (o.sub v0).scale (e1.dot (d.cross e2)) =
      ((e1.scale ((o.sub v0).dot (d.cross e2))).add
        (e2.scale (d.dot ((o.sub v0).cross e1)))).sub
        (d.scale (e2.dot ((o.sub v0).cross e1))) := by
  obtain ⟨ox, oy, oz⟩ := o
  obtain ⟨dx, dy, dz⟩ := d
  obtain ⟨vx, vy, vz⟩ := v0
  obtain ⟨ax, ay, az⟩ := e1
  obtain ⟨bx, by1, bz⟩ := e2
  simp only [Vector3.add, Vector3.scale, Vector3.sub, Vector3.dot, Vector3.cross,
    Vector3.mk.injEq]
  refine ⟨by ring, by ring, by ring⟩

/-- With a non-zero determinant the values `u`, `v`, `t` of the three
formulas solve the ray-triangle equation. -/
theorem rayEquation_holds (o d v0 e1 e2 : Vector3) (ha : e1.dot (d.cross e2) ≠ 0) :
    o.add (d.scale (1 / e1.dot (d.cross e2) * e2.dot ((o.sub v0).cross e1))) =
      (v0.add (e1.scale (1 / e1.dot (d.cross e2) * (o.sub v0).dot (d.cross e2)))).add
        (e2.scale (1 / e1.dot (d.cross e2) * d.dot ((o.sub v0).cross e1))) := by
  have hf := rayEquation_formula o d v0 e1 e2
  generalize e1.dot (d.cross e2) = a at ha hf
  generalize (o.sub v0).dot (d.cross e2) = nu at hf
  generalize d.dot ((o.sub v0).cross e1) = nv at hf
  generalize e2.dot ((o.sub v0).cross e1) = nt at hf
  obtain ⟨ox, oy, oz⟩ := o
  obtain ⟨dx, dy, dz⟩ := d
  obtain ⟨vx, vy, vz⟩ := v0
  obtain ⟨ax, ay, az⟩ := e1
  obtain ⟨bx, by1, bz⟩ := e2
  simp only [Vector3.add, Vector3.scale, Vector3.sub, Vector3.mk.injEq] at hf ⊢
  obtain ⟨hx, hy, hz⟩ := hf
  refine ⟨?_, ?_, ?_⟩
  · field_simp
    linear_combination hx
  · field_simp
    linear_combination hy
  · field_simp
    linear_combination hz

end G3D

namespace G3D

/-- The chain of early returns of `Triangle::intersect` as one test. -/
theorem intersect_tests {α : Type} (E a U V W T : ℚ) (d : EFloat) (F R : α) :
    (if |a| < E then F
      else if U < 0 ∨ U > 1 then F
      else if V < 0 ∨ W > 1 then F
      else if T > 0 ∧ EFloat.ltOf T d = true then R else F) =
    if E ≤ |a| ∧ 0 ≤ U ∧ U ≤ 1 ∧ 0 ≤ V ∧ W ≤ 1 ∧ 0 < T ∧ EFloat.ltOf T d = true then R
      else F := by
  by_cases h1 : |a| < E
  · rw [if_pos h1, if_neg (fun h => absurd h.1 (not_le.2 h1))]
  · rw [if_neg h1]
    by_cases h2 : U < 0 ∨ U > 1
    · rw [if_pos h2, if_neg]
      rintro ⟨_, hu, hu1, _⟩
      rcases h2 with h2 | h2 <;> linarith
    · rw [if_neg h2]
      by_cases h3 : V < 0 ∨ W > 1
      · rw [if_pos h3, if_neg]
        rintro ⟨_, _, _, hv, hw, _⟩
        rcases h3 with h3 | h3 <;> linarith
      · rw [if_neg h3]
        have hu : 0 ≤ U := not_lt.1 (fun h => h2 (Or.inl h))
        have hu1 : U ≤ 1 := not_lt.1 (fun h => h2 (Or.inr h))
        have hv : 0 ≤ V := not_lt.1 (fun h => h3 (Or.inl h))
        have hw : W ≤ 1 := not_lt.1 (fun h => h3 (Or.inr h))
        by_cases h4 : T > 0 ∧ EFloat.ltOf T d = true
        · rw [if_pos h4, if_pos ⟨not_lt.1 h1, hu, hu1, hv, hw, h4.1, h4.2⟩]
        · rw [if_neg h4, if_neg]
          rintro ⟨_, _, _, _, _, ht, hd⟩
          exact h4 ⟨ht, hd⟩

/-- Function `Triangle::intersect` by cases, for any rounding `fl` of its
arithmetic: it returns true, with the computed `t` and weights, exactly when
the computed determinant is at least `EPS` in absolute value and the computed
values pass the range tests; otherwise it returns false and hands back
`distance` and `baryCoord`. -/
theorem Triangle.intersectWith_cases (fl : ℚ → ℚ) (tri : Triangle) (ray : Ray) (d : EFloat)
    (bary : ℚ × ℚ × ℚ) :
    tri.intersectWith fl ray d bary =
      if Float32.round (1 / 100000) ≤ |tri.determinant fl ray| ∧
          0 ≤ (tri.hitParameters fl ray).2.1 ∧ (tri.hitParameters fl ray).2.1 ≤ 1 ∧
          0 ≤ (tri.hitParameters fl ray).2.2 ∧
          fl ((tri.hitParameters fl ray).2.1 + (tri.hitParameters fl ray).2.2) ≤ 1 ∧
          0 < (tri.hitParameters fl ray).1 ∧
          EFloat.ltOf (tri.hitParameters fl ray).1 d = true then
        (true, .fin (tri.hitParameters fl ray).1,
          (fl (fl (1 - (tri.hitParameters fl ray).2.1) - (tri.hitParameters fl ray).2.2),
            (tri.hitParameters fl ray).2.1, (tri.hitParameters fl ray).2.2))
      else (false, d, bary) := by
  unfold Triangle.intersectWith Triangle.hitParameters Triangle.determinant
  simp only []
  exact intersect_tests _ _ _ _ _ _ d _ _

/-- The binary32 literal `1e-5f`. -/
theorem Float32.round_EPS : Float32.round (1 / 100000) = 2748779 / 274877906944 := by
  decide!

/-- In exact arithmetic and with a non-zero determinant, the ray meets the
triangle at `(t, u, v)` exactly when these are the values
`Triangle::intersect` computes and the weights are in range. -/
theorem Triangle.hitAt_iff (tri : Triangle) (ray : Ray) (t u v : ℚ)
    (ha : tri.determinant (fun x => x) ray ≠ 0) :
    tri.HitAt ray t u v ↔
      ((t, u, v) = tri.hitParameters (fun x => x) ray ∧ 0 ≤ u ∧ 0 ≤ v ∧ u + v ≤ 1) := by
  unfold Triangle.HitAt Triangle.hitParameters Triangle.edge01 Triangle.edge02
  unfold Triangle.determinant Triangle.edge01 Triangle.edge02 at ha
  have e1 : ∀ a b : Vector3, Vector3.subF (fun x => x) a b = a.sub b := fun _ _ => rfl
  have e2 : ∀ a b : Vector3, Vector3.dotF (fun x => x) a b = a.dot b := fun _ _ => rfl
  have e3 : ∀ a b : Vector3, Vector3.crossF (fun x => x) a b = a.cross b := fun _ _ => rfl
  simp only [e1, e2, e3] at ha ⊢
  simp only [Prod.mk.injEq]
  constructor
  · rintro ⟨hu, hv, huv, heq⟩
    obtain ⟨s1, s2, s3⟩ := rayEquation_solution _ _ _ _ _ t u v heq
    refine ⟨⟨?_, ?_, ?_⟩, hu, hv, huv⟩
    · rw [s3]; field_simp
    · rw [s1]; field_simp
    · rw [s2]; field_simp
  · rintro ⟨⟨ht, hu0, hv0⟩, hu, hv, huv⟩
    refine ⟨hu, hv, huv, ?_⟩
    rw [ht, hu0, hv0]
    exact rayEquation_holds _ _ _ _ _ ha

end G3D

namespace G3D

/-! ## The location returned by the fast SAH sweep -/

theorem uniqueHighs_eq_nil (axis : Axis) (c : ℚ) (ps : List Poly)
    (h : ∀ q ∈ ps, q.high.get axis ≤ c) : uniqueHighs axis c ps = [] := by
  induction ps with
  | nil => rfl
  | cons p ps ih =>
    unfold uniqueHighs
    rw [if_neg (not_lt.2 (h p (List.mem_cons_self _ _)))]
    exact ih (fun q hq => h q (List.mem_cons_of_mem _ hq))

theorem uniqueHighs_ne_nil (axis : Axis) (c : ℚ) (ps : List Poly) (q : Poly) (hq : q ∈ ps)
    (hgt : c < q.high.get axis) : uniqueHighs axis c ps ≠ [] := by
  induction ps generalizing c with
  | nil => simp at hq
  | cons p ps ih =>
    unfold uniqueHighs
    split_ifs with hp
    · exact List.cons_ne_nil _ _
    · rcases List.mem_cons.1 hq with rfl | hq
      · exact absurd hgt hp
      · exact ih c hq hgt

theorem highSweepLoop_length (axis : Axis) (source : List Poly) (containingArea : ℚ)
    (hs : List ℚ) (k : Nat) (low high : Vector3) (cs : List ℚ)
    (h : highSweepLoop axis source containingArea hs k low high = some cs) :
    cs.length = hs.length := by
  induction hs generalizing k low high cs with
  | nil =>
    simp only [highSweepLoop, Option.some.injEq] at h
    rw [← h]
  | cons x hs ih =>
    unfold highSweepLoop at h
    cases hw : highWhile axis source x k low high with
    | none => simp [hw] at h
    | some r =>
      obtain ⟨k1, low1, high1⟩ := r
      simp only [hw] at h
      cases hr : highSweepLoop axis source containingArea hs k1 low1 high1 with
      | none => simp [hr] at h
      | some cs1 =>
        simp only [hr, Option.some.injEq] at h
        rw [← h, List.length_cons, List.length_cons, ih k1 low1 high1 cs1 hr]

theorem highSweep_length (axis : Axis) (source : List Poly) (containingArea : ℚ)
    (splitPosition highCost : List ℚ)
    (h : highSweep axis source containingArea splitPosition = some highCost) :
    highCost.length = splitPosition.length := by
  unfold highSweep at h
  cases hl : source[source.length - 1]? with
  | none => simp [hl] at h
  | some p =>
    simp only [hl, Option.map_eq_some'] at h
    obtain ⟨cs, hcs, hrev⟩ := h
    rw [← hrev, List.length_reverse, highSweepLoop_length _ _ _ _ _ _ _ _ hcs,
      List.length_reverse]

theorem ite_state_snd (c : Prop) [Decidable c] (a : EFloat) (hx : ℚ) (st : EFloat × EFloat) :
    (if c then (a, EFloat.fin hx) else st).2 = EFloat.fin hx ∨
      (if c then (a, EFloat.fin hx) else st).2 = st.2 := by
  by_cases hc : c
  · rw [if_pos hc]; exact Or.inl rfl
  · rw [if_neg hc]; exact Or.inr rfl

/-- The position the sweep from below ends with is the one it started with or
one of the planes it visited. -/
theorem lowSweepLoop_position (axis : Axis) (size : Nat) (containingArea : ℚ)
    (pairs : List (ℚ × ℚ)) (unvisited : List Poly) (i : Nat) (low high : Vector3)
    (st r : EFloat × EFloat)
    (h : lowSweepLoop axis size containingArea pairs unvisited i low high st = some r) :
    r.2 = st.2 ∨ ∃ x ∈ pairs, r.2 = .fin x.1 := by
  induction pairs generalizing unvisited i low high st with
  | nil =>
    simp only [lowSweepLoop, Option.some.injEq] at h
    exact Or.inl (by rw [h])
  | cons x rest ih =>
    obtain ⟨hx, highCost⟩ := x
    unfold lowSweepLoop at h
    cases hw : lowWhile axis hx unvisited i low high with
    | none => simp [hw] at h
    | some w =>
      obtain ⟨u1, i1, low1, high1⟩ := w
      simp only [hw] at h
      rcases ih _ _ _ _ _ h with h1 | ⟨y, hy, h1⟩
      · rw [h1]
        exact (ite_state_snd _ _ hx st).elim
          (fun e => Or.inr ⟨(hx, highCost), List.mem_cons_self _ _, e⟩) (fun e => Or.inl e)
      · exact Or.inr ⟨y, List.mem_cons_of_mem _ hy, h1⟩

/-- Started without a best cost, the sweep from below over at least one plane
ends at one of the planes. -/
theorem lowSweepLoop_first (axis : Axis) (size : Nat) (containingArea : ℚ)
    (x : ℚ × ℚ) (rest : List (ℚ × ℚ)) (unvisited : List Poly) (i : Nat) (low high : Vector3)
    (l : EFloat) (r : EFloat × EFloat)
    (h : lowSweepLoop axis size containingArea (x :: rest) unvisited i low high (.inf, l)
      = some r) :
    ∃ y ∈ x :: rest, r.2 = .fin y.1 := by
  obtain ⟨hx, highCost⟩ := x
  unfold lowSweepLoop at h
  cases hw : lowWhile axis hx unvisited i low high with
  | none => simp [hw] at h
  | some w =>
    obtain ⟨u1, i1, low1, high1⟩ := w
    simp only [hw, EFloat.ltOf, if_true] at h
    rcases lowSweepLoop_position _ _ _ _ _ _ _ _ _ _ h with h1 | ⟨y, hy, h1⟩
    · exact ⟨(hx, highCost), List.mem_cons_self _ _, h1⟩
    · exact ⟨y, List.mem_cons_of_mem _ hy, h1⟩

/-- What `chooseSAHSplitLocationFast` returns on a non-empty array: no read
falls outside an array; the location is `+inf` when all upper extents along
the axis are equal, and otherwise the upper extent of a candidate that some
other candidate's upper extent exceeds. -/
theorem chooseSAHSplitLocationFast_result (bounds : AABox) (source : List Poly) (axis : Axis)
    (hne : source ≠ []) :
    ∃ loc, chooseSAHSplitLocationFast bounds source axis = some (loc, sortByHigh axis source) ∧
      ((∀ a ∈ source, ∀ b ∈ source, a.high.get axis = b.high.get axis) → loc = .inf) ∧
      ((∃ a ∈ source, ∃ b ∈ source, a.high.get axis ≠ b.high.get axis) →
        ∃ c, loc = .fin c ∧ (∃ p ∈ source, p.high.get axis = c) ∧
          ∃ q ∈ source, c < q.high.get axis) := by
  obtain ⟨loc, hloc⟩ := chooseSAHSplitLocationFast_some bounds source axis hne
  refine ⟨loc, hloc, ?_⟩
  have hperm := sortByHigh_perm axis source
  have hsorted := sortByHigh_sorted axis source
  unfold chooseSAHSplitLocationFast at hloc
  simp only [] at hloc
  generalize sortByHigh axis source = sorted at hloc hperm hsorted
  cases sorted with
  | nil => simp [splitPositions] at hloc
  | cons p ps =>
    simp only [splitPositions] at hloc
    cases hh : highSweep axis (p :: ps) bounds.area
        (p.high.get axis :: uniqueHighs axis (p.high.get axis) ps).dropLast with
    | none => simp [hh] at hloc
    | some hc =>
      have hlen := highSweep_length _ _ _ _ _ hh
      simp only [hh] at hloc
      cases hl : lowSweepLoop axis (p :: ps).length bounds.area
          (((p.high.get axis :: uniqueHighs axis (p.high.get axis) ps).dropLast).zip hc) ps 1
          p.low p.high (.inf, .inf) with
      | none => rw [hl] at hloc; simp at hloc
      | some st =>
        rw [hl] at hloc
        simp only [Option.some.injEq, Prod.mk.injEq, and_true] at hloc
        constructor
        · intro hall
          have hnil : uniqueHighs axis (p.high.get axis) ps = [] := by
            apply uniqueHighs_eq_nil
            intro q hq
            exact le_of_eq (hall q (hperm.subset (List.mem_cons_of_mem _ hq)) p
              (hperm.subset (List.mem_cons_self _ _)))
          rw [hnil] at hl
          simp only [List.dropLast_single, List.zip_nil_left, lowSweepLoop,
            Option.some.injEq] at hl
          rw [← hloc, ← hl]
        · rintro ⟨a, ha, b, hb, hab⟩
          have hmin : ∀ q ∈ ps, p.high.get axis ≤ q.high.get axis :=
            (List.sorted_cons.1 hsorted).1
          have hex : ∃ q ∈ ps, p.high.get axis < q.high.get axis := by
            have ha1 := hperm.symm.subset ha
            have hb1 := hperm.symm.subset hb
            by_contra hcon
            push_neg at hcon
            have heq : ∀ q ∈ p :: ps, q.high.get axis = p.high.get axis := by
              intro q hq
              rcases List.mem_cons.1 hq with rfl | hq
              · rfl
              · exact le_antisymm (hcon q hq) (hmin q hq)
            exact hab ((heq a ha1).trans (heq b hb1).symm)
          obtain ⟨q0, hq0, hgt0⟩ := hex
          have hl1 := uniqueHighs_ne_nil axis _ ps q0 hq0 hgt0
          obtain ⟨qt, hqt, htop⟩ := uniqueHighs_top axis ps _ hl1
          have hpos : (p.high.get axis :: uniqueHighs axis (p.high.get axis) ps).dropLast =
              p.high.get axis :: (uniqueHighs axis (p.high.get axis) ps).dropLast :=
            dropLast_cons_of_ne_nil _ _ hl1
          cases hc with
          | nil =>
            rw [hpos] at hlen
            simp at hlen
          | cons c0 cs =>
            have hzip : ((p.high.get axis :: uniqueHighs axis (p.high.get axis) ps).dropLast).zip
                (c0 :: cs) = (p.high.get axis, c0) ::
                  ((uniqueHighs axis (p.high.get axis) ps).dropLast).zip cs := by
              rw [hpos]; rfl
            rw [hzip] at hl
            obtain ⟨y, hy, hr⟩ := lowSweepLoop_first _ _ _ _ _ _ _ _ _ _ _ hl
            have hymem : y.1 ∈ (p.high.get axis :: uniqueHighs axis (p.high.get axis) ps).dropLast := by
              rw [hpos]
              rcases List.mem_cons.1 hy with rfl | hy
              · exact List.mem_cons_self _ _
              · exact List.mem_cons_of_mem _ (List.of_mem_zip (a := y.1) (b := y.2) hy).1
            refine ⟨y.1, by rw [← hloc, hr], ?_, qt,
              hperm.subset (List.mem_cons_of_mem _ hqt), htop _ hymem⟩
            rw [hpos] at hymem
            rcases List.mem_cons.1 hymem with e | hy2
            · exact ⟨p, hperm.subset (List.mem_cons_self _ _), e.symm⟩
            · obtain ⟨j, p1, hj, hp1, _⟩ := uniqueHighs_dropLast_index axis ps _ _ hy2
              exact ⟨p1, hperm.subset (List.mem_cons_of_mem _ (List.getElem?_mem hj)), hp1⟩

end G3D

namespace G3D

/-! ## Hits at a point of the triangle lie where the ray-triangle equation puts them -/

theorem Vector3.get_add (a b : Vector3) (axis : Axis) :
    (a.add b).get axis = a.get axis + b.get axis := by
  cases axis <;> rfl

theorem Vector3.get_sub (a b : Vector3) (axis : Axis) :
    (a.sub b).get axis = a.get axis - b.get axis := by
  cases axis <;> rfl

theorem Vector3.get_scale (a : Vector3) (f : ℚ) (axis : Axis) :
    (a.scale f).get axis = a.get axis * f := by
  cases axis <;> rfl

theorem PrecomputedRay.invDirection_get (ray : PrecomputedRay) (axis : Axis) :
    ray.invDirection.get axis = 1 / ray.direction.get axis := by
  cases axis <;> rfl

theorem Vector3.scale_dot (a b : Vector3) (f : ℚ) : (a.scale f).dot b = f * a.dot b := by
  simp only [Vector3.scale, Vector3.dot]; ring

theorem Vector3.dot_scale_cross (d a b : Vector3) (f : ℚ) :
    d.dot ((a.scale f).cross b) = f * d.dot (a.cross b) := by
  simp only [Vector3.scale, Vector3.dot, Vector3.cross]; ring

/-- The values that `rayTriangleIntersection` writes when it returns true, and
the determinant it divided by. -/
theorem rayTriangleIntersection_fields (ext : Externals) (ray : PrecomputedRay) (mn : ℚ)
    (mx : EFloat) (tri : Tri) (va : CPUVertexArray) (hd : Hit) (o : IntersectRayOptions)
    (h : (rayTriangleIntersection ext ray mn mx tri va hd o).1 = true) :
    ((tri.position va 1).sub (tri.position va 0)).dot
        (ray.direction.cross ((tri.position va 2).sub (tri.position va 0))) ≠ 0 ∧
    (rayTriangleIntersection ext ray mn mx tri va hd o).2.u =
      1 / ((tri.position va 1).sub (tri.position va 0)).dot
          (ray.direction.cross ((tri.position va 2).sub (tri.position va 0))) *
        (ray.origin.sub (tri.position va 0)).dot
          (ray.direction.cross ((tri.position va 2).sub (tri.position va 0))) ∧
    (rayTriangleIntersection ext ray mn mx tri va hd o).2.v =
      1 / ((tri.position va 1).sub (tri.position va 0)).dot
          (ray.direction.cross ((tri.position va 2).sub (tri.position va 0))) *
        ray.direction.dot ((ray.origin.sub (tri.position va 0)).cross
          ((tri.position va 1).sub (tri.position va 0))) ∧
    (rayTriangleIntersection ext ray mn mx tri va hd o).2.distance =
      .fin (1 / ((tri.position va 1).sub (tri.position va 0)).dot
          (ray.direction.cross ((tri.position va 2).sub (tri.position va 0))) *
        ((tri.position va 2).sub (tri.position va 0)).dot
          ((ray.origin.sub (tri.position va 0)).cross
            ((tri.position va 1).sub (tri.position va 0)))) := by
  obtain ⟨occ, cull, thr, nocov⟩ := o
  unfold rayTriangleIntersection at h ⊢
  cases thr <;> simp only [Bool.false_eq_true, if_false, if_true] at h ⊢ <;>
    split_ifs at h with h1 h2 h3 h4 h5 <;> try (simp at h; done)
  all_goals
    simp only [if_neg h1, if_neg h2, if_neg h3, if_pos h4, if_neg h5]
    have ha : ((tri.position va 1).sub (tri.position va 0)).dot
        (ray.direction.cross ((tri.position va 2).sub (tri.position va 0))) ≠ 0 := by
      intro h0
      apply h3
      right; right
      rw [h0, abs_zero]
      norm_num
    refine ⟨ha, ?_, ?_, ?_⟩
    · rw [Vector3.scale_dot]
    · rw [Vector3.dot_scale_cross]
    · rw [Vector3.dot_scale_cross]

/-- A hit at a point of a triangle that lies on the high side of the plane
`x[axis] = s`, for a ray that runs towards higher coordinates, is at a
distance of at least the distance to the plane; and likewise for a triangle on
the low side and a ray that runs towards lower coordinates. -/
theorem hit_point_beyond_plane (ext : Externals) (ray : PrecomputedRay) (mn : ℚ)
    (mx : EFloat) (tri : Tri) (va : CPUVertexArray) (hd : Hit) (o : IntersectRayOptions)
    (axis : Axis) (s : ℚ)
    (h : (rayTriangleIntersection ext ray mn mx tri va hd o).1 = true)
    (hu : 0 ≤ (rayTriangleIntersection ext ray mn mx tri va hd o).2.u)
    (hv : 0 ≤ (rayTriangleIntersection ext ray mn mx tri va hd o).2.v)
    (huv : (rayTriangleIntersection ext ray mn mx tri va hd o).2.u +
      (rayTriangleIntersection ext ray mn mx tri va hd o).2.v ≤ 1)
    (hside : (0 < ray.direction.get axis ∧ s ≤ (tri.position va 0).get axis ∧
        s ≤ (tri.position va 1).get axis ∧ s ≤ (tri.position va 2).get axis) ∨
      (ray.direction.get axis < 0 ∧ (tri.position va 0).get axis ≤ s ∧
        (tri.position va 1).get axis ≤ s ∧ (tri.position va 2).get axis ≤ s)) :
    ∃ d, (rayTriangleIntersection ext ray mn mx tri va hd o).2.distance = .fin d ∧
      (s - ray.origin.get axis) * ray.invDirection.get axis ≤ d := by
  obtain ⟨ha, eu, ev, ed⟩ := rayTriangleIntersection_fields ext ray mn mx tri va hd o h
  rw [eu] at hu huv
  rw [ev] at hv huv
  refine ⟨_, ed, ?_⟩
  have heq := rayEquation_holds ray.origin ray.direction (tri.position va 0)
    ((tri.position va 1).sub (tri.position va 0)) ((tri.position va 2).sub (tri.position va 0)) ha
  have hc := congrArg (fun w => w.get axis) heq
  simp only [Vector3.get_add, Vector3.get_scale, Vector3.get_sub] at hc
  rw [PrecomputedRay.invDirection_get]
  generalize (1 / ((tri.position va 1).sub (tri.position va 0)).dot
      (ray.direction.cross ((tri.position va 2).sub (tri.position va 0))) *
    ((tri.position va 2).sub (tri.position va 0)).dot
      ((ray.origin.sub (tri.position va 0)).cross
        ((tri.position va 1).sub (tri.position va 0)))) = T at hc ⊢
  generalize (1 / ((tri.position va 1).sub (tri.position va 0)).dot
      (ray.direction.cross ((tri.position va 2).sub (tri.position va 0))) *
    (ray.origin.sub (tri.position va 0)).dot
      (ray.direction.cross ((tri.position va 2).sub (tri.position va 0)))) = U at hc hu huv
  generalize (1 / ((tri.position va 1).sub (tri.position va 0)).dot
      (ray.direction.cross ((tri.position va 2).sub (tri.position va 0))) *
    ray.direction.dot ((ray.origin.sub (tri.position va 0)).cross
      ((tri.position va 1).sub (tri.position va 0)))) = V at hc hv huv
  generalize (tri.position va 0).get axis = p0 at hc hside
  generalize (tri.position va 1).get axis = p1 at hc hside
  generalize (tri.position va 2).get axis = p2 at hc hside
  generalize ray.origin.get axis = oa at hc ⊢
  generalize ray.direction.get axis = da at hc hside ⊢
  rcases hside with ⟨hd0, s0, s1, s2⟩ | ⟨hd0, s0, s1, s2⟩
  · rw [mul_one_div, div_le_iff₀ hd0]
    nlinarith [mul_nonneg hu (sub_nonneg.2 s1), mul_nonneg hv (sub_nonneg.2 s2),
      mul_nonneg (sub_nonneg.2 huv) (sub_nonneg.2 s0)]
  · rw [mul_one_div, div_le_iff_of_neg hd0]
    nlinarith [mul_nonneg hu (sub_nonneg.2 s1), mul_nonneg hv (sub_nonneg.2 s2),
      mul_nonneg (sub_nonneg.2 huv) (sub_nonneg.2 s0)]

end G3D

namespace G3D

/-! ## The accepted hits of a traversal come closer and closer -/

theorem getLast?_mem_self (l : List Hit) (h : Hit) (hl : l.getLast? = some h) : h ∈ l := by
  induction l with
  | nil => simp at hl
  | cons a rest ih =>
    cases rest with
    | nil =>
      simp only [List.getLast?_singleton, Option.some.injEq] at hl
      rw [hl]; exact List.mem_cons_self _ _
    | cons b rest2 =>
      rw [List.getLast?_cons_cons] at hl
      exact List.mem_cons_of_mem _ (ih hl)

theorem getLast?_eq_none_nil (l : List Hit) (hl : l.getLast? = none) : l = [] := by
  cases l with
  | nil => rfl
  | cons a rest =>
    exfalso
    induction rest generalizing a with
    | nil => simp at hl
    | cons b rest2 ih =>
      rw [List.getLast?_cons_cons] at hl
      exact ih b hl

theorem getLast?_append_ne_nil (l1 l2 : List Hit) (h2 : l2 ≠ []) :
    (l1 ++ l2).getLast? = l2.getLast? := by
  induction l1 with
  | nil => rfl
  | cons a rest ih =>
    cases hr : rest ++ l2 with
    | nil =>
      exfalso
      exact h2 (List.append_eq_nil.1 hr).2
    | cons b rest2 =>
      rw [List.cons_append, hr, List.getLast?_cons_cons, ← hr, ih]

/-- In a sequence in which every hit is closer than all hits before it, the
last hit is closer than every other one. -/
theorem pairwise_getLast (hits : List Hit) (h : Hit) (hp : hits.Pairwise Hit.Closer)
    (hl : hits.getLast? = some h) : ∀ a ∈ hits, a = h ∨ a.Closer h := by
  induction hits with
  | nil => simp at hl
  | cons a rest ih =>
    rw [List.pairwise_cons] at hp
    cases rest with
    | nil =>
      simp only [List.getLast?_singleton, Option.some.injEq] at hl
      intro x hx
      simp only [List.mem_singleton] at hx
      exact Or.inl (hx.trans hl)
    | cons b rest2 =>
      rw [List.getLast?_cons_cons] at hl
      intro x hx
      rcases List.mem_cons.1 hx with rfl | hx
      · exact Or.inr (hp.1 h (getLast?_mem_self _ h hl))
      · exact ih hp.2 hl x hx

theorem RayState.Advances.refl (mn : ℚ) (s : RayState) : s.Advances mn [] s :=
  ⟨⟨fun h hh => by simp at hh, List.Pairwise.nil⟩, fun _ => rfl, fun h hh => by simp at hh⟩

theorem RayState.Advances.single (mn : ℚ) (s : RayState) (h : Hit) (d : ℚ)
    (hd : h.distance = .fin d) (h1 : mn < d) (h2 : EFloat.ltOf d s.maxDistance = true) :
    s.Advances mn [h] ⟨true, h.distance, h⟩ := by
  refine ⟨⟨?_, List.pairwise_singleton _ _⟩, fun e => by simp at e, ?_⟩
  · intro x hx
    simp only [List.mem_singleton] at hx
    rw [hx]
    exact ⟨d, hd, h1, h2⟩
  · intro x hx
    simp only [List.getLast?_singleton, Option.some.injEq] at hx
    rw [← hx]

theorem RayState.Advances.trans {mn : ℚ} {s0 s1 s2 : RayState} {l1 l2 : List Hit}
    (a1 : s0.Advances mn l1 s1) (a2 : s1.Advances mn l2 s2) :
    s0.Advances mn (l1 ++ l2) s2 := by
  cases hl1 : l1.getLast? with
  | none =>
    have e := getLast?_eq_none_nil l1 hl1
    subst e
    have e1 := a1.2.1 rfl
    subst e1
    exact a2
  | some x1 =>
    have es1 := a1.2.2 x1 hl1
    by_cases hl2 : l2 = []
    · subst hl2
      have e2 := a2.2.1 rfl
      subst e2
      rw [List.append_nil]
      exact a1
    · obtain ⟨d1, hd1, hmn1, hlt1⟩ := a1.1.1 x1 (getLast?_mem_self _ _ hl1)
      have hbound : ∀ h ∈ l2, ∃ d, h.distance = .fin d ∧ mn < d ∧ d < d1 := by
        intro h hh
        obtain ⟨d, e, m1, m2⟩ := a2.1.1 h hh
        refine ⟨d, e, m1, ?_⟩
        rw [es1] at m2
        simp only [hd1, EFloat.ltOf, decide_eq_true_eq] at m2
        exact m2
      refine ⟨⟨?_, ?_⟩, ?_, ?_⟩
      · intro h hh
        rcases List.mem_append.1 hh with hh | hh
        · exact a1.1.1 h hh
        · obtain ⟨d, e, m1, m2⟩ := hbound h hh
          refine ⟨d, e, m1, EFloat.ltOf_mono (a := .fin d1) ?_ (EFloat.le_of_ltOf hlt1)⟩
          simp only [EFloat.ltOf, decide_eq_true_eq]
          exact m2
      · rw [List.pairwise_append]
        refine ⟨a1.1.2, a2.1.2, ?_⟩
        intro a ha b hb
        obtain ⟨y, ey, _, hy⟩ := hbound b hb
        rcases pairwise_getLast l1 x1 a1.1.2 hl1 a ha with rfl | ⟨x, z, ex, ez, hz⟩
        · exact ⟨d1, y, hd1, ey, hy⟩
        · rw [hd1] at ez
          have : z = d1 := (EFloat.fin.inj ez).symm
          subst this
          exact ⟨x, y, ex, ey, lt_trans hy hz⟩
      · intro e
        exact absurd (List.append_eq_nil.1 e).2 hl2
      · intro h hh
        rw [getLast?_append_ne_nil l1 l2 hl2] at hh
        exact a2.2.2 h hh

/-- A stretch that started without a hit ends in the state the caller
computes from the returned flag and record. -/
theorem RayState.Advances.afterCall_eq {mn : ℚ} {m : EFloat} {hd : Hit} {l : List Hit}
    {s : RayState} (a : (RayState.mk false m hd).Advances mn l s) :
    s = RayState.afterCall m (s.hit, s.hitData) := by
  cases hl : l.getLast? with
  | none =>
    have e := getLast?_eq_none_nil l hl
    rw [a.2.1 e]
    simp [RayState.afterCall]
  | some x =>
    rw [a.2.2 x hl]
    simp [RayState.afterCall]

/-- The flag the stretch started with does not matter. -/
theorem RayState.Advances.with_flag {mn : ℚ} {m : EFloat} {hd : Hit} {l : List Hit}
    {s : RayState} (a : (RayState.mk false m hd).Advances mn l s) (flag : Bool) :
    (RayState.mk flag m hd).Advances mn l ⟨s.hit || flag, s.maxDistance, s.hitData⟩ := by
  refine ⟨a.1, ?_, ?_⟩
  · intro e
    rw [a.2.1 e]
    simp
  · intro h hh
    rw [a.2.2 h hh]
    simp

/-- The loop over the value array, outside occlusion mode. -/
theorem rayValueLoop_advances (ext : Externals) (t : NativeTriTree) (ray : PrecomputedRay)
    (options : IntersectRayOptions) (hocc : options.OCCLUSION_TEST_ONLY = false)
    (data : List Nat) (st : RayState) :
    st.Advances ray.minDistance (rayValueLoopHits ext t ray options data st)
      (rayValueLoop ext t ray options data st).2 := by
  induction data generalizing st with
  | nil => exact RayState.Advances.refl _ _
  | cons i rest ih =>
    unfold rayValueLoopHits rayValueLoop
    simp only [hocc, Bool.false_eq_true, if_false]
    by_cases hr : (rayTriangleIntersection ext ray ray.minDistance st.maxDistance (t.tri i)
        t.m_vertexArray st.hitData options).1 = true
    · rw [if_pos hr, if_pos hr]
      obtain ⟨⟨d, hd1, hd2, hd3⟩, _⟩ := rayTriangleIntersection_true ext ray ray.minDistance
        st.maxDistance (t.tri i) t.m_vertexArray st.hitData options hr
      have hs := RayState.Advances.single ray.minDistance st
        { (rayTriangleIntersection ext ray ray.minDistance st.maxDistance (t.tri i)
            t.m_vertexArray st.hitData options).2 with triIndex := (i : Int) } d hd1 hd2 hd3
      exact RayState.Advances.trans hs (ih _)
    · rw [if_neg hr, if_neg hr]
      have hf : (rayTriangleIntersection ext ray ray.minDistance st.maxDistance (t.tri i)
          t.m_vertexArray st.hitData options).2 = st.hitData :=
        rayTriangleIntersection_false ext ray ray.minDistance st.maxDistance (t.tri i)
          t.m_vertexArray st.hitData options (by simpa using hr)
      rw [hf]
      exact ih _

/-- The block that tests the contents of the node, outside occlusion mode. -/
theorem rayValues_advances (ext : Externals) (t : NativeTriTree) (ray : PrecomputedRay)
    (options : IntersectRayOptions) (hocc : options.OCCLUSION_TEST_ONLY = false)
    (v : Option ValueArray) (st : RayState) :
    st.Advances ray.minDistance (rayValuesHits ext t ray options v st)
      (rayValues ext t ray options v st).2 := by
  unfold rayValuesHits rayValues
  cases v with
  | none => exact RayState.Advances.refl _ _
  | some va =>
    simp only []
    split_ifs
    · exact rayValueLoop_advances ext t ray options hocc va.data st
    · exact RayState.Advances.refl _ _

theorem rayValues_fst_false (ext : Externals) (t : NativeTriTree) (ray : PrecomputedRay)
    (options : IntersectRayOptions) (hocc : options.OCCLUSION_TEST_ONLY = false)
    (v : Option ValueArray) (st : RayState) :
    (rayValues ext t ray options v st).1 = false := by
  have h := rayValues_no_return ext t ray options v st
  have e : ({ options with OCCLUSION_TEST_ONLY := false } : IntersectRayOptions) = options := by
    cases options
    simp only [] at hocc
    subst hocc
    rfl
  rw [e] at h
  exact h

end G3D

namespace G3D

/-- The part of `Node::intersectRay` after the near child, outside occlusion
mode: from the state the near child left, the node's own hits and those of the
far child take the traversal to a state that holds the returned flag and
record. -/
theorem rayAfterNear_advances (ext : Externals) (t : NativeTriTree) (ray : PrecomputedRay)
    (options : IntersectRayOptions) (hocc : options.OCCLUSION_TEST_ONLY = false)
    (l : EFloat) (v : Option ValueArray) (a : Axis) (second : ChildIndex)
    (far0 far1 : EFloat → Hit → Bool × Hit) (farHits0 farHits1 : EFloat → Hit → List Hit)
    (maxD : EFloat) (near : Bool × Hit)
    (h0 : ∀ (m : EFloat) (h : Hit), (RayState.mk false m h).Advances ray.minDistance
      (farHits0 m h) (RayState.afterCall m (far0 m h)))
    (h1 : ∀ (m : EFloat) (h : Hit), (RayState.mk false m h).Advances ray.minDistance
      (farHits1 m h) (RayState.afterCall m (far1 m h))) :
    ∃ s2, (RayState.afterCall maxD near).Advances ray.minDistance
        (rayAfterNearHits ext t ray options l v a second farHits0 farHits1 maxD near) s2 ∧
      rayAfterNear ext t ray options l v a second far0 far1 maxD near =
        (s2.hit, s2.hitData) := by
  unfold rayAfterNearHits rayAfterNear
  simp only [hocc, Bool.false_and, Bool.false_eq_true, if_false]
  have hown := rayValues_advances ext t ray options hocc v
    (RayState.mk near.1 (if near.1 = true then near.2.distance else maxD) near.2)
  have hfst := rayValues_fst_false ext t ray options hocc v
    (RayState.mk near.1 (if near.1 = true then near.2.distance else maxD) near.2)
  generalize rayValues ext t ray options v
    (RayState.mk near.1 (if near.1 = true then near.2.distance else maxD) near.2) = r at *
  generalize rayValuesHits ext t ray options v
    (RayState.mk near.1 (if near.1 = true then near.2.distance else maxD) near.2) = own at *
  rw [hfst]
  simp only [Bool.false_eq_true, if_false]
  cases second with
  | none => exact ⟨r.2, hown, rfl⟩
  | some j =>
    simp only []
    split_ifs
    · exact ⟨r.2, hown, rfl⟩
    · have hj : ∃ (far : Bool × Hit) (farHits : List Hit),
          (RayState.mk false r.2.maxDistance r.2.hitData).Advances ray.minDistance farHits
            (RayState.afterCall r.2.maxDistance far) ∧
          (match j with
            | 0 => far0 r.2.maxDistance r.2.hitData
            | 1 => far1 r.2.maxDistance r.2.hitData) = far ∧
          (match j with
            | 0 => farHits0 r.2.maxDistance r.2.hitData
            | 1 => farHits1 r.2.maxDistance r.2.hitData) = farHits := by
        fin_cases j
        · exact ⟨_, _, h0 _ _, rfl, rfl⟩
        · exact ⟨_, _, h1 _ _, rfl, rfl⟩
      obtain ⟨far, farHits, hadv, e1, e2⟩ := hj
      rw [e1, e2]
      have hflag := hadv.with_flag r.2.hit
      refine ⟨_, RayState.Advances.trans hown hflag, ?_⟩
      simp [RayState.afterCall]

/-- One call of `Node::intersectRay`, outside occlusion mode: the accepted hits
take the state from "no hit, bound `maxD`, record `hd`" to the state the
caller computes from the returned flag and record. -/
theorem Node.intersectRay_advances (ext : Externals) (t : NativeTriTree)
    (ray : PrecomputedRay) (options : IntersectRayOptions)
    (hocc : options.OCCLUSION_TEST_ONLY = false) (n : Node) (maxD : EFloat) (hd : Hit) :
    (RayState.mk false maxD hd).Advances ray.minDistance
      (n.intersectRayHits ext t ray options maxD hd)
      (RayState.afterCall maxD (n.intersectRay ext t ray options maxD hd)) := by
  induction n generalizing maxD hd with
  | leaf b l v =>
    have hown := rayValues_advances ext t ray options hocc v (RayState.mk false maxD hd)
    have hfst := rayValues_fst_false ext t ray options hocc v (RayState.mk false maxD hd)
    unfold Node.intersectRayHits Node.intersectRay
    simp only [hfst, Bool.false_eq_true, if_false]
    rw [← hown.afterCall_eq]
    exact hown
  | inner b l v a c0 c1 ih0 ih1 =>
    rw [Node.intersectRayHits, Node.intersectRay]
    simp only []
    by_cases hb : (!intersect ext ray b maxD) = true
    · rw [if_pos hb, if_pos hb]
      have e : RayState.afterCall maxD (false, hd) = RayState.mk false maxD hd := by
        simp [RayState.afterCall]
      rw [e]
      exact RayState.Advances.refl _ _
    · rw [if_neg hb, if_neg hb]
      have hnear : ∃ (near : Bool × Hit) (nearHits : List Hit),
          (RayState.mk false maxD hd).Advances ray.minDistance nearHits
            (RayState.afterCall maxD near) ∧
          (match (ext.computeTraversalOrder ray b a l).1 with
            | none => (false, hd)
            | some 0 => Node.intersectRay ext t ray options c0 maxD hd
            | some 1 => Node.intersectRay ext t ray options c1 maxD hd) = near ∧
          (match (ext.computeTraversalOrder ray b a l).1 with
            | none => []
            | some 0 => Node.intersectRayHits ext t ray options c0 maxD hd
            | some 1 => Node.intersectRayHits ext t ray options c1 maxD hd) = nearHits := by
        rcases (ext.computeTraversalOrder ray b a l).1 with _ | j
        · refine ⟨(false, hd), [], ?_, rfl, rfl⟩
          have e : RayState.afterCall maxD (false, hd) = RayState.mk false maxD hd := by
            simp [RayState.afterCall]
          rw [e]
          exact RayState.Advances.refl _ _
        · fin_cases j
          · exact ⟨_, _, ih0 maxD hd, rfl, rfl⟩
          · exact ⟨_, _, ih1 maxD hd, rfl, rfl⟩
      obtain ⟨near, nearHits, hadv, e1, e2⟩ := hnear
      rw [e1, e2]
      obtain ⟨s2, hafter, hres⟩ := rayAfterNear_advances ext t ray options hocc l v a
        (ext.computeTraversalOrder ray b a l).2
        (Node.intersectRay ext t ray options c0) (Node.intersectRay ext t ray options c1)
        (Node.intersectRayHits ext t ray options c0) (Node.intersectRayHits ext t ray options c1)
        maxD near (fun m h => ih0 m h) (fun m h => ih1 m h)
      have htot := RayState.Advances.trans hadv hafter
      rw [hres, ← htot.afterCall_eq]
      exact htot

end G3D

namespace G3D

/-! ## Binary32 rounding -/

namespace Float32

theorem pow2_pos (e : Int) : 0 < pow2 e := by
  unfold pow2; positivity

theorem pow2_le {a b : Int} (h : a ≤ b) : pow2 a ≤ pow2 b := by
  unfold pow2
  exact zpow_le_zpow_right₀ (by norm_num) h

theorem pow2_natCast (n : Nat) : pow2 (n : Int) = (2 : ℚ) ^ n := by
  unfold pow2
  exact zpow_natCast 2 n

theorem pow2_neg_natCast (n : Nat) : pow2 (-(n : Int)) = 1 / (2 : ℚ) ^ n := by
  unfold pow2
  rw [zpow_neg, zpow_natCast, one_div]

theorem pow2_sub_natCast (a b : Nat) : pow2 ((a : Int) - (b : Int)) = (2 : ℚ) ^ a / 2 ^ b := by
  unfold pow2
  rw [zpow_sub₀ (by norm_num : (2 : ℚ) ≠ 0), zpow_natCast, zpow_natCast]

theorem pow2_succ (e : Int) : pow2 (e + 1) = 2 * pow2 e := by
  unfold pow2
  rw [zpow_add_one₀ (by norm_num : (2 : ℚ) ≠ 0)]
  ring

/-- The halving count is the binary logarithm, rounded down. -/
theorem log2Aux_spec (fuel n : Nat) (hn : 1 ≤ n) (hf : n ≤ fuel) :
    2 ^ log2Aux fuel n ≤ n ∧ n < 2 ^ (log2Aux fuel n + 1) := by
  induction fuel generalizing n with
  | zero => omega
  | succ fuel ih =>
    unfold log2Aux
    by_cases h : 2 ≤ n
    · rw [if_pos h]
      obtain ⟨h1, h2⟩ := ih (n / 2) (by omega) (by omega)
      constructor
      · rw [pow_succ]
        omega
      · rw [pow_succ]
        omega
    · rw [if_neg h]
      have : n = 1 := by omega
      subst this
      norm_num

theorem log2_spec (n : Nat) (hn : 1 ≤ n) : 2 ^ log2 n ≤ n ∧ n < 2 ^ (log2 n + 1) :=
  log2Aux_spec n n hn le_rfl

theorem div_lt_two_mul_div (n d P Q : ℚ) (hd : 0 < d) (hP : 0 < P) (hQ : 0 < Q)
    (a2 : n < 2 * P) (b1 : Q ≤ d) : n / d < 2 * (P / Q) := by
  rw [div_lt_iff₀ hd]
  have h1 : (1 : ℚ) ≤ d / Q := by rw [le_div_iff₀ hQ]; linarith
  calc n < 2 * P := a2
    _ = 2 * P * 1 := by ring
    _ ≤ 2 * P * (d / Q) := by apply mul_le_mul_of_nonneg_left h1; positivity
    _ = 2 * (P / Q) * d := by field_simp

theorem div_two_mul_le_div (n d P Q : ℚ) (hd : 0 < d) (hP : 0 < P) (hQ : 0 < Q)
    (a1 : P ≤ n) (b2 : d < 2 * Q) : P / (2 * Q) ≤ n / d := by
  rw [div_le_div_iff₀ (by positivity) hd]
  have : P * d ≤ n * d := mul_le_mul_of_nonneg_right a1 hd.le
  have h2 : n * d ≤ n * (2 * Q) := mul_le_mul_of_nonneg_left b2.le (by linarith)
  linarith

/-- The binade of a quotient of two naturals, from their binary logarithms. -/
theorem binade_of_div (n d a b : Nat) (x : ℚ) (hd : 0 < d) (hx : x = (n : ℚ) / (d : ℚ))
    (a1 : 2 ^ a ≤ n) (a2 : n < 2 ^ (a + 1)) (b1 : 2 ^ b ≤ d) (b2 : d < 2 ^ (b + 1)) :
    x < pow2 ((a : Int) - (b : Int) + 1) ∧ pow2 ((a : Int) - (b : Int) - 1) ≤ x := by
  have a1q : (2 : ℚ) ^ a ≤ (n : ℚ) := by exact_mod_cast a1
  have a2q : (n : ℚ) < 2 * 2 ^ a := by
    have : (n : ℚ) < 2 ^ (a + 1) := by exact_mod_cast a2
    rw [pow_succ] at this
    linarith
  have b1q : (2 : ℚ) ^ b ≤ (d : ℚ) := by exact_mod_cast b1
  have b2q : (d : ℚ) < 2 * 2 ^ b := by
    have : (d : ℚ) < 2 ^ (b + 1) := by exact_mod_cast b2
    rw [pow_succ] at this
    linarith
  have hdq : (0 : ℚ) < (d : ℚ) := by exact_mod_cast hd
  have hP : (0 : ℚ) < 2 ^ a := by positivity
  have hQ : (0 : ℚ) < 2 ^ b := by positivity
  constructor
  · rw [pow2_succ, pow2_sub_natCast, hx]
    exact div_lt_two_mul_div _ _ _ _ hdq hP hQ a2q b1q
  · have e : (a : Int) - (b : Int) - 1 = ((a : Nat) : Int) - ((b + 1 : Nat) : Int) := by
      push_cast; ring
    rw [e, pow2_sub_natCast, hx, pow_succ, mul_comm ((2 : ℚ) ^ b) 2]
    exact div_two_mul_le_div _ _ _ _ hdq hP hQ a1q b2q

/-- The binade of a positive number. -/
theorem floorLog2_spec (x : ℚ) (hx : 0 < x) :
    pow2 (floorLog2 x) ≤ x ∧ x < pow2 (floorLog2 x + 1) := by
  have hnum : 0 < x.num := Rat.num_pos.2 hx
  have hden : 0 < x.den := x.den_pos
  have hnat : ((x.num.natAbs : Nat) : Int) = x.num := Int.natAbs_of_nonneg hnum.le
  have hn1 : 1 ≤ x.num.natAbs := by omega
  obtain ⟨a1, a2⟩ := log2_spec x.num.natAbs hn1
  obtain ⟨b1, b2⟩ := log2_spec x.den hden
  have hxq : x = (x.num.natAbs : ℚ) / (x.den : ℚ) := by
    have h1 : ((x.num.natAbs : Nat) : ℚ) = (x.num : ℚ) :=
      calc ((x.num.natAbs : Nat) : ℚ) = (((x.num.natAbs : Nat) : Int) : ℚ) :=
            (Int.cast_natCast _).symm
        _ = (x.num : ℚ) := by rw [hnat]
    rw [h1]
    exact (Rat.num_div_den x).symm
  obtain ⟨k1, k2⟩ := binade_of_div x.num.natAbs x.den (log2 x.num.natAbs) (log2 x.den) x hden
    hxq a1 a2 b1 b2
  have habs : |x| = x := abs_of_pos hx
  unfold floorLog2
  rw [habs]
  by_cases h : pow2 ((log2 x.num.natAbs : Int) - (log2 x.den : Int)) ≤ x
  · rw [if_pos h]
    exact ⟨h, k1⟩
  · rw [if_neg h]
    refine ⟨k2, ?_⟩
    have e : (log2 x.num.natAbs : Int) - (log2 x.den : Int) - 1 + 1 =
        (log2 x.num.natAbs : Int) - (log2 x.den : Int) := by ring
    rw [e]
    exact not_le.1 h

theorem roundHalfEven_ge (q : ℚ) : q - 1 / 2 ≤ (roundHalfEven q : ℚ) := by
  have h1 := Int.floor_le q
  have h2 := Int.lt_floor_add_one q
  unfold roundHalfEven
  split_ifs with a b c
  · linarith
  · push_cast; linarith
  · linarith
  · push_cast; linarith

theorem roundHalfEven_le (q : ℚ) : (roundHalfEven q : ℚ) ≤ q + 1 / 2 := by
  have h1 := Int.floor_le q
  have h2 := Int.lt_floor_add_one q
  unfold roundHalfEven
  split_ifs with a b c
  · linarith
  · push_cast; linarith
  · linarith
  · push_cast; linarith

theorem roundHalfEven_intCast (m : Int) : roundHalfEven (m : ℚ) = m := by
  unfold roundHalfEven
  simp

/-- The rounding of a number `x` of `[1, 2^24)`: with `2^j` the number of
binary32 steps per unit in the binade of `x`, `round x` is the integer nearest
to `x * 2^j`, divided by `2^j`. -/
theorem round_spec (x : ℚ) (h1 : 1 ≤ x) (h2 : x < 2 ^ 24) :
    ∃ j : Nat, j ≤ 23 ∧ (2 : ℚ) ^ 23 ≤ x * 2 ^ j ∧ x * 2 ^ j < 2 ^ 24 ∧
      round x = (roundHalfEven (x * 2 ^ j) : ℚ) / 2 ^ j := by
  obtain ⟨hlo, hhi⟩ := floorLog2_spec x (by linarith)
  have he0 : 0 ≤ floorLog2 x := by
    by_contra hneg
    have hlt : floorLog2 x + 1 ≤ 0 := by omega
    have := pow2_le hlt
    have h0 : pow2 0 = 1 := by unfold pow2; simp
    rw [h0] at this
    linarith
  have he23 : floorLog2 x ≤ 23 := by
    by_contra hbig
    have hge : (24 : Int) ≤ floorLog2 x := by omega
    have := pow2_le hge
    have h24 : pow2 24 = (2 : ℚ) ^ 24 := pow2_natCast 24
    rw [h24] at this
    linarith
  have hexp : exponent x = floorLog2 x := by
    unfold exponent
    rw [min_eq_right (by omega), max_eq_right (by omega)]
  obtain ⟨k, hk⟩ := Int.eq_ofNat_of_zero_le he0
  have hk23 : k ≤ 23 := by omega
  refine ⟨23 - k, by omega, ?_, ?_, ?_⟩
  · rw [hk, pow2_natCast] at hlo
    have : (2 : ℚ) ^ 23 = 2 ^ k * 2 ^ (23 - k) := by
      rw [← pow_add]; congr 1; omega
    rw [this]
    exact mul_le_mul_of_nonneg_right hlo (by positivity)
  · have e1 : floorLog2 x + 1 = ((k + 1 : Nat) : Int) := by rw [hk]; push_cast; ring
    rw [e1, pow2_natCast] at hhi
    have : (2 : ℚ) ^ 24 = 2 ^ (k + 1) * 2 ^ (23 - k) := by
      rw [← pow_add]; congr 1; omega
    rw [this]
    exact mul_lt_mul_of_pos_right hhi (by positivity)
  · unfold round ulp
    rw [hexp, hk]
    have e2 : ((k : Nat) : Int) - 23 = -(((23 - k : Nat)) : Int) := by omega
    rw [e2, pow2_neg_natCast]
    have hp : (0 : ℚ) < 2 ^ (23 - k) := by positivity
    rw [div_div_eq_mul_div, div_one, mul_one_div]

/-- Every integer below `2^24` is a binary32 number. -/
theorem round_natCast (n : Nat) (h : n < 2 ^ 24) : round (n : ℚ) = n := by
  rcases Nat.eq_zero_or_pos n with h0 | hpos
  · subst h0
    decide!
  · have h1 : (1 : ℚ) ≤ n := by exact_mod_cast hpos
    have h2 : (n : ℚ) < 2 ^ 24 := by exact_mod_cast h
    obtain ⟨j, _, _, _, hr⟩ := round_spec n h1 h2
    rw [hr]
    have : ((n : ℚ) * 2 ^ j) = (((n * 2 ^ j : Nat) : Int) : ℚ) := by push_cast; ring
    rw [this, roundHalfEven_intCast]
    push_cast
    field_simp

/-- The binary32 literal `1.8f`. -/
theorem round_nine_fifths : round (9 / 5) = 7549747 / 4194304 := by decide!

/-- The binary32 product `n * 1.8f`, for `n` up to 4660337 (the product is
below `2^23`), lies in the same unit interval `[⌊9n/5⌋, ⌊9n/5⌋ + 1)` as the
exact product `1.8 * n`. -/
theorem round_product_general (n : Nat) (h1 : 1 ≤ n) (h2 : n ≤ 4660337) :
    ((9 * n / 5 : Nat) : ℚ) ≤ round ((n : ℚ) * (7549747 / 4194304)) ∧
    round ((n : ℚ) * (7549747 / 4194304)) < ((9 * n / 5 : Nat) : ℚ) + 1 := by
  have hn1 : (1 : ℚ) ≤ n := by exact_mod_cast h1
  have hn2 : (n : ℚ) ≤ 4660337 := by exact_mod_cast h2
  have hx1 : (1 : ℚ) ≤ (n : ℚ) * (7549747 / 4194304) := by linarith
  have hx2 : (n : ℚ) * (7549747 / 4194304) < 2 ^ 23 := by norm_num; linarith
  have hx3 : (n : ℚ) * (7549747 / 4194304) < 2 ^ 24 := by
    have : (2 : ℚ) ^ 23 ≤ 2 ^ 24 := by norm_num
    linarith
  obtain ⟨j, _, hlo, hhi, hr⟩ := round_spec _ hx1 hx3
  have hge := roundHalfEven_ge ((n : ℚ) * (7549747 / 4194304) * 2 ^ j)
  have hle := roundHalfEven_le ((n : ℚ) * (7549747 / 4194304) * 2 ^ j)
  -- the number of steps per unit is at least two
  have hN2 : (2 : ℚ) ≤ 2 ^ j := by
    rcases Nat.eq_zero_or_pos j with h0 | hpos
    · subst h0
      simp only [pow_zero, mul_one] at hlo
      linarith
    · calc (2 : ℚ) = 2 ^ 1 := by norm_num
        _ ≤ 2 ^ j := pow_le_pow_right₀ (by norm_num) hpos
  have hNpos : (0 : ℚ) < 2 ^ j := by positivity
  -- the bounds of the integer quotient, scaled
  have hK1 : 5 * (9 * n / 5) ≤ 9 * n := Nat.mul_div_le (9 * n) 5
  have hK2 : 9 * n < 5 * (9 * n / 5) + 5 := by
    have := Nat.lt_div_mul_add (a := 9 * n) (b := 5) (by norm_num)
    omega
  have hK1q : (5 : ℚ) * ((9 * n / 5 : Nat) : ℚ) ≤ 9 * (n : ℚ) := by exact_mod_cast hK1
  have hK2q : (9 : ℚ) * (n : ℚ) ≤ 5 * ((9 * n / 5 : Nat) : ℚ) + 4 := by
    have : 9 * n ≤ 5 * (9 * n / 5) + 4 := by omega
    exact_mod_cast this
  have hKN1 : (5 : ℚ) * (((9 * n / 5 : Nat) : ℚ) * 2 ^ j) ≤ 9 * ((n : ℚ) * 2 ^ j) := by
    have := mul_le_mul_of_nonneg_right hK1q hNpos.le
    linarith
  have hKN2 : (9 : ℚ) * ((n : ℚ) * 2 ^ j) ≤ 5 * (((9 * n / 5 : Nat) : ℚ) * 2 ^ j) + 4 * 2 ^ j := by
    have := mul_le_mul_of_nonneg_right hK2q hNpos.le
    linarith
  have hxN : (n : ℚ) * (7549747 / 4194304) * 2 ^ j =
      (7549747 / 4194304) * ((n : ℚ) * 2 ^ j) := by ring
  rw [hxN] at hlo hhi hge hle
  rw [hr, hxN]
  generalize 9 * n / 5 = K at *
  generalize roundHalfEven ((7549747 / 4194304) * ((n : ℚ) * 2 ^ j)) = m at *
  -- the rounded integer lies in [K N, (K + 1) N)
  have hm1 : (((K : Int) * (2 ^ j : Nat) - 1 : Int) : ℚ) < (m : ℚ) := by
    push_cast
    norm_num at hlo hhi ⊢
    linarith
  have hm1i : (K : Int) * (2 ^ j : Nat) ≤ m := by
    have : (K : Int) * (2 ^ j : Nat) - 1 < m := by exact_mod_cast hm1
    omega
  have hm1q : (K : ℚ) * 2 ^ j ≤ (m : ℚ) := by
    have : (((K : Int) * (2 ^ j : Nat) : Int) : ℚ) ≤ (m : ℚ) := by exact_mod_cast hm1i
    push_cast at this
    exact this
  constructor
  · rw [le_div_iff₀ hNpos]
    exact hm1q
  · rw [div_lt_iff₀ hNpos]
    norm_num at hlo hhi ⊢
    linarith

/-- The binary32 product `n * 1.8f`, for `n` up to 4660340, lies in the same
unit interval `[⌊9n/5⌋, ⌊9n/5⌋ + 1)` as the exact product `1.8 * n`. -/
theorem round_product (n : Nat) (h1 : 1 ≤ n) (h2 : n ≤ 4660340) :
    ((9 * n / 5 : Nat) : ℚ) ≤ round ((n : ℚ) * (7549747 / 4194304)) ∧
    round ((n : ℚ) * (7549747 / 4194304)) < ((9 * n / 5 : Nat) : ℚ) + 1 := by
  by_cases h : n ≤ 4660337
  · exact round_product_general n h1 h
  · have h3 : n = 4660338 ∨ n = 4660339 ∨ n = 4660340 := by omega
    rcases h3 with rfl | rfl | rfl
    · have e : round (((4660338 : Nat) : ℚ) * (7549747 / 4194304)) = 8388608 := by decide!
      rw [e]; norm_num
    · have e : round (((4660339 : Nat) : ℚ) * (7549747 / 4194304)) = 8388610 := by decide!
      rw [e]; norm_num
    · have e : round (((4660340 : Nat) : ℚ) * (7549747 / 4194304)) = 8388612 := by decide!
      rw [e]; norm_num

/-- For `n` up to 4660340 an integer exceeds the binary32 product `n * 1.8f`
exactly when it exceeds `1.8 * n`. -/
theorem gt_round_product_iff (n s : Nat) (h2 : n ≤ 4660340) :
    (s : ℚ) > round (round (n : ℚ) * round (9 / 5)) ↔ 5 * s > 9 * n := by
  rw [round_nine_fifths, round_natCast n (by norm_num; omega)]
  rcases Nat.eq_zero_or_pos n with h0 | hpos
  · subst h0
    have e : round (((0 : Nat) : ℚ) * (7549747 / 4194304)) = 0 := by decide!
    rw [e]
    constructor
    · intro h
      have : 0 < s := by exact_mod_cast h
      omega
    · intro h
      have : 0 < s := by omega
      exact_mod_cast this
  · obtain ⟨hlo, hhi⟩ := round_product n hpos h2
    have hK1 : 5 * (9 * n / 5) ≤ 9 * n := Nat.mul_div_le (9 * n) 5
    have hK2 : 9 * n < 5 * (9 * n / 5) + 5 := by
      have := Nat.lt_div_mul_add (a := 9 * n) (b := 5) (by norm_num)
      omega
    constructor
    · intro h
      have h3 : ((9 * n / 5 : Nat) : ℚ) < (s : ℚ) := lt_of_le_of_lt hlo h
      have h4 : 9 * n / 5 < s := by exact_mod_cast h3
      omega
    · intro h
      have h4 : 9 * n / 5 + 1 ≤ s := by omega
      have h5 : ((9 * n / 5 : Nat) : ℚ) + 1 ≤ (s : ℚ) := by exact_mod_cast h4
      exact lt_of_lt_of_le hhi h5

end Float32
end G3D

namespace G3D

/-! ## Claims about `badSplit`, the constructor and `Node::split` -/

/-- C11, as stated, fails: for `n = 4660341` and `lo = hi = 4194307` (both
within `0 <= lo, hi <= n`, neither 0 nor `n`) the sum `lo + hi = 8388614`
exceeds `1.8 * n = 8388613.8`, but the binary32 product `n * 1.8f` rounds up
to 8388614, the comparison `8388614 > 8388614.0f` is false, and `badSplit`
returns false. -/
theorem badSplit_rounds_product :
    (4194307 : Nat) ≤ 4660341 ∧ (4194307 : Nat) ≠ 0 ∧ (4194307 : Nat) ≠ 4660341 ∧
    (((4194307 : Nat) : ℚ) + ((4194307 : Nat) : ℚ) > (18 / 10) * ((4660341 : Nat) : ℚ)) ∧
    Float32.round (9 / 5) = 7549747 / 4194304 ∧
    Float32.round (Float32.round ((4660341 : Nat) : ℚ) * Float32.round (9 / 5)) = 8388614 ∧
    Float32.round (((4194307 + 4194307 : Nat) : ℚ)) = 8388614 ∧
    badSplit 4660341 4194307 4194307 = false :=
  ⟨by decide, by decide, by decide, by decide!, by decide!, by decide!, by decide!,
    by decide!⟩

/-- C11, amended: for all counts `n`, `lo`, `hi` with `0 <= lo <= n`,
`0 <= hi <= n` and `n <= 4660340`, `badSplit n lo hi` is true if and only if
`lo = 0`, or `hi = 0`, or `lo = n`, or `hi = n`, or `lo + hi` exceeds 1.8
times `n`: up to that `n` the binary32 product `n * 1.8f` lies between the
same two integers as `1.8 * n`. -/
theorem badSplit_iff (n lo hi : Nat) (hlo : lo ≤ n) (hhi : hi ≤ n) (hn : n ≤ 4660340) :
    badSplit n lo hi = true ↔
      (lo = 0 ∨ hi = 0 ∨ lo = n ∨ hi = n ∨ ((lo : ℚ) + (hi : ℚ) > (18 / 10) * (n : ℚ))) := by
  have key : ((lo : ℚ) + (hi : ℚ) > (18 / 10) * (n : ℚ)) ↔ 5 * (lo + hi) > 9 * n := by
    constructor
    · intro h
      have h2 : (9 : ℚ) * n < 5 * ((lo : ℚ) + hi) := by linarith
      exact_mod_cast h2
    · intro h
      have h2 : (9 : ℚ) * n < 5 * ((lo : ℚ) + hi) := by exact_mod_cast h
      linarith
  have hsum : Float32.round ((lo + hi : Nat) : ℚ) = ((lo + hi : Nat) : ℚ) :=
    Float32.round_natCast (lo + hi) (by norm_num; omega)
  have hfl := Float32.gt_round_product_iff n (lo + hi) hn
  unfold badSplit
  rw [hsum, key]
  simp only [Bool.or_eq_true, beq_iff_eq, decide_eq_true_eq]
  rw [hfl]
  constructor
  · rintro ((((h | h) | h) | h) | h)
    · exact Or.inl h
    · exact Or.inr (Or.inl h)
    · exact Or.inr (Or.inr (Or.inl h))
    · exact Or.inr (Or.inr (Or.inr (Or.inl h)))
    · exact Or.inr (Or.inr (Or.inr (Or.inr h)))
  · rintro (h | h | h | h | h)
    · exact Or.inl (Or.inl (Or.inl (Or.inl h)))
    · exact Or.inl (Or.inl (Or.inl (Or.inr h)))
    · exact Or.inl (Or.inl (Or.inr h))
    · exact Or.inl (Or.inr h)
    · exact Or.inr h

/-- Witness for C11 (amended): with `n = 10`, nine low and nine high
candidates are accepted (`18` does not exceed `1.8 * 10`), nine and ten are
rejected; at the last `n` of the range, `n = 4660340`, `lo = hi = 4194307` are
rejected, as `8388614 > 1.8 * 4660340 = 8388612`. -/
theorem badSplit_iff_witness :
    badSplit 10 9 9 = false ∧ badSplit 10 9 10 = true ∧
    badSplit 4660340 4194307 4194307 = true ∧
    ((9 : Nat) ≤ 10 ∧ (9 : Nat) ≤ 10 ∧ (10 : Nat) ≤ 4660340) ∧
    (badSplit 10 9 9 = true ↔
      ((9 : Nat) = 0 ∨ (9 : Nat) = 0 ∨ (9 : Nat) = 10 ∨ (9 : Nat) = 10 ∨
        (((9 : Nat) : ℚ) + ((9 : Nat) : ℚ) > (18 / 10) * ((10 : Nat) : ℚ)))) :=
  ⟨by decide!, by decide!, by decide!, by decide,
    badSplit_iff 10 9 9 (by decide) (by decide) (by decide)⟩

/-- C12: for every non-empty candidate array whose size is at most
`settings.valuesPerLeaf`, the constructor makes a leaf (no children, split
location 0) whose bounds are the union of the candidates' extents (the least
box that contains the extent of every candidate) and whose value array holds
exactly the candidates' source triangles, one entry per candidate in input
order, with the same bounds. -/
theorem build_small_is_leaf (settings : Settings) (fuel : Nat) (originals : List Poly)
    (hne : originals ≠ []) (hsmall : (originals.length : Int) ≤ settings.valuesPerLeaf) :
    Node.build settings (fuel + 1) originals =
      some (.leaf (Poly.computeBounds originals) (.fin 0)
        (some ⟨originals.map Poly.source, Poly.computeBounds originals⟩)) ∧
    (∀ p ∈ originals, (Poly.computeBounds originals).contains p.box) ∧
    (∀ c : AABox, (∀ p ∈ originals, c.contains p.box) →
      c.contains (Poly.computeBounds originals)) := by
  refine ⟨?_, computeBounds_contains_mem originals, fun c hc =>
    computeBounds_least originals c hne hc⟩
  unfold Node.build
  simp only [if_pos hsmall]
  rw [setValueArray_eq originals hne]

/-- Witness for C12: the single candidate made of the triangle of `edgeTree`,
with a leaf threshold of four. -/
theorem build_small_is_leaf_witness :
    edgeSource ≠ [] ∧ (edgeSource.length : Int) ≤ meanExtentSettings.valuesPerLeaf ∧
    Node.build meanExtentSettings 1 edgeSource =
      some (.leaf ⟨⟨0, 0, 0⟩, ⟨1, 1, 0⟩⟩ (.fin 0) (some ⟨[0], ⟨⟨0, 0, 0⟩, ⟨1, 1, 0⟩⟩⟩)) ∧
    (Node.build meanExtentSettings (0 + 1) edgeSource =
      some (.leaf (Poly.computeBounds edgeSource) (.fin 0)
        (some ⟨edgeSource.map Poly.source, Poly.computeBounds edgeSource⟩)) ∧
    (∀ p ∈ edgeSource, (Poly.computeBounds edgeSource).contains p.box) ∧
    (∀ c : AABox, (∀ p ∈ edgeSource, c.contains p.box) →
      c.contains (Poly.computeBounds edgeSource))) :=
  ⟨by decide!, by decide!, by decide!,
    build_small_is_leaf meanExtentSettings 0 edgeSource (by decide!) (by decide!)⟩

end G3D

namespace G3D

/-- C13: for every candidate array larger than the leaf threshold, if the
split along each of the three preferred axes is rejected by `badSplit`, the
constructor makes a leaf (no children) whose value array holds the source
triangle of every input candidate: the same multiset as the input, in the
order in which the last `chooseSplitLocation` left the candidates. -/
theorem build_all_bad_is_leaf (settings : Settings) (fuel : Nat) (originals : List Poly)
    (hbig : ¬ (originals.length : Int) ≤ settings.valuesPerLeaf)
    (h0 : (Node.firstTrial (Poly.computeBounds originals) settings originals).map
      SplitTrial.bad = some true)
    (h1 : (Node.secondTrial (Poly.computeBounds originals) settings originals).map
      SplitTrial.bad = some true)
    (h2 : (Node.thirdTrial (Poly.computeBounds originals) settings originals).map
      SplitTrial.bad = some true) :
    ∃ t2, Node.thirdTrial (Poly.computeBounds originals) settings originals = some t2 ∧
      Node.build settings (fuel + 1) originals =
        some (.leaf (Poly.computeBounds originals) t2.splitLocation
          (setValueArray t2.original)) ∧
      (valuesOf (setValueArray t2.original)).Perm (originals.map Poly.source) := by
  simp only [Option.map_eq_some'] at h0 h1 h2
  obtain ⟨t0, e0, b0⟩ := h0
  obtain ⟨t1, e1, b1⟩ := h1
  obtain ⟨t2, e2, b2⟩ := h2
  refine ⟨t2, e2, ?_, ?_⟩
  · unfold Node.build
    simp only [if_neg hbig]
    rw [Node.split_third _ settings originals t0 t1 t2 e0 b0 e1 b1 e2, if_pos b2]
  · rw [valuesOf_setValueArray]
    apply List.Perm.map
    have p0 := Node.splitTrial_perm _ _ _ _ t0 e0
    rw [Node.secondTrial_eq _ settings originals t0 e0] at e1
    have p1 := Node.splitTrial_perm _ _ _ _ t1 e1
    have e1b : Node.secondTrial (Poly.computeBounds originals) settings originals = some t1 := by
      rw [Node.secondTrial_eq _ settings originals t0 e0]; exact e1
    rw [Node.thirdTrial_eq _ settings originals t1 e1b] at e2
    have p2 := Node.splitTrial_perm _ _ _ _ t2 e2
    exact (p2.trans p1).trans p0

/-- Witness for C13: the five identical candidates of `stackTree` under the
mean-extent split: no axis separates them, and the node is a leaf holding all
five. -/
theorem build_all_bad_is_leaf_witness :
    Node.build meanExtentSettings 1 stackSource =
      some (.leaf ⟨⟨0, 0, 0⟩, ⟨1, 1, 0⟩⟩ (.fin 0)
        (some ⟨[0, 1, 2, 3, 4], ⟨⟨0, 0, 0⟩, ⟨1, 1, 0⟩⟩⟩)) ∧
    ∃ t2, Node.thirdTrial (Poly.computeBounds stackSource) meanExtentSettings stackSource
        = some t2 ∧
      Node.build meanExtentSettings (0 + 1) stackSource =
        some (.leaf (Poly.computeBounds stackSource) t2.splitLocation
          (setValueArray t2.original)) ∧
      (valuesOf (setValueArray t2.original)).Perm (stackSource.map Poly.source) :=
  ⟨by decide!,
    build_all_bad_is_leaf meanExtentSettings 0 stackSource (by decide!) (by decide!)
      (by decide!) (by decide!)⟩

/-- C14: for every node bounding box (a box with `low <= high`), the three
axes that `Node::split` tries are a permutation of X, Y, Z in order of
non-increasing box extent (longest first), and a later axis is tried only if
the split along every earlier axis was rejected by `badSplit`: an accepted
first split is the outcome; an accepted second split is the outcome only after
a rejected first; the third trial decides only after two rejections, giving
its split when accepted and a leaf when rejected. -/
theorem split_axis_order (bounds : AABox) (hb : bounds.low.le bounds.high)
    (settings : Settings) (original : List Poly) :
    [(Node.preferredAxis bounds).1, (Node.preferredAxis bounds).2.1,
      (Node.preferredAxis bounds).2.2].Perm [Axis.X, Axis.Y, Axis.Z] ∧
    bounds.extent.get (Node.preferredAxis bounds).2.1 ≤
      bounds.extent.get (Node.preferredAxis bounds).1 ∧
    bounds.extent.get (Node.preferredAxis bounds).2.2 ≤
      bounds.extent.get (Node.preferredAxis bounds).2.1 ∧
    (∀ t0, Node.firstTrial bounds settings original = some t0 → t0.bad = false →
      Node.split bounds original settings =
        some (.children t0.splitLocation (Node.preferredAxis bounds).1 t0.arrays)) ∧
    (∀ t0 t1, Node.firstTrial bounds settings original = some t0 → t0.bad = true →
      Node.secondTrial bounds settings original = some t1 → t1.bad = false →
      Node.split bounds original settings =
        some (.children t1.splitLocation (Node.preferredAxis bounds).2.1 t1.arrays)) ∧
    (∀ t0 t1 t2, Node.firstTrial bounds settings original = some t0 → t0.bad = true →
      Node.secondTrial bounds settings original = some t1 → t1.bad = true →
      Node.thirdTrial bounds settings original = some t2 →
      Node.split bounds original settings =
        some (if t2.bad then .leaf t2.splitLocation t2.original
          else .children t2.splitLocation (Node.preferredAxis bounds).2.2 t2.arrays)) :=
  ⟨Node.preferredAxis_perm bounds, (Node.preferredAxis_ordered bounds hb).1,
    (Node.preferredAxis_ordered bounds hb).2,
    fun t0 h0 b0 => Node.split_first bounds settings original t0 h0 b0,
    fun t0 t1 h0 b0 h1 b1 => Node.split_second bounds settings original t0 t1 h0 b0 h1 b1,
    fun t0 t1 t2 h0 b0 h1 b1 h2 =>
      Node.split_third bounds settings original t0 t1 t2 h0 b0 h1 b1 h2⟩

/-- Witness for C14: the bounds `(0,0,0)..(5,1,0)` of the candidates of
`straddleTree`, whose axes are tried in the order X, Y, Z. -/
theorem split_axis_order_witness :
    (AABox.mk ⟨0, 0, 0⟩ ⟨5, 1, 0⟩).low.le (AABox.mk ⟨0, 0, 0⟩ ⟨5, 1, 0⟩).high ∧
    Node.preferredAxis ⟨⟨0, 0, 0⟩, ⟨5, 1, 0⟩⟩ = (Axis.X, Axis.Y, Axis.Z) ∧
    [(Node.preferredAxis ⟨⟨0, 0, 0⟩, ⟨5, 1, 0⟩⟩).1,
      (Node.preferredAxis ⟨⟨0, 0, 0⟩, ⟨5, 1, 0⟩⟩).2.1,
      (Node.preferredAxis ⟨⟨0, 0, 0⟩, ⟨5, 1, 0⟩⟩).2.2].Perm [Axis.X, Axis.Y, Axis.Z] :=
  ⟨by decide!, by decide!,
    (split_axis_order ⟨⟨0, 0, 0⟩, ⟨5, 1, 0⟩⟩ (by decide!) meanExtentSettings []).1⟩

/-- C15, as stated, fails: in the tree built from `straddleTree` with the
mean-extent split the root is an internal node (it has two children) and its
own value array is not empty: with a maximum area fraction of 1/2 it holds the
two fragments of the straddling triangle 4, with a maximum area fraction of
1/100 it holds triangle 4 whole. -/
theorem rebuild_inner_node_holds_values :
    rootSummary (settingsArea (1 / 2)) straddleTree =
      some (some (false, [4, 4], [0, 1, 2, 3])) ∧
    rootSummary (settingsArea (1 / 100)) straddleTree =
      some (some (false, [4], [0, 1, 2, 3])) :=
  ⟨by decide!, by decide!⟩

/-- C15, amended: in every built tree a node is either a leaf, with a
populated value array and no children, or an internal node with exactly two
children; an internal node may hold triangle references of its own (the span
array of its split). Here: `rebuild` succeeds and every leaf of the built tree
has a non-empty value array. -/
theorem rebuild_leaves_populated (settings : Settings) (t : NativeTriTree) :
    ∃ t1, t.rebuild settings = some t1 ∧
      ∀ root, t1.m_root = some root → root.LeavesPopulated := by
  obtain ⟨t1, h1, _, _, h4⟩ := rebuild_spec settings t
  refine ⟨t1, h1, ?_⟩
  intro root hroot
  rcases h4 with ⟨_, hnone⟩ | ⟨hne, root1, hr, hb⟩
  · rw [hnone] at hroot; cases hroot
  · have e : root = root1 := Option.some.inj (hroot.symm.trans hr)
    rw [e]
    exact Node.build_leavesPopulated settings _ _ root1 hb hne

end G3D

namespace G3D

/-- C16: for every Poly, axis, location and maxArea, `Poly::split` appends the
Poly to `lowOut` exactly when it lies entirely below the plane
(`high[axis] <= location`), to `highOut` exactly when it does not and lies
entirely above (`low[axis] >= location`), and leaves `spanOut` alone in both
cases; for a straddling Poly it appends to `spanOut` the whole unmodified Poly,
once, when the triangle's area exceeds `maxArea`, and otherwise a low fragment
(upper extent clipped to the plane) and a high fragment (lower extent clipped
to the plane), both with the Poly's source triangle. `lowOut` and `highOut`
never receive a straddling Poly or a fragment. -/
theorem split_classification (p : Poly) (axis : Axis) (offset : EFloat) (maxArea : ℚ)
    (out : SplitArrays) :
    (p.split axis offset maxArea out).lowArray =
      out.lowArray ++ (if EFloat.leOf (p.high.get axis) offset = true then [p] else []) ∧
    (p.split axis offset maxArea out).highArray =
      out.highArray ++
        (if EFloat.leOf (p.high.get axis) offset = false ∧
            EFloat.geOf (p.low.get axis) offset = true then [p] else []) ∧
    ((EFloat.leOf (p.high.get axis) offset = true ∨
        EFloat.geOf (p.low.get axis) offset = true) →
      (p.split axis offset maxArea out).spanArray = out.spanArray) ∧
    (EFloat.leOf (p.high.get axis) offset = false →
      EFloat.geOf (p.low.get axis) offset = false → p.area > maxArea →
      (p.split axis offset maxArea out).spanArray = out.spanArray ++ [p]) ∧
    (EFloat.leOf (p.high.get axis) offset = false →
      EFloat.geOf (p.low.get axis) offset = false → ¬ p.area > maxArea →
      ∃ c : ℚ, offset = .fin c ∧ p.low.get axis < c ∧ c < p.high.get axis ∧
        (p.split axis offset maxArea out).spanArray = out.spanArray ++
          [{ p with high := p.high.set axis c }, { p with low := p.low.set axis c }]) := by
  refine ⟨?_, ?_, ?_, ?_, ?_⟩
  · unfold Poly.split
    split_ifs <;> simp
    cases offset <;> simp
  · unfold Poly.split
    split_ifs <;> simp_all
    cases offset <;> simp
  · intro h
    unfold Poly.split
    split_ifs with h1 h2 h3
    · rfl
    · rfl
    · rcases h with h | h
      · exact absurd h h1
      · exact absurd h h2
    · rcases h with h | h
      · exact absurd h h1
      · exact absurd h h2
  · intro h1 h2 h3
    unfold Poly.split
    simp only [h1, h2, Bool.false_eq_true, if_false, if_pos h3]
  · intro h1 h2 h3
    cases offset with
    | inf => simp [EFloat.leOf] at h1
    | fin c =>
      refine ⟨c, rfl, ?_, ?_, ?_⟩
      · simpa [EFloat.geOf] using h2
      · simpa [EFloat.leOf] using h1
      · unfold Poly.split
        simp only [h1, h2, Bool.false_eq_true, if_false, if_neg h3]

/-- Instance of C16 on `straddlePoly` and the plane `x = 5/2`: with a maximum
area of 1 the two fragments go to the span array, with a maximum area of 1/10
the whole Poly does; the low and high arrays stay empty. -/
theorem split_classification_witness :
    straddlePoly.split .X (.fin (5 / 2)) 1 SplitArrays.empty =
      ⟨[], [], [⟨4, ⟨1 / 2, 0, 0⟩, ⟨5 / 2, 1 / 10, 0⟩, 9 / 40⟩,
        ⟨4, ⟨5 / 2, 0, 0⟩, ⟨5, 1 / 10, 0⟩, 9 / 40⟩]⟩ ∧
    straddlePoly.split .X (.fin (5 / 2)) (1 / 10) SplitArrays.empty =
      ⟨[], [], [straddlePoly]⟩ ∧
    (straddlePoly.split .X (.fin (5 / 2)) 1 SplitArrays.empty).lowArray =
      SplitArrays.empty.lowArray ++
        (if EFloat.leOf (straddlePoly.high.get .X) (.fin (5 / 2)) = true then [straddlePoly]
          else []) :=
  ⟨by decide!, by decide!,
    (split_classification straddlePoly .X (.fin (5 / 2)) 1 SplitArrays.empty).1⟩

/-- C17: for every ray, triangle and bounds, `rayTriangleIntersection` returns
true only if the hit distance `t` it computes satisfies
`minDistance < t < maxDistance`, both strictly, and then `t` is the distance
it records; a hit at exactly `minDistance` or at exactly `maxDistance` is
rejected. -/
theorem rayTriangleIntersection_strict_bounds (ext : Externals) (ray : PrecomputedRay)
    (minDistance : ℚ) (maxDistance : EFloat) (tri : Tri) (vertexArray : CPUVertexArray)
    (hitData : Hit) (options : IntersectRayOptions) :
    ((rayTriangleIntersection ext ray minDistance maxDistance tri vertexArray hitData
        options).1 = true →
      minDistance < rayTriangleDistance ray tri vertexArray ∧
      EFloat.ltOf (rayTriangleDistance ray tri vertexArray) maxDistance = true ∧
      (rayTriangleIntersection ext ray minDistance maxDistance tri vertexArray hitData
        options).2.distance = .fin (rayTriangleDistance ray tri vertexArray)) ∧
    ((rayTriangleDistance ray tri vertexArray = minDistance ∨
        maxDistance = .fin (rayTriangleDistance ray tri vertexArray)) →
      rayTriangleIntersection ext ray minDistance maxDistance tri vertexArray hitData
        options = (false, hitData)) := by
  have key : (rayTriangleIntersection ext ray minDistance maxDistance tri vertexArray hitData
        options).1 = true →
      minDistance < rayTriangleDistance ray tri vertexArray ∧
      EFloat.ltOf (rayTriangleDistance ray tri vertexArray) maxDistance = true ∧
      (rayTriangleIntersection ext ray minDistance maxDistance tri vertexArray hitData
        options).2.distance = .fin (rayTriangleDistance ray tri vertexArray) := by
    intro h
    obtain ⟨occ, cull, thr, nocov⟩ := options
    unfold rayTriangleIntersection at h ⊢
    unfold rayTriangleDistance
    cases thr <;> simp only [Bool.false_eq_true, if_false, if_true] at h ⊢ <;>
      split_ifs at h with h1 h2 h3 h4 h5 <;> try (simp at h; done)
    all_goals
      simp only [if_neg h1, if_neg h2, if_neg h3, if_pos h4, if_neg h5]
      exact ⟨h4.1, h4.2, trivial⟩
  refine ⟨key, ?_⟩
  intro hedge
  cases hres : (rayTriangleIntersection ext ray minDistance maxDistance tri vertexArray hitData
      options).1 with
  | false =>
    have h2 := rayTriangleIntersection_false ext ray minDistance maxDistance tri vertexArray
      hitData options hres
    exact Prod.ext hres h2
  | true =>
    obtain ⟨k1, k2, _⟩ := key hres
    rcases hedge with he | he
    · rw [he] at k1
      exact absurd k1 (lt_irrefl _)
    · rw [he] at k2
      simp [EFloat.ltOf] at k2

/-- Instance of C17 on the triangle of `edgeTree` and `downRay`, whose hit
distance is 1: the hit is accepted for the bounds `(0, +inf)` and `(0, 2)`
and rejected for the bounds `(1, +inf)` and `(0, 1)`. -/
theorem rayTriangleIntersection_strict_bounds_witness :
    rayTriangleDistance downRay (edgeTree.tri 0) edgeTree.m_vertexArray = 1 ∧
    rayTriangleIntersection sampleExternals downRay 0 .inf (edgeTree.tri 0)
      edgeTree.m_vertexArray noHit noOptions = (true, ⟨-1, 1 / 4, 1 / 4, .fin 1, false⟩) ∧
    rayTriangleIntersection sampleExternals downRay 0 (.fin 2) (edgeTree.tri 0)
      edgeTree.m_vertexArray noHit noOptions = (true, ⟨-1, 1 / 4, 1 / 4, .fin 1, false⟩) ∧
    rayTriangleIntersection sampleExternals downRay 1 .inf (edgeTree.tri 0)
      edgeTree.m_vertexArray noHit noOptions = (false, noHit) ∧
    rayTriangleIntersection sampleExternals downRay 0 (.fin 1) (edgeTree.tri 0)
      edgeTree.m_vertexArray noHit noOptions = (false, noHit) ∧
    (0 : ℚ) < rayTriangleDistance downRay (edgeTree.tri 0) edgeTree.m_vertexArray :=
  ⟨by decide!, by decide!, by decide!, by decide!, by decide!,
    ((rayTriangleIntersection_strict_bounds sampleExternals downRay 0 .inf (edgeTree.tri 0)
      edgeTree.m_vertexArray noHit noOptions).1 (by decide!)).1⟩

end G3D

namespace G3D

/-- C19: for every tree built by `rebuild`, whenever `intersectRay` returns
true, `hit.triIndex` is a valid index into the triangle array
(`0 <= triIndex < size`) of a triangle the tree references, and the
ray-triangle test of that triangle accepts the ray and writes exactly the
recorded distance, `u`, `v` and backface flag. A call on a node that returns
false leaves the record as it was, so a hit found in the near child survives a
visit of the far child that finds nothing. -/
theorem intersectRay_triIndex_valid (ext : Externals) (settings : Settings)
    (t0 t : NativeTriTree) (ray : PrecomputedRay) (hit : Hit) (options : IntersectRayOptions)
    (hb : t0.rebuild settings = some t)
    (h : (t.intersectRay ext ray hit options).1 = true) :
    0 ≤ (t.intersectRay ext ray hit options).2.triIndex ∧
    (t.intersectRay ext ray hit options).2.triIndex < (t.m_triArray.length : Int) ∧
    (∃ i ∈ t.refs, (t.intersectRay ext ray hit options).2.triIndex = (i : Int) ∧
      ∀ hd : Hit, rayTriangleIntersection ext ray ray.minDistance ray.maxDistance (t.tri i)
        t.m_vertexArray hd options =
          (true, ⟨hd.triIndex, (t.intersectRay ext ray hit options).2.u,
            (t.intersectRay ext ray hit options).2.v,
            (t.intersectRay ext ray hit options).2.distance,
            (t.intersectRay ext ray hit options).2.backface⟩)) ∧
    ∀ (n : Node) (maxDistance : EFloat) (hd : Hit),
      (n.intersectRay ext t ray options maxDistance hd).1 = false →
      (n.intersectRay ext t ray options maxDistance hd).2 = hd := by
  obtain ⟨t1, h1, h2, _, _, h5⟩ := rebuild_root settings t0
  have e : t1 = t := Option.some.inj (h1.symm.trans hb)
  subst e
  have hfar : ∀ (n : Node) (maxDistance : EFloat) (hd : Hit),
      (n.intersectRay ext t1 ray options maxDistance hd).1 = false →
      (n.intersectRay ext t1 ray options maxDistance hd).2 = hd :=
    fun n maxDistance hd => (Node.intersectRay_inv ext t1 ray options n maxDistance hd).1
  unfold NativeTriTree.intersectRay at h ⊢
  unfold NativeTriTree.refs
  cases hr : t1.m_root with
  | none => rw [hr] at h; simp at h
  | some root =>
    rw [hr] at h
    simp only [] at h ⊢
    obtain ⟨i, hi, hidx, hall⟩ := (Node.intersectRay_inv ext t1 ray options root
      ray.maxDistance hit).2 h
    have hlt : i < t1.m_triArray.length := by
      rw [h2]; exact (((h5 root hr).1 i).1 hi).1
    refine ⟨?_, ?_, ⟨i, hi, hidx, ?_⟩, hfar⟩
    · rw [hidx]; exact Int.natCast_nonneg i
    · rw [hidx]; exact Int.ofNat_lt.2 hlt
    · intro hd
      rw [hall hd]

/-- Witness for C19: the tree built from `straddleTree` and `downRay`. The
root is an internal node; the call on its child 0 records the hit on triangle
0 at distance 1, the call on its child 1 that follows finds nothing and leaves
that record alone, and the query reports triangle 0. -/
theorem intersectRay_triIndex_valid_witness :
    childResults sampleExternals straddleBuilt downRay noHit noOptions =
      some ((true, ⟨0, 1 / 4, 1 / 4, .fin 1, false⟩),
        (false, ⟨0, 1 / 4, 1 / 4, .fin 1, false⟩)) ∧
    straddleBuilt.intersectRay sampleExternals downRay noHit noOptions =
      (true, ⟨0, 1 / 4, 1 / 4, .fin 1, false⟩) ∧
    0 ≤ (straddleBuilt.intersectRay sampleExternals downRay noHit noOptions).2.triIndex ∧
    (straddleBuilt.intersectRay sampleExternals downRay noHit noOptions).2.triIndex <
      (straddleBuilt.m_triArray.length : Int) :=
  ⟨by decide!, by decide!,
    (intersectRay_triIndex_valid sampleExternals meanExtentSettings straddleTree
      straddleBuilt downRay noHit noOptions straddleBuilt_eq (by decide!)).1,
    (intersectRay_triIndex_valid sampleExternals meanExtentSettings straddleTree
      straddleBuilt downRay noHit noOptions straddleBuilt_eq (by decide!)).2.1⟩

/-- C20: for every input triangle array, all build settings and every `k`,
`rebuild` succeeds and afterwards `stats(k).numTris` is the total number of
triangle references over all nodes of the built tree, which is at least the
number of input triangles whose area exceeds 1e-6. -/
theorem stats_numTris_ge (settings : Settings) (sentinel k : Int) (t : NativeTriTree) :
    ∃ t1, t.rebuild settings = some t1 ∧
      (t1.stats sentinel k).numTris = (t1.refs.length : Int) ∧
      (((t.m_triArray.filter
        (fun x => decide (x.area > NativeTriTree.epsilon))).length : Nat) : Int) ≤
        (t1.stats sentinel k).numTris := by
  obtain ⟨t1, h1, _, _, h4⟩ := rebuild_spec settings t
  refine ⟨t1, h1, ?_⟩
  have hlen := sourceFrom_length t.m_vertexArray 0 t.m_triArray
  rcases h4 with ⟨hnil, hnone⟩ | ⟨hne, root, hr, hbuild⟩
  · rw [hnil] at hlen
    unfold NativeTriTree.stats NativeTriTree.refs
    rw [hnone]
    simp only [Stats.init, List.length_nil, Nat.cast_zero]
    rw [← hlen]
    simp
  · have hge := Node.build_length settings _ _ root hbuild hne
    unfold NativeTriTree.stats NativeTriTree.refs
    rw [hr]
    simp only []
    rw [Node.getStats_numTris]
    simp only [Stats.init, zero_add, true_and]
    rw [← hlen]
    exact Int.ofNat_le.2 hge

/-- Instance of C20 on `straddleTree`: five triangles pass the filter and the
built tree holds six references, triangle 4 twice. -/
theorem stats_numTris_ge_witness :
    (straddleTree.m_triArray.filter
      (fun x => decide (x.area > NativeTriTree.epsilon))).length = 5 ∧
    (straddleBuilt.stats 0 4).numTris = 6 ∧
    ∃ t1, straddleTree.rebuild meanExtentSettings = some t1 ∧
      (t1.stats 0 4).numTris = (t1.refs.length : Int) ∧
      (((straddleTree.m_triArray.filter
        (fun x => decide (x.area > NativeTriTree.epsilon))).length : Nat) : Int) ≤
        (t1.stats 0 4).numTris :=
  ⟨by decide!, by decide!, stats_numTris_ge meanExtentSettings 0 4 straddleTree⟩

end G3D

namespace G3D

/-! ## Claims about the cost model, termination, the frame of the ray query and the statistics -/

/-- C21, as stated, fails for an empty list: `SAHCost(0, A, P)` is 0, not
`k_tri * 0 * A / P + k_box = 5`. The plane `x = 1` puts the one candidate of
`edgeSource` into the low array and leaves the span and high arrays empty, and
its cost is `1 * 2 / 2 + 5 = 6`: the two empty lists add nothing. -/
theorem SAHCost_of_empty_list :
    SAHCost 0 2 2 = 0 ∧
    SAHCost 0 2 2 ≠ 1 * ((0 : Nat) : ℚ) * 2 / 2 + 5 ∧
    splitAll edgeSource .X (.fin 1) (meanExtentSettings.maxAreaFraction * 2) =
      ⟨edgeSource, [], []⟩ ∧
    (Poly.computeBounds edgeSource).area = 2 ∧
    SAHCostAt .X 1 edgeSource 2 meanExtentSettings = 6 :=
  ⟨by decide!, by decide!, by decide!, by decide!, by decide!⟩

/-- C21, amended: for every non-empty set of `n` triangles with bounding-box
area `A` inside a parent box of area `P`, `SAHCost(n, A, P)` equals
`k_tri * n * A / P + k_box` with `k_tri = 1` and `k_box = 5`, and for the
empty set (`n = 0`) it is 0; the cost of a candidate plane is
`SAHCost(low) + SAHCost(span) + SAHCost(high)` over the three lists produced by
splitting every candidate at that plane (with the maximum area
`maxAreaFraction * P`), each list with its size and the area of its bounds. -/
theorem SAHCost_formula (A P : ℚ) :
    (∀ n : Nat, 0 < n → SAHCost n A P = 1 * (n : ℚ) * A / P + 5) ∧
    SAHCost 0 A P = 0 ∧
    ∀ (axis : Axis) (offset : ℚ) (original : List Poly) (settings : Settings),
      SAHCostAt axis offset original P settings =
        SAHCost (splitAll original axis (.fin offset)
            (settings.maxAreaFraction * P)).lowArray.length
          (Poly.computeBounds (splitAll original axis (.fin offset)
            (settings.maxAreaFraction * P)).lowArray).area P +
        SAHCost (splitAll original axis (.fin offset)
            (settings.maxAreaFraction * P)).spanArray.length
          (Poly.computeBounds (splitAll original axis (.fin offset)
            (settings.maxAreaFraction * P)).spanArray).area P +
        SAHCost (splitAll original axis (.fin offset)
            (settings.maxAreaFraction * P)).highArray.length
          (Poly.computeBounds (splitAll original axis (.fin offset)
            (settings.maxAreaFraction * P)).highArray).area P := by
  refine ⟨?_, ?_, ?_⟩
  · intro n hn
    unfold SAHCost
    rw [if_neg (Nat.pos_iff_ne_zero.1 hn)]
  · unfold SAHCost
    rw [if_pos rfl]
  · intro axis offset original settings
    rfl

/-- Instance of C21 (amended): the plane `x = 2` splits the five candidates of
`straddleSource` (bounds area 10) into three below, one above and the two
fragments of the straddling one, and costs
`(3 * 2 / 10 + 5) + (2 * 9/10 / 10 + 5) + (1 * 2 / 10 + 5) = 799/50`. -/
theorem SAHCost_formula_witness :
    (Poly.computeBounds straddleSource).area = 10 ∧
    SAHCostAt .X 2 straddleSource 10 meanExtentSettings = 799 / 50 ∧
    SAHCost 3 2 10 = 1 * ((3 : Nat) : ℚ) * 2 / 10 + 5 :=
  ⟨by decide!, by decide!, (SAHCost_formula 2 10).1 3 (by decide)⟩

/-- C26: for every non-empty candidate array and all settings, the
construction ends with a node, at a recursion depth of at most the size of
the array; and whenever `Node::split` accepts a split of the array, the low
and the high array are both non-empty and strictly shorter than the array, so
each recursive constructor call again receives a non-empty, strictly smaller
array. -/
theorem construction_terminates (settings : Settings) (originals : List Poly)
    (hne : originals ≠ []) :
    (∃ n, ∀ fuel, originals.length ≤ fuel → Node.build settings fuel originals = some n) ∧
    ∀ (bounds : AABox) (loc : EFloat) (axis : Axis) (arrays : SplitArrays),
      Node.split bounds originals settings = some (.children loc axis arrays) →
      arrays.lowArray ≠ [] ∧ arrays.lowArray.length < originals.length ∧
      arrays.highArray ≠ [] ∧ arrays.highArray.length < originals.length := by
  constructor
  · obtain ⟨n, hn⟩ := Node.build_some settings originals.length originals hne le_rfl
    exact ⟨n, fun fuel hle => Node.build_mono settings _ originals n hn fuel hle⟩
  · intro bounds loc axis arrays h
    obtain ⟨o, ho, hspec⟩ := Node.split_some bounds originals settings hne
    rw [h] at ho
    have e : o = .children loc axis arrays := (Option.some.inj ho).symm
    rw [e] at hspec
    obtain ⟨⟨l1, l2, _⟩, ⟨h1, h2, _⟩⟩ := children_arrays _ _ _ _ _ _ hspec
    exact ⟨l1, l2, h1, h2⟩

/-- Witness for C26: the five candidates of `straddleSource`, whose split along
X is accepted with three candidates below and one above. -/
theorem construction_terminates_witness :
    straddleSource ≠ [] ∧
    (Node.split (Poly.computeBounds straddleSource) straddleSource meanExtentSettings).map
      (fun o => match o with
        | .leaf _ _ => (0, 0)
        | .children _ _ arrays => (arrays.lowArray.length, arrays.highArray.length)) =
      some (3, 1) ∧
    ∃ n, ∀ fuel, straddleSource.length ≤ fuel →
      Node.build meanExtentSettings fuel straddleSource = some n :=
  ⟨by decide!, by decide!,
    (construction_terminates meanExtentSettings straddleSource (by decide!)).1⟩

/-- C27: for every tree, ray, initial hit record and option set, if
`intersectRay` returns false then the hit record is exactly the one passed in
(distance, `u`, `v`, backface and `triIndex` all unchanged); the same holds of
`Node::intersectRay` on every node and bound, and `rayTriangleIntersection`
leaves the record as it was whenever it returns false. -/
theorem intersectRay_false_keeps_hit (ext : Externals) (t : NativeTriTree)
    (ray : PrecomputedRay) (hit : Hit) (options : IntersectRayOptions) :
    ((t.intersectRay ext ray hit options).1 = false →
      (t.intersectRay ext ray hit options).2 = hit) ∧
    (∀ (n : Node) (maxDistance : EFloat) (hd : Hit),
      (n.intersectRay ext t ray options maxDistance hd).1 = false →
      (n.intersectRay ext t ray options maxDistance hd).2 = hd) ∧
    ∀ (minDistance : ℚ) (maxDistance : EFloat) (tri : Tri) (vertexArray : CPUVertexArray)
      (hd : Hit),
      (rayTriangleIntersection ext ray minDistance maxDistance tri vertexArray hd options).1
        = false →
      (rayTriangleIntersection ext ray minDistance maxDistance tri vertexArray hd options).2
        = hd := by
  refine ⟨?_, fun n maxDistance hd =>
    (Node.intersectRay_inv ext t ray options n maxDistance hd).1,
    fun minDistance maxDistance tri vertexArray hd =>
      rayTriangleIntersection_false ext ray minDistance maxDistance tri vertexArray hd
        options⟩
  unfold NativeTriTree.intersectRay
  cases t.m_root with
  | none => intro _; rfl
  | some root =>
    exact (Node.intersectRay_inv ext t ray options root ray.maxDistance hit).1

/-- Instance of C27: `upRay` meets every triangle of the tree built from
`straddleTree` from behind, so the query with backfaces culled returns false and
hands back the record it was given. -/
theorem intersectRay_false_keeps_hit_witness :
    straddleBuilt.intersectRay sampleExternals upRay noHit noCoverageTest = (false, noHit) ∧
    ((straddleBuilt.intersectRay sampleExternals upRay noHit noCoverageTest).1 = false →
      (straddleBuilt.intersectRay sampleExternals upRay noHit noCoverageTest).2 = noHit) :=
  ⟨by decide!,
    (intersectRay_false_keeps_hit sampleExternals straddleBuilt upRay noHit
      noCoverageTest).1⟩

/-- C30: for every tree with a root, every `k` and every initial value of the
two `shallowest` fields, `stats(k)` satisfies
`numNodes = 2 * numLeaves - 1`, `numLeaves >= 1` (so the division for
`averageValuesPerLeaf` is by a positive count) and `shallowestLeaf <= depth`. -/
theorem stats_node_counts (sentinel k : Int) (t : NativeTriTree) (root : Node)
    (hroot : t.m_root = some root) :
    (t.stats sentinel k).numNodes = 2 * (t.stats sentinel k).numLeaves - 1 ∧
    1 ≤ (t.stats sentinel k).numLeaves ∧
    (t.stats sentinel k).shallowestLeaf ≤ (t.stats sentinel k).depth := by
  obtain ⟨a, b, c⟩ := Node.getStats_counts k root 0 (Stats.init sentinel)
  unfold NativeTriTree.stats
  rw [hroot]
  simp only [Stats.init] at a b c ⊢
  exact ⟨by omega, by omega, c⟩

/-- Witness for C30: the tree built from `straddleTree` has three nodes, two
of them leaves, at depth 1. -/
theorem stats_node_counts_witness :
    ((straddleBuilt.stats 100 4).numNodes, (straddleBuilt.stats 100 4).numLeaves,
      (straddleBuilt.stats 100 4).depth, (straddleBuilt.stats 100 4).shallowestLeaf) =
      (3, 2, 1, 1) ∧
    straddleBuilt.m_root.isSome = true ∧
    (straddleBuilt.stats 100 4).numNodes = 2 * (straddleBuilt.stats 100 4).numLeaves - 1 :=
  ⟨by decide!, by decide!,
    (stats_node_counts 100 4 straddleBuilt
      (straddleBuilt.m_root.getD (.leaf ⟨Vector3.zero, Vector3.zero⟩ (.fin 0) none))
      (by decide!)).1⟩

end G3D

namespace G3D

end G3D

namespace G3D

/-! ## Claims about `Triangle::intersect` and the fast SAH sweep -/

/-- C28, evaluated: on the five candidates of `straddleSource` along X (upper
extents 1, 1, 1, 5, 5; containing area 10) the only plane is `h = 1`. Two
candidates have an upper extent above it and the union of their extents has
area 9, so the claimed high-side cost is `2 * 9 / 10`; the sweep from above
stores `27/10 = (2 + 1) * 9 / 10`. The sweep from below stops at `i = 3`, the
number of candidates whose upper extent is at most 1. Along Y the plane is
`h = 1/10`, four candidates lie above it with a union of area 10, and the
stored cost is `5 = (4 + 1) * 10 / 10`. -/
theorem highSweep_counts_one_more :
    (Poly.computeBounds straddleSource).area = 10 ∧
    splitPositions .X (sortByHigh .X straddleSource) = some [1] ∧
    highSweep .X (sortByHigh .X straddleSource) 10 [1] = some [27 / 10] ∧
    ((sortByHigh .X straddleSource).filter (fun p => decide (p.high.get .X > 1))).length = 2 ∧
    (Poly.computeBounds
      ((sortByHigh .X straddleSource).filter (fun p => decide (p.high.get .X > 1)))).area = 9 ∧
    (27 / 10 : ℚ) ≠ 2 * 9 / 10 ∧
    (lowWhile .X 1 (sortByHigh .X straddleSource).tail 1 ⟨0, 0, 0⟩ ⟨1, 1, 0⟩).map
      (fun r => r.2.1) = some 3 ∧
    ((sortByHigh .X straddleSource).filter (fun p => decide (p.high.get .X ≤ 1))).length = 3 ∧
    splitPositions .Y (sortByHigh .Y straddleSource) = some [1 / 10] ∧
    highSweep .Y (sortByHigh .Y straddleSource) 10 [1 / 10] = some [5] ∧
    ((sortByHigh .Y straddleSource).filter
      (fun p => decide (p.high.get .Y > 1 / 10))).length = 4 ∧
    (Poly.computeBounds ((sortByHigh .Y straddleSource).filter
      (fun p => decide (p.high.get .Y > 1 / 10)))).area = 10 :=
  ⟨by decide!, by decide!, by decide!, by decide!, by decide!, by decide!, by decide!,
    by decide!, by decide!, by decide!, by decide!, by decide!⟩

/-- C29, as stated, fails when all upper extents along the axis are equal: the
five candidates of `straddleSource` lie in the plane `z = 0`, so along Z the
array of split positions is empty after `popDiscard`, neither sweep runs, and
`chooseSAHSplitLocationFast` returns `+inf`, which is not a finite coordinate.
It is the function `chooseSplitLocation` calls under the SAH settings, five
candidates being more than the threshold of two. -/
theorem fast_sweep_returns_inf :
    straddleSource ≠ [] ∧
    straddleSource.map (fun p => p.high.get .Z) = [0, 0, 0, 0, 0] ∧
    splitPositions .Z (sortByHigh .Z straddleSource) = some [] ∧
    chooseSAHSplitLocationFast (Poly.computeBounds straddleSource) straddleSource .Z =
      some (.inf, sortByHigh .Z straddleSource) ∧
    (chooseSplitLocation (Poly.computeBounds straddleSource) straddleSource
      (settingsWith .SAH) .Z).map (fun r => r.1) = some .inf :=
  ⟨by decide!, by decide!, by decide!, by decide!, by decide!⟩

/-- C29, amended: for every non-empty candidate array,
`chooseSAHSplitLocationFast` returns without a read outside an array (every
index of its two sweeps stays within `[0, source.size() - 1]`), leaving the
array sorted by upper extent; when the upper extents along the axis are not
all equal the result is a finite coordinate, the upper extent of some
candidate, below the maximum upper extent; when they are all equal the result
is `+inf`. -/
theorem fast_sweep_location (bounds : AABox) (source : List Poly) (axis : Axis)
    (hne : source ≠ []) :
    ∃ loc, chooseSAHSplitLocationFast bounds source axis = some (loc, sortByHigh axis source) ∧
      ((∀ a ∈ source, ∀ b ∈ source, a.high.get axis = b.high.get axis) → loc = .inf) ∧
      ((∃ a ∈ source, ∃ b ∈ source, a.high.get axis ≠ b.high.get axis) →
        ∃ c, loc = .fin c ∧ (∃ p ∈ source, p.high.get axis = c) ∧
          ∃ q ∈ source, c < q.high.get axis) :=
  chooseSAHSplitLocationFast_result bounds source axis hne

/-- Witness for C29 (amended): along X the candidates of `straddleSource` have
the upper extents 1 and 5, and the sweep returns 1. -/
theorem fast_sweep_location_witness :
    straddleSource ≠ [] ∧
    chooseSAHSplitLocationFast (Poly.computeBounds straddleSource) straddleSource .X =
      some (.fin 1, sortByHigh .X straddleSource) ∧
    ∃ loc, chooseSAHSplitLocationFast (Poly.computeBounds straddleSource) straddleSource .X =
        some (loc, sortByHigh .X straddleSource) ∧
      ((∀ a ∈ straddleSource, ∀ b ∈ straddleSource, a.high.get .X = b.high.get .X) →
        loc = .inf) ∧
      ((∃ a ∈ straddleSource, ∃ b ∈ straddleSource, a.high.get .X ≠ b.high.get .X) →
        ∃ c, loc = .fin c ∧ (∃ p ∈ straddleSource, p.high.get .X = c) ∧
          ∃ q ∈ straddleSource, c < q.high.get .X) :=
  ⟨by decide!, by decide!,
    fast_sweep_location (Poly.computeBounds straddleSource) straddleSource .X (by decide!)⟩

end G3D

namespace G3D

/-! ## Claims about the traversal: the far child and the order of the hits -/

/-- C23: outside occlusion mode, for every tree, ray and initial hit record,
every hit accepted during one `intersectRay` traversal has a finite distance
strictly between `ray.minDistance()` and `ray.maxDistance()` and strictly
smaller than the distance of every hit accepted before it; the traversal
returns true exactly when it accepted a hit, and then the recorded hit is the
last one accepted, whose distance is the minimum over all accepted hits and
lies strictly between `ray.minDistance()` and `ray.maxDistance()`. -/
theorem accepted_hits_come_closer (ext : Externals) (t : NativeTriTree) (ray : PrecomputedRay)
    (hit : Hit) (options : IntersectRayOptions) (hocc : options.OCCLUSION_TEST_ONLY = false) :
    (∀ h ∈ t.intersectRayHits ext ray hit options,
      ∃ d, h.distance = .fin d ∧ ray.minDistance < d ∧
        EFloat.ltOf d ray.maxDistance = true) ∧
    (t.intersectRayHits ext ray hit options).Pairwise Hit.Closer ∧
    ((t.intersectRay ext ray hit options).1 = true ↔
      t.intersectRayHits ext ray hit options ≠ []) ∧
    ((t.intersectRay ext ray hit options).1 = true →
      (t.intersectRayHits ext ray hit options).getLast? =
        some (t.intersectRay ext ray hit options).2 ∧
      (∀ h ∈ t.intersectRayHits ext ray hit options,
        h = (t.intersectRay ext ray hit options).2 ∨
          h.Closer (t.intersectRay ext ray hit options).2) ∧
      ∃ d, (t.intersectRay ext ray hit options).2.distance = .fin d ∧
        ray.minDistance < d ∧ EFloat.ltOf d ray.maxDistance = true) := by
  have hadv : (RayState.mk false ray.maxDistance hit).Advances ray.minDistance
      (t.intersectRayHits ext ray hit options)
      (RayState.afterCall ray.maxDistance (t.intersectRay ext ray hit options)) := by
    unfold NativeTriTree.intersectRayHits NativeTriTree.intersectRay
    cases t.m_root with
    | none =>
      have e : RayState.afterCall ray.maxDistance (false, hit) =
          RayState.mk false ray.maxDistance hit := by
        simp [RayState.afterCall]
      simp only []
      rw [e]
      exact RayState.Advances.refl _ _
    | some root =>
      exact Node.intersectRay_advances ext t ray options hocc root ray.maxDistance hit
  generalize t.intersectRayHits ext ray hit options = hits at hadv ⊢
  generalize t.intersectRay ext ray hit options = res at hadv ⊢
  obtain ⟨⟨hbounds, hpair⟩, hnil, hlast⟩ := hadv
  have hiff : res.1 = true ↔ hits ≠ [] := by
    constructor
    · intro h e
      have := hnil e
      simp only [RayState.afterCall, RayState.mk.injEq] at this
      rw [this.1] at h
      exact Bool.false_ne_true h
    · intro hne
      cases hl : hits.getLast? with
      | none => exact absurd (getLast?_eq_none_nil hits hl) hne
      | some x =>
        have := hlast x hl
        simp only [RayState.afterCall, RayState.mk.injEq] at this
        exact this.1
  refine ⟨hbounds, hpair, hiff, ?_⟩
  intro htrue
  have hne := hiff.1 htrue
  cases hl : hits.getLast? with
  | none => exact absurd (getLast?_eq_none_nil hits hl) hne
  | some x =>
    have := hlast x hl
    simp only [RayState.afterCall, RayState.mk.injEq] at this
    have ex : res.2 = x := this.2.2
    rw [ex]
    exact ⟨rfl, pairwise_getLast hits x hpair hl, hbounds x (getLast?_mem_self hits x hl)⟩

/-- Witness for C23: `downRay` on the tree built from `layerTree`, whose single
leaf holds triangle 0 (in the plane `z = 0`) before triangle 1 (in the plane
`z = 1/2`). The traversal accepts the hit on triangle 0 at distance 1 and then
the hit on triangle 1 at distance 1/2, and records the latter. -/
theorem accepted_hits_come_closer_witness :
    layerBuilt.intersectRayHits sampleExternals downRay noHit noOptions =
      [⟨0, 1 / 4, 1 / 4, .fin 1, false⟩, ⟨1, 1 / 4, 1 / 4, .fin (1 / 2), false⟩] ∧
    layerBuilt.intersectRay sampleExternals downRay noHit noOptions =
      (true, ⟨1, 1 / 4, 1 / 4, .fin (1 / 2), false⟩) ∧
    noOptions.OCCLUSION_TEST_ONLY = false ∧
    (layerBuilt.intersectRayHits sampleExternals downRay noHit noOptions).Pairwise Hit.Closer :=
  ⟨by decide!, by decide!, rfl,
    (accepted_hits_come_closer sampleExternals layerBuilt downRay noHit noOptions rfl).2.1⟩

end G3D

namespace G3D

/-! ## The range queries on a built tree -/

/-- What `Poly::split` adds to the span array for a candidate covers the
candidate: any box that contains every entry of the span array contains the
extent of the candidate. -/
theorem Poly.split_spanArray_full (p : Poly) (axis : Axis) (offset : EFloat) (maxArea : ℚ)
    (out : SplitArrays) (q : Poly) (hq : q ∈ (p.split axis offset maxArea out).spanArray) :
    q ∈ out.spanArray ∨ (q.source = p.source ∧
      ∀ b : AABox, (∀ r ∈ (p.split axis offset maxArea out).spanArray, b.contains r.box) →
        b.contains p.box) := by
  unfold Poly.split at hq ⊢
  split_ifs at hq ⊢ with h1 h2 h3
  · exact Or.inl hq
  · exact Or.inl hq
  · simp only [List.mem_append, List.mem_singleton] at hq
    rcases hq with hq | rfl
    · exact Or.inl hq
    · exact Or.inr ⟨rfl, fun b hb => hb q (by simp)⟩
  · cases offset with
    | inf => simp [EFloat.leOf] at h1
    | fin c =>
      simp only [List.mem_append, List.mem_cons, List.mem_singleton, List.not_mem_nil,
        or_false] at hq
      have hfull : ∀ b : AABox,
          (∀ r ∈ out.spanArray ++
              [{ p with high := p.high.set axis c }, { p with low := p.low.set axis c }],
            b.contains r.box) → b.contains p.box := by
        intro b hb
        have f1 := hb { p with high := p.high.set axis c } (by simp)
        have f2 := hb { p with low := p.low.set axis c } (by simp)
        exact ⟨f1.1, f2.2⟩
      rcases hq with hq | rfl | rfl
      · exact Or.inl hq
      · exact Or.inr ⟨rfl, hfull⟩
      · exact Or.inr ⟨rfl, hfull⟩

theorem splitAll_foldl_spanArray_full (axis : Axis) (offset : EFloat) (maxArea : ℚ)
    (l : List Poly) (out : SplitArrays) (q : Poly)
    (hq : q ∈ (l.foldl (fun out p => p.split axis offset maxArea out) out).spanArray) :
    q ∈ out.spanArray ∨ ∃ p ∈ l, q.source = p.source ∧
      ∀ b : AABox,
        (∀ r ∈ (l.foldl (fun out p => p.split axis offset maxArea out) out).spanArray,
          b.contains r.box) → b.contains p.box := by
  induction l generalizing out with
  | nil => exact Or.inl hq
  | cons p ps ih =>
    rcases ih _ hq with h | ⟨p1, hp1, h⟩
    · rcases Poly.split_spanArray_full p axis offset maxArea out q h with h | ⟨hs, hfull⟩
      · exact Or.inl h
      · refine Or.inr ⟨p, List.mem_cons_self _ _, hs, ?_⟩
        intro b hb
        apply hfull b
        intro r hr
        exact hb r (splitAll_foldl_spanArray_sub axis offset maxArea ps _ r hr)
    · exact Or.inr ⟨p1, List.mem_cons_of_mem _ hp1, h⟩

/-- Every entry of the span array comes from a candidate whose extent lies
inside any box that contains all entries of the span array. -/
theorem splitAll_spanArray_full (original : List Poly) (axis : Axis) (offset : EFloat)
    (maxArea : ℚ) (q : Poly) (hq : q ∈ (splitAll original axis offset maxArea).spanArray) :
    ∃ p ∈ original, q.source = p.source ∧
      ∀ b : AABox, (∀ r ∈ (splitAll original axis offset maxArea).spanArray,
        b.contains r.box) → b.contains p.box := by
  rcases splitAll_foldl_spanArray_full axis offset maxArea original SplitArrays.empty q hq with
    h | h
  · simp [SplitArrays.empty] at h
  · exact h

/-- The value array `setValueArray` makes covers every candidate it is made
of. -/
theorem setValueArray_covers (src : List Poly) (va : ValueArray)
    (h : setValueArray src = some va) :
    va.data = src.map Poly.source ∧ ∀ p ∈ src, va.bounds.contains p.box := by
  have hne : src ≠ [] := by
    intro e
    subst e
    simp [setValueArray] at h
  rw [setValueArray_eq src hne] at h
  cases h
  exact ⟨rfl, fun p hp => computeBounds_contains_mem src p hp⟩

/-- In the subtree the node constructor builds from candidates that carry the
full extent of their source triangles, the bounds of every value array
contain the full extent of every triangle the array references. -/
theorem Node.build_valueBounds (settings : Settings) (box : Nat → AABox) (fuel : Nat)
    (originals : List Poly) (n : Node) (h : Node.build settings fuel originals = some n)
    (hne : originals ≠ []) (hbox : ∀ p ∈ originals, p.box = box p.source) :
    n.ValueBoundsCover box := by
  induction fuel generalizing originals n with
  | zero => simp [Node.build] at h
  | succ fuel ih =>
    unfold Node.build at h
    simp only [] at h
    split_ifs at h
    · cases h
      intro va hva i hi
      obtain ⟨hd, hb⟩ := setValueArray_covers originals va hva
      rw [hd, List.mem_map] at hi
      obtain ⟨p, hp, rfl⟩ := hi
      rw [← hbox p hp]
      exact hb p hp
    · obtain ⟨o, ho, hspec⟩ := Node.split_some (Poly.computeBounds originals) originals
        settings hne
      rw [ho] at h
      cases o with
      | leaf loc values =>
        simp only [Option.some.injEq] at h
        subst h
        have hperm : values.Perm originals := hspec
        intro va hva i hi
        obtain ⟨hd, hb⟩ := setValueArray_covers values va hva
        rw [hd, List.mem_map] at hi
        obtain ⟨p, hp, rfl⟩ := hi
        rw [← hbox p (hperm.subset hp)]
        exact hb p hp
      | children loc axis arrays =>
        obtain ⟨⟨l1, _, l3⟩, ⟨h1, _, h3⟩⟩ := children_arrays _ _ _ _ _ _ hspec
        obtain ⟨o1, hperm, harr, _⟩ := hspec
        simp only [] at h
        cases hc0 : Node.build settings fuel arrays.lowArray with
        | none => simp [hc0] at h
        | some c0 =>
          cases hc1 : Node.build settings fuel arrays.highArray with
          | none => simp [hc0, hc1] at h
          | some c1 =>
            simp only [hc0, hc1, Option.some.injEq] at h
            subst h
            refine ⟨?_, ih arrays.lowArray c0 hc0 l1 (fun p hp => hbox p (l3 p hp)),
              ih arrays.highArray c1 hc1 h1 (fun p hp => hbox p (h3 p hp))⟩
            intro va hva i hi
            obtain ⟨hd, hb⟩ := setValueArray_covers arrays.spanArray va hva
            rw [hd, List.mem_map] at hi
            obtain ⟨q, hq, rfl⟩ := hi
            have hq2 := hq
            rw [harr] at hq2
            obtain ⟨p, hp, hs, hfull⟩ := splitAll_spanArray_full _ _ _ _ q hq2
            rw [hs, ← hbox p (hperm.subset hp)]
            apply hfull
            intro r hr
            rw [← harr] at hr
            exact hb r hr

/-- Under the containment invariant the bounds of a node contain the extent of
every triangle referenced in its subtree. -/
theorem Node.contained_refs (box : Nat → AABox) (n : Node) (hc : n.Contained box) :
    ∀ i ∈ n.refs, n.bounds.contains (box i) := by
  induction n with
  | leaf b l v => exact hc
  | inner b l v a c0 c1 ih0 ih1 =>
    obtain ⟨hv, hb0, hb1, k0, k1⟩ := hc
    intro i hi
    simp only [Node.refs, List.mem_append] at hi
    rcases hi with hi | hi | hi
    · exact hv i hi
    · exact AABox.contains_trans hb0 (ih0 k0 i hi)
    · exact AABox.contains_trans hb1 (ih1 k1 i hi)

/-- A range query reaches only triangles the subtree references. -/
theorem Node.reached_sub_refs (overlaps : AABox → Bool) (n : Node) :
    ∀ i ∈ n.reached overlaps, i ∈ n.refs := by
  have hv : ∀ (v : Option ValueArray) (i : Nat),
      i ∈ (match v with
        | some va => if overlaps va.bounds then va.data else []
        | none => []) → i ∈ valuesOf v := by
    intro v i hi
    cases v with
    | none => simp at hi
    | some va =>
      simp only [] at hi
      by_cases hb : overlaps va.bounds = true
      · rw [if_pos hb] at hi
        exact hi
      · rw [if_neg hb] at hi
        simp at hi
  induction n with
  | leaf b l v =>
    intro i hi
    unfold Node.reached at hi
    unfold Node.refs
    by_cases hb : overlaps b = true
    · rw [if_pos hb] at hi
      exact hv v i hi
    · rw [if_neg hb] at hi
      simp at hi
  | inner b l v a c0 c1 ih0 ih1 =>
    intro i hi
    unfold Node.reached at hi
    unfold Node.refs
    by_cases hb : overlaps b = true
    · rw [if_pos hb] at hi
      simp only [List.mem_append] at hi ⊢
      rcases hi with hi | hi | hi
      · exact Or.inl (hv v i hi)
      · exact Or.inr (Or.inl (ih0 i hi))
      · exact Or.inr (Or.inr (ih1 i hi))
    · rw [if_neg hb] at hi
      simp at hi

/-- When the overlap test accepts every box that contains the extent of
triangle `i`, a range query reaches `i` in every subtree that references it
and satisfies the two bounds invariants. -/
theorem Node.reached_of_covered (overlaps : AABox → Bool) (box : Nat → AABox) (i : Nat)
    (hov : ∀ b : AABox, b.contains (box i) → overlaps b = true) (n : Node)
    (hc : n.Contained box) (hv : n.ValueBoundsCover box) (hi : i ∈ n.refs) :
    i ∈ n.reached overlaps := by
  induction n with
  | leaf b l v =>
    have hb : overlaps b = true := hov b (hc i hi)
    unfold Node.reached
    rw [if_pos hb]
    cases v with
    | none => simp [Node.refs, valuesOf] at hi
    | some va =>
      simp only [Node.refs, valuesOf] at hi
      simp only []
      rw [if_pos (hov va.bounds (hv va rfl i hi))]
      exact hi
  | inner b l v a c0 c1 ih0 ih1 =>
    have hb : overlaps b = true :=
      hov b (Node.contained_refs box (Node.inner b l v a c0 c1) hc i hi)
    obtain ⟨_, _, _, k0, k1⟩ := hc
    obtain ⟨hv0, w0, w1⟩ := hv
    unfold Node.reached
    rw [if_pos hb]
    simp only [Node.refs, List.mem_append] at hi
    simp only [List.mem_append]
    rcases hi with hi | hi | hi
    · left
      cases v with
      | none => simp [valuesOf] at hi
      | some va =>
        simp only [valuesOf] at hi
        simp only []
        rw [if_pos (hov va.bounds (hv0 va rfl i hi))]
        exact hi
    · exact Or.inr (Or.inl (ih0 k0 w0 hi))
    · exact Or.inr (Or.inr (ih1 k1 w1 hi))

/-- A range query on a tree left by `rebuild`: the output holds only
triangles of area above `epsilon` that pass the exact test, and, when the
overlap test accepts every box containing a triangle that passes the exact
test, all of them. -/
theorem rebuild_range_query (settings : Settings) (t : NativeTriTree)
    (overlaps : AABox → Bool) (exact : Vector3 → Vector3 → Vector3 → Bool) :
    ∃ t1, t.rebuild settings = some t1 ∧
      ∃ idxs : List Nat,
        (match t1.m_root with
          | some root => (root.intersectVolume t1 overlaps exact ⟨[], []⟩).triArray
          | none => []) = idxs.map t1.tri ∧
        (∀ i ∈ idxs, i < t.m_triArray.length ∧ (t.tri i).area > NativeTriTree.epsilon ∧
          exact ((t.tri i).position t.m_vertexArray 0) ((t.tri i).position t.m_vertexArray 1)
            ((t.tri i).position t.m_vertexArray 2) = true) ∧
        ((∀ (b : AABox) (p0 p1 p2 : Vector3), exact p0 p1 p2 = true →
            b.contains (cornerBox p0 p1 p2) → overlaps b = true) →
          ∀ i, i ∈ idxs ↔
            (i < t.m_triArray.length ∧ (t.tri i).area > NativeTriTree.epsilon ∧
              exact ((t.tri i).position t.m_vertexArray 0)
                ((t.tri i).position t.m_vertexArray 1)
                ((t.tri i).position t.m_vertexArray 2) = true)) := by
  obtain ⟨t1, h1, h2, h3, h4⟩ := rebuild_spec settings t
  obtain ⟨t1b, h1b, _, _, h5, h6⟩ := rebuild_root settings t
  have et : t1b = t1 := Option.some.inj (h1b.symm.trans h1)
  subst et
  obtain ⟨idxs, _, hout, hmem⟩ := intersectVolume_root t1b overlaps exact
  have htri : ∀ i, t1b.tri i = t.tri i := tri_congr t t1b h2
  have hacc : ∀ i, rangeAccepts t1b exact i = true ↔
      ((t.tri i).area > 0 ∧
        exact ((t.tri i).position t.m_vertexArray 0) ((t.tri i).position t.m_vertexArray 1)
          ((t.tri i).position t.m_vertexArray 2) = true) := by
    intro i
    unfold rangeAccepts
    rw [htri, h3]
    simp
  have hsound : ∀ i ∈ idxs, i < t.m_triArray.length ∧
      (t.tri i).area > NativeTriTree.epsilon ∧
      exact ((t.tri i).position t.m_vertexArray 0) ((t.tri i).position t.m_vertexArray 1)
        ((t.tri i).position t.m_vertexArray 2) = true := by
    intro i hi
    obtain ⟨hr, ha⟩ := (hmem i).1 hi
    unfold NativeTriTree.reached at hr
    cases hroot : t1b.m_root with
    | none => rw [hroot] at hr; simp at hr
    | some root =>
      rw [hroot] at hr
      have := ((h6 root hroot).1 i).1 (Node.reached_sub_refs overlaps root i hr)
      exact ⟨this.1, this.2, ((hacc i).1 ha).2⟩
  refine ⟨t1b, h1, idxs, hout, hsound, ?_⟩
  intro hagree i
  refine ⟨hsound i, ?_⟩
  rintro ⟨hi, ha, hex⟩
  rw [hmem i]
  have hpos : (t.tri i).area > 0 := by
    unfold NativeTriTree.epsilon at ha
    linarith
  refine ⟨?_, (hacc i).2 ⟨hpos, hex⟩⟩
  obtain ⟨root, hroot⟩ := h5 i hi ha
  unfold NativeTriTree.reached
  rw [hroot]
  obtain ⟨r1, _, r3⟩ := h6 root hroot
  have hbuilt : root.ValueBoundsCover t.triBounds := by
    rcases h4 with ⟨_, hnone⟩ | ⟨hne, root1, hr, hb⟩
    · rw [hnone] at hroot; cases hroot
    · have e : root = root1 := Option.some.inj (hroot.symm.trans hr)
      rw [e]
      exact Node.build_valueBounds settings t.triBounds _ _ _ hb hne
        (fun p hp => (source_mem t p hp).2.2)
  apply Node.reached_of_covered overlaps t.triBounds i ?_ root r3 hbuilt ((r1 i).2 ⟨hi, ha⟩)
  intro b hb
  exact hagree b _ _ _ hex hb

/-- The overlap of a box with a sphere is kept when the box grows. -/
theorem clamp_sq_mono (x bl bh cl ch : ℚ) (h1 : bl ≤ cl) (h2 : cl ≤ ch) (h3 : ch ≤ bh) :
    (min (max x bl) bh - x) * (min (max x bl) bh - x) ≤
      (min (max x cl) ch - x) * (min (max x cl) ch - x) := by
  rcases le_total x bl with hx | hx
  · have e1 : min (max x bl) bh = bl := by
      rw [max_eq_right hx, min_eq_left (by linarith)]
    have e2 : min (max x cl) ch = cl := by
      rw [max_eq_right (by linarith), min_eq_left h2]
    rw [e1, e2]
    nlinarith
  · rcases le_total x bh with hy | hy
    · have e1 : min (max x bl) bh = x := by
        rw [max_eq_left hx, min_eq_left hy]
      rw [e1]
      nlinarith [mul_self_nonneg (min (max x cl) ch - x)]
    · have e1 : min (max x bl) bh = bh := by
        rw [max_eq_left hx, min_eq_right hy]
      have e2 : min (max x cl) ch = ch := by
        rw [min_eq_right]
        exact le_trans (by linarith) (le_max_left x cl)
      rw [e1, e2]
      nlinarith

theorem cornerBox_low_le_high (p0 p1 p2 : Vector3) :
    (cornerBox p0 p1 p2).low.le (cornerBox p0 p1 p2).high := by
  unfold cornerBox Vector3.le Vector3.min Vector3.max
  simp only []
  refine ⟨?_, ?_, ?_⟩ <;>
    exact le_trans (min_le_left _ _) (le_trans (min_le_left _ _)
      (le_trans (le_max_left _ _) (le_max_left _ _)))

/-- The standard overlap tests of `sampleExternals` accept every box that
contains a triangle whose own box overlaps the sphere. -/
theorem sampleExternals_sphereTestsAgree (sphere : Sphere) :
    sampleExternals.SphereTestsAgree sphere := by
  intro b p0 p1 p2 hex hb
  have hc := cornerBox_low_le_high p0 p1 p2
  obtain ⟨⟨l1, l2, l3⟩, ⟨g1, g2, g3⟩⟩ := hb
  obtain ⟨c1, c2, c3⟩ := hc
  have hex2 : boxOverlapsSphere (cornerBox p0 p1 p2) sphere = true := hex
  show boxOverlapsSphere b sphere = true
  unfold boxOverlapsSphere at hex2 ⊢
  simp only [decide_eq_true_eq, Vector3.dot, Vector3.sub, Vector3.min, Vector3.max] at hex2 ⊢
  have k1 := clamp_sq_mono sphere.center.x b.low.x b.high.x _ _ l1 c1 g1
  have k2 := clamp_sq_mono sphere.center.y b.low.y b.high.y _ _ l2 c2 g2
  have k3 := clamp_sq_mono sphere.center.z b.low.z b.high.z _ _ l3 c3 g3
  linarith

/-- The standard overlap tests of `sampleExternals` accept every box that
contains a triangle whose own box overlaps the query box. -/
theorem sampleExternals_boxTestsAgree (box : AABox) :
    sampleExternals.BoxTestsAgree box := by
  intro b p0 p1 p2 hex hb
  have hex2 : boxesOverlap (cornerBox p0 p1 p2) box = true := hex
  show boxesOverlap b box = true
  unfold boxesOverlap at hex2 ⊢
  simp only [decide_eq_true_eq] at hex2 ⊢
  exact ⟨Vector3.le_trans hb.1 hex2.1, Vector3.le_trans hex2.2 hb.2⟩

/-! ## Claim C9 -/

end G3D
